import Mathlib

/-!
# hprose-golang `rpc` package: request dispatch engine

A shallow embedding of `rpc/service.go` (and the argument fixer of
`rpc/socket_service.go`).

* A Go panic is a `Fault`; code that may panic returns `Except Fault _`, and
  code that also acts on the outside world runs in the monad `M`.
* A Go `error` value is a `GoError`: `none` is the nil error.
* A `reflect.Value` is a `Value`: a static type together with its data.
* The value codec (package `io`), the standard library and the registry are
  not part of `rpc/service.go`; the codec is a parameter (`Codec`), as are the
  tag bytes.
* Registered functions, event callbacks, filters and handlers are functions
  that return a value or panic. Values are data: the argument values change
  only through what a called function hands back (`CallResult.args`), and the
  fields of the context are written by the engine only.
* The calls the engine makes, the goroutines it starts and the time it sleeps
  are recorded in the `World`.
-/

namespace Hprose

/-- One byte of a request or a response. -/
abbrev Byte := Nat

/-! ## Faults and errors -/

/-- A Go panic: the panic payload (as `%v` prints it) and the text that
`debug.Stack()` yields when the panic is recovered. -/
structure Fault where
  payload : String
  stack : String
deriving DecidableEq, Repr

/-- A non-nil Go `error`: an ordinary error with its message (`errors.New`,
`fmt.Errorf`), a `*PanicError`, or an error value whose `Error` method panics
(an error of a user type; a nil `*PanicError`, whose fields cannot be read). -/
inductive GoErr where
  | errorString (msg : String)
  | panicError (panic : String) (stack : String)
  | faulty (f : Fault)
deriving DecidableEq, Repr

/-- A Go `error` interface value; `none` is `nil`. -/
abbrev GoError := Option GoErr

/-- Embeds `NewPanicError(e)`: wraps a recovered panic payload with the captured stack. -/
def NewPanicError (f : Fault) : GoErr := GoErr.panicError f.payload f.stack

/-- Modelled from the spec: `Error()` of an error value, a call of a method of
that value, which yields its text or panics. `PanicError.Error` is not in
`rpc/service.go`; the spec has a panic error carry the message only outside
debug mode, so its text is the panic payload. -/
def GoErr.Error : GoErr → Except Fault String
  | GoErr.errorString msg => Except.ok msg
  | GoErr.panicError p _ => Except.ok p
  | GoErr.faulty f => Except.error f

/-- The runtime panic of a nil dereference. -/
def nilDeref : Fault := ⟨"runtime error: invalid memory address or nil pointer dereference", ""⟩

/-- The runtime panic of an index out of range. -/
def indexOutOfRange : Fault := ⟨"runtime error: index out of range", ""⟩

/-- The runtime panic of a failed single-value type assertion. -/
def badAssertion : Fault := ⟨"interface conversion", ""⟩

/-- The panic of `reflect.Value.Bytes` on a value that is no byte slice. -/
def notBytes : Fault := ⟨"reflect: call of reflect.Value.Bytes on non-bytes Value", ""⟩

/-! ## Reflected values -/

/-- The `reflect.Type`s the engine distinguishes; every other type is `named`,
or the slice type `[]T` of a type `T`. -/
inductive Ty where
  | interfaceType
  | contextType
  | serviceContextType
  | socketContextType
  | netConnType
  | errorType
  | connImpl
  | named (n : String)
  | sliceOf (elem : Ty)
deriving DecidableEq, Repr

/-- The data held by a reflected value. -/
inductive Data where
  | null
  | int (i : Int)
  | str (s : String)
  | bool (b : Bool)
  | bytes (b : List Byte)
  | err (e : GoErr)
  | serviceContext
  | socketContext
  | conn
deriving DecidableEq, Repr

/-- A `reflect.Value`: its static type (`Type()`) and its data. A value of an
interface type that holds nil has data `null`. -/
structure Value where
  typ : Ty
  data : Data
deriving DecidableEq, Repr

/-- Embeds `reflect.New(t).Elem()`: the zero value of type `t`. -/
def Value.zero (t : Ty) : Value := ⟨t, Data.null⟩

/-- Embeds `v.Bytes()`: panics unless the value is a byte slice. -/
def Value.Bytes (v : Value) : Except Fault (List Byte) :=
  match v.data with
  | Data.bytes b => Except.ok b
  | _ => Except.error notBytes

/-- The two-value assertion `v.Interface().(error)`: `some e` when the dynamic
value is an error (`ok` is true), `none` when it is not. A nil interface, also
one of static type `error`, has no dynamic type, so the assertion fails on it. -/
def Value.asError (v : Value) : Option GoErr :=
  match v.data with
  | Data.err e => some e
  | _ => none

/-! ## The outside world and the monad of the engine -/

/-- The part of the call context that callbacks receive as `Context`. -/
structure BaseContext where
  ByRef : Bool
  IsMissingMethod : Bool
  Oneway : Bool
deriving DecidableEq, Repr

/-- One call of a registered function: whether it was called as the
missing-method handler, with which name and which arguments. -/
structure Invocation where
  asMissing : Bool
  name : String
  args : List Value
deriving DecidableEq, Repr

/-- What the engine does to the outside world: the registered functions it has
called (oldest first), the detached goroutines it has started, and the total
duration it has slept. -/
structure World where
  invoked : List Invocation
  spawned : List Invocation
  slept : Nat
deriving DecidableEq, Repr

/-- The outcome of running engine code: a value, a panic that propagates, or a
loop that ran out of its budget of iterations. -/
inductive Res (α : Type) where
  | ok (a : α) (w : World)
  | fault (f : Fault) (w : World)
  | diverge

/-- The world a run ends in, with a value or with a panic. -/
def Res.endWorld {α : Type} (r : Res α) : Option World :=
  match r with
  | Res.ok _ w => some w
  | Res.fault _ w => some w
  | Res.diverge => none

/-- Engine code: a function of the world. -/
def M (α : Type) : Type := World → Res α

/-- Returns a value, leaving the world as it is. -/
def M.pure {α : Type} (a : α) : M α := fun w => Res.ok a w

/-- Sequencing: a panic or a divergence of the first part ends the whole. -/
def M.bind {α β : Type} (x : M α) (k : α → M β) : M β := fun w =>
  match x w with
  | Res.ok a w1 => k a w1
  | Res.fault f w1 => Res.fault f w1
  | Res.diverge => Res.diverge

instance : Monad M where
  pure := M.pure
  bind := M.bind

/-- A panic. -/
def throwFault {α : Type} (f : Fault) : M α := fun w => Res.fault f w

/-- Runs code that does not touch the world. -/
def liftE {α : Type} (x : Except Fault α) : M α :=
  match x with
  | Except.ok a => M.pure a
  | Except.error f => throwFault f

/-- The deferred `recover()` of a function: when the body panics, the handler
yields the function result. -/
def recover {α : Type} (body : M α) (handler : Fault → M α) : M α := fun w =>
  match body w with
  | Res.ok a w1 => Res.ok a w1
  | Res.fault f w1 => handler f w1
  | Res.diverge => Res.diverge

/-- Appends a synchronous call to the log of the world. -/
def logInvoke (i : Invocation) : M Unit := fun w =>
  Res.ok () { w with invoked := w.invoked ++ [i] }

/-- Appends a detached call to the log of the world. -/
def logSpawn (i : Invocation) : M Unit := fun w =>
  Res.ok () { w with spawned := w.spawned ++ [i] }

/-- The effect of `time.Sleep(d)`. -/
def sleep (d : Nat) : M Unit := fun w =>
  Res.ok () { w with slept := w.slept + d }

/-- Code that never exhausts a loop budget. -/
def NoDiverge {α : Type} (x : M α) : Prop := ∀ w, x w ≠ Res.diverge

/-- Code that always returns a value: no panic escapes it. -/
def Total {α : Type} (x : M α) : Prop := ∀ w, ∃ a w1, x w = Res.ok a w1

/-! ## The value codec (package `io`) -/

/-- What the engine consumes from outside `rpc/service.go`. First the value
codec, package `io`: the tag bytes, the encoders of a writer and the decoders
of a reader. `WR` and `RR` are the reference tables a writer and a reader keep
between two resets. An encoder gets the simple flag and the table and yields
the bytes and the new table; a decoder gets the table and the unread bytes and
yields the value, the number of bytes it consumed and the new table, or
panics. Then `strings.ToLower`, the lower-casing of Unicode of the standard
library, with which `doSingleInvoke` makes the registry key of a name. -/
structure Codec (WR RR : Type) where
  TagCall : Byte
  TagEnd : Byte
  TagResult : Byte
  TagArgument : Byte
  TagError : Byte
  TagFunctions : Byte
  TagList : Byte
  TagTrue : Byte
  wrefs : WR
  rrefs : RR
  writeNil : List Byte
  writeValue : Bool → WR → Value → List Byte × WR
  writeSlice : Bool → WR → List Value → List Byte × WR
  writeString : Bool → WR → String → List Byte × WR
  writeStringSlice : Bool → WR → List String → List Byte × WR
  readString : RR → List Byte → Except Fault (String × Nat × RR)
  readCount : List Byte → Except Fault (Nat × Nat)
  readSlice : RR → List Byte → List Value → Except Fault (List Value × Nat × RR)
  readSliceWithoutTag : RR → List Byte → Except Fault (List Value × Nat × RR)
  ToLower : String → String

/-- An `io.Writer`: the bytes written so far, the simple flag and the
reference table. -/
structure Writer (WR : Type) where
  buf : List Byte
  Simple : Bool
  refs : WR

/-- An `io.Reader`: the buffer, the read position and the reference table. -/
structure Reader (RR : Type) where
  buf : List Byte
  off : Nat
  refs : RR

section CodecOps

variable {WR RR : Type} (C : Codec WR RR)

/-- Embeds `io.NewWriter(simple)`. -/
def NewWriter (simple : Bool) : Writer WR := ⟨[], simple, C.wrefs⟩

/-- Embeds `writer.WriteByte(b)`. -/
def Writer.WriteByte (w : Writer WR) (b : Byte) : Writer WR :=
  { w with buf := w.buf ++ [b] }

/-- Embeds `writer.Write(bytes)`. -/
def Writer.Write (w : Writer WR) (b : List Byte) : Writer WR :=
  { w with buf := w.buf ++ b }

/-- Embeds `writer.WriteNil()`. -/
def Writer.WriteNil (w : Writer WR) : Writer WR :=
  { w with buf := w.buf ++ C.writeNil }

/-- Embeds `writer.WriteValue(v)`. -/
def Writer.WriteValue (w : Writer WR) (v : Value) : Writer WR :=
  { w with buf := w.buf ++ (C.writeValue w.Simple w.refs v).1,
           refs := (C.writeValue w.Simple w.refs v).2 }

/-- Embeds `writer.WriteSlice(vs)`. -/
def Writer.WriteSlice (w : Writer WR) (vs : List Value) : Writer WR :=
  { w with buf := w.buf ++ (C.writeSlice w.Simple w.refs vs).1,
           refs := (C.writeSlice w.Simple w.refs vs).2 }

/-- Embeds `writer.WriteString(s)`. -/
def Writer.WriteString (w : Writer WR) (s : String) : Writer WR :=
  { w with buf := w.buf ++ (C.writeString w.Simple w.refs s).1,
           refs := (C.writeString w.Simple w.refs s).2 }

/-- Embeds `writer.WriteStringSlice(ss)`. -/
def Writer.WriteStringSlice (w : Writer WR) (ss : List String) : Writer WR :=
  { w with buf := w.buf ++ (C.writeStringSlice w.Simple w.refs ss).1,
           refs := (C.writeStringSlice w.Simple w.refs ss).2 }

/-- Modelled from the spec: `writer.Reset()` of package `io`, which is not among
the sources. It clears what the writer keeps pending between values, its
reference table, so that the values written next are encoded like those of a
fresh writer; `doOutput` calls it right after writing the argument tag, and the
bytes already written stay. -/
def Writer.Reset (w : Writer WR) : Writer WR :=
  { w with refs := C.wrefs }

/-- Embeds `writer.Bytes()`. -/
def Writer.Bytes (w : Writer WR) : List Byte := w.buf

/-- Embeds `io.NewReader(buf, simple)`; the engine only builds readers with
`simple = false`. -/
def NewReader (buf : List Byte) : Reader RR := ⟨buf, 0, C.rrefs⟩

/-- The bytes not read yet. -/
def Reader.rest (r : Reader RR) : List Byte := r.buf.drop r.off

/-- Embeds `reader.ReadByte()`: the next byte, or `none` for the `io.EOF` error. -/
def Reader.ReadByte (r : Reader RR) : Option (Byte × Reader RR) :=
  match r.rest with
  | [] => none
  | b :: _ => some (b, { r with off := r.off + 1 })

/-- Modelled from the spec: `reader.CheckTags(expected)` of package `io`, which
reads the next tag and checks it: it panics at the end of the input and on a
tag that is not expected. -/
def Reader.CheckTags (r : Reader RR) (expectTags : List Byte) :
    Except Fault (Byte × Reader RR) :=
  match r.ReadByte with
  | none => Except.error ⟨"unexpected end of input", ""⟩
  | some (tag, r1) =>
    if tag ∈ expectTags then Except.ok (tag, r1)
    else Except.error ⟨"unexpected tag", ""⟩

/-- Modelled from the spec: `reader.Reset()` of package `io`. It clears the
reference table of the reader; the read position stays. -/
def Reader.Reset (r : Reader RR) : Reader RR :=
  { r with refs := C.rrefs }

/-- Embeds `reader.ReadString()`. -/
def Reader.ReadString (r : Reader RR) : Except Fault (String × Reader RR) :=
  match C.readString r.refs r.rest with
  | Except.ok (s, k, refs) => Except.ok (s, { r with off := r.off + k, refs := refs })
  | Except.error f => Except.error f

/-- Embeds `reader.ReadCount()`. -/
def Reader.ReadCount (r : Reader RR) : Except Fault (Nat × Reader RR) :=
  match C.readCount r.rest with
  | Except.ok (n, k) => Except.ok (n, { r with off := r.off + k })
  | Except.error f => Except.error f

/-- Embeds `reader.ReadSlice(slots)`: fills the typed slots from the wire. -/
def Reader.ReadSlice (r : Reader RR) (slots : List Value) :
    Except Fault (List Value × Reader RR) :=
  match C.readSlice r.refs r.rest slots with
  | Except.ok (vs, k, refs) => Except.ok (vs, { r with off := r.off + k, refs := refs })
  | Except.error f => Except.error f

/-- Embeds `reader.ReadSliceWithoutTag()`. -/
def Reader.ReadSliceWithoutTag (r : Reader RR) : Except Fault (List Value × Reader RR) :=
  match C.readSliceWithoutTag r.refs r.rest with
  | Except.ok (vs, k, refs) => Except.ok (vs, { r with off := r.off + k, refs := refs })
  | Except.error f => Except.error f

end CodecOps

/-! ## Methods, contexts, events, filters and handlers -/

/-- What a call of a Go function yields: the returned values and the argument
values as the call leaves them. -/
structure CallResult where
  results : List Value
  args : List Value

/-- The `reflect.Type` of a function: the parameter types as `In(i)` gives
them, the variadic tail included, and whether the function is variadic (a
variadic function has at least one parameter, the tail). -/
structure FuncType where
  In : List Ty
  IsVariadic : Bool

/-- What `reflect` documents for `IsVariadic`: for a function with the final
parameter `...T`, `In(NumIn() - 1)` is the slice type `[]T`. -/
def FuncType.tailOf (ft : FuncType) (elem : Ty) : Prop :=
  ft.IsVariadic = true ∧ ft.In.getLast? = some (Ty.sliceOf elem)

instance (ft : FuncType) (elem : Ty) : Decidable (ft.tailOf elem) :=
  inferInstanceAs (Decidable (ft.IsVariadic = true ∧ ft.In.getLast? = some (Ty.sliceOf elem)))

/-- Embeds `ft.NumIn()`. -/
def FuncType.NumIn (ft : FuncType) : Nat := ft.In.length

/-- Embeds `ft.In(i)`; the engine only asks for declared parameters. -/
def FuncType.InAt (ft : FuncType) (i : Nat) : Ty := ft.In.getD i Ty.interfaceType

/-- A registered function as a `reflect.Value`: its type, what `Call` and
`CallSlice` do on a list of argument values (the body may panic, also because
the arguments do not fit), and, when the function has the type
`MissingMethod`, what it does as a missing-method handler. -/
structure GoFunc where
  ft : FuncType
  body : List Value → Except Fault CallResult
  asMissingMethod : Option (String → List Value → BaseContext → Except Fault CallResult)

/-- The result mode of a method. -/
inductive ResultMode where
  | Normal
  | Serialized
  | Raw
  | RawWithEndTag
deriving DecidableEq, Repr

/-- A `Method` of the registry, with the fields the engine reads. -/
structure Method where
  Function : GoFunc
  Mode : ResultMode
  Simple : Bool

/-- The dynamic type of `context.TransportContext`. -/
inductive Transport where
  | none
  | socket
  | other
deriving DecidableEq, Repr

/-- A `*ServiceContext`, with the fields the engine reads and writes. -/
structure ServiceContext where
  Method : Option Method
  ByRef : Bool
  IsMissingMethod : Bool
  Oneway : Bool
  TransportContext : Transport

/-- The context as callbacks see it. -/
def ServiceContext.base (c : ServiceContext) : BaseContext :=
  ⟨c.ByRef, c.IsMissingMethod, c.Oneway⟩

/-- The send-error callback of the event sink: not implemented, implemented
without a result (`sendErrorEvent`), or implemented with an error result
(`sendErrorEvent2`). -/
inductive SendErrorHook where
  | absent
  | notify (f : GoError → BaseContext → Except Fault Unit)
  | rewrite (f : GoError → BaseContext → Except Fault GoError)

/-- The before-invoke callback: `beforeInvokeEvent` or `beforeInvokeEvent2`. -/
inductive BeforeInvokeHook where
  | absent
  | notify (f : String → List Value → Bool → BaseContext → Except Fault Unit)
  | check (f : String → List Value → Bool → BaseContext → Except Fault GoError)

/-- The after-invoke callback: `afterInvokeEvent` or `afterInvokeEvent2`. -/
inductive AfterInvokeHook where
  | absent
  | notify (f : String → List Value → Bool → List Value → BaseContext → Except Fault Unit)
  | check (f : String → List Value → Bool → List Value → BaseContext → Except Fault GoError)

/-- A `ServiceEvent`: which callbacks the event sink implements. -/
structure ServiceEvent where
  onSendError : SendErrorHook
  onBeforeInvoke : BeforeInvokeHook
  onAfterInvoke : AfterInvokeHook

/-- A `Filter`: a pair of byte transforms, each of which may panic. -/
structure Filter where
  InputFilter : List Byte → BaseContext → Except Fault (List Byte)
  OutputFilter : List Byte → BaseContext → Except Fault (List Byte)

/-- The code of a user handler: it calls the next handler a finite number of
times, each time with a request of its choice, and then returns or panics. -/
inductive Script (Q A R : Type) where
  | done (r : Except Fault R)
  | call (q : Q) (k : A → Script Q A R)

/-- Runs the code of a user handler against the next handler. -/
def Script.run {Q A R : Type} (next : Q → M A) : Script Q A R → M R
  | Script.done r => liftE r
  | Script.call q k => M.bind (next q) (fun a => Script.run next (k a))

/-- The results of an invoke handler: the result values, the error, and the
argument values as the call leaves them. -/
structure InvokeRet where
  results : List Value
  err : GoError
  args : List Value

/-- A `NextInvokeHandler`. -/
abbrev NextInvokeHandler := String → List Value → ServiceContext → M InvokeRet

/-- An `InvokeHandler` added by the user. -/
abbrev InvokeHandler :=
  String → List Value → BaseContext → Script (String × List Value) InvokeRet InvokeRet

/-- A `NextFilterHandler`. -/
abbrev NextFilterHandler := List Byte → ServiceContext → M (List Byte × GoError)

/-- A `FilterHandler` added by the user. -/
abbrev FilterHandler :=
  List Byte → BaseContext → Script (List Byte) (List Byte × GoError) (List Byte × GoError)

/-- The `fixer` interface value of a service: nil, or an implementation of
`FixArguments`, which yields the fixed argument slice or panics. -/
abbrev Fixer := Option (List Value → ServiceContext → Except Fault (List Value))

/-- A `BaseService`: the registry, the handlers and filters added by the user,
the fixer, the event sink and the settings the engine reads. -/
structure BaseService where
  RemoteMethods : String → Option Method
  MethodNames : List String
  invokeHandlers : List InvokeHandler
  beforeFilterHandlers : List FilterHandler
  afterFilterHandlers : List FilterHandler
  filters : List Filter
  fixer : Fixer
  Event : ServiceEvent
  Debug : Bool
  ErrorDelay : Int

/-- The text of a byte slice, as `%s` prints it. -/
def bytesToString (b : List Byte) : String := String.mk (b.map Char.ofNat)

/-! ## `rpc/service.go` and the fixer of `rpc/socket_service.go` -/

/-- Embeds `reflect.ValueOf(context)` for the live `*ServiceContext`. -/
def contextValue : Value := ⟨Ty.serviceContextType, Data.serviceContext⟩

/-- Embeds `fixArguments`: replaces the last argument by the context when its type is
the empty interface, `Context` or `*ServiceContext`. Indexing an empty slice
panics. -/
def fixArguments (args : List Value) (_context : ServiceContext) :
    Except Fault (List Value) :=
  let i := args.length - 1
  match args.get? i with
  | none => Except.error indexOutOfRange
  | some a =>
    let typ := a.typ
    if typ = Ty.interfaceType ∨ typ = Ty.contextType ∨ typ = Ty.serviceContextType then
      Except.ok (args.set i contextValue)
    else Except.ok args

/-- Embeds `socketFixer.FixArguments`. -/
def socketFixer_FixArguments (args : List Value) (context : ServiceContext) :
    Except Fault (List Value) :=
  let i := args.length - 1
  match args.get? i with
  | none => Except.error indexOutOfRange
  | some a =>
    match a.typ with
    | Ty.socketContextType =>
      if context.TransportContext = Transport.socket then
        Except.ok (args.set i ⟨Ty.socketContextType, Data.socketContext⟩)
      else Except.ok args
    | Ty.netConnType =>
      if context.TransportContext = Transport.socket then
        Except.ok (args.set i ⟨Ty.connImpl, Data.conn⟩)
      else Except.ok args
    | _ => fixArguments args context

/-- Embeds `callService`: calls the function of the resolved method, as the
missing-method handler when the context says so, and with at most the declared
number of arguments when the function is not variadic. Arguments that are not
passed stay as they are. -/
def callService (name : String) (args : List Value) (context : ServiceContext) :
    M CallResult :=
  match context.Method with
  | none => throwFault nilDeref
  | some remoteMethod =>
    let function := remoteMethod.Function
    if context.IsMissingMethod then
      match function.asMissingMethod with
      | none => throwFault badAssertion
      | some missingMethod => do
        logInvoke ⟨true, name, args⟩
        liftE (missingMethod name args context.base)
    else
      let ft := function.ft
      if ft.IsVariadic then do
        logInvoke ⟨false, name, args⟩
        liftE (function.body args)
      else do
        let count := args.length
        let n := ft.NumIn
        let passed := if n < count then args.take n else args
        logInvoke ⟨false, name, passed⟩
        let r ← liftE (function.body passed)
        pure ⟨r.results, r.args ++ args.drop passed.length⟩

section Engine

variable {WR RR : Type} (C : Codec WR RR)

/-- Embeds `results[0]`. -/
def first (results : List Value) : Except Fault Value :=
  match results with
  | [] => Except.error indexOutOfRange
  | v :: _ => Except.ok v

/-- Embeds `doOutput`: encodes the results according to the mode of the method, and
the arguments after them when the context is by-ref. -/
def doOutput (args : List Value) (results : List Value) (context : ServiceContext) :
    Except Fault (List Byte) :=
  match context.Method with
  | none => Except.error nilDeref
  | some method =>
    let writer := NewWriter C method.Simple
    match method.Mode with
    | ResultMode.RawWithEndTag => do
      let r ← first results
      r.Bytes
    | ResultMode.Raw => do
      let r ← first results
      let b ← r.Bytes
      pure (writer.Write b).Bytes
    | mode => do
      let writer := writer.WriteByte C.TagResult
      let writer ←
        if mode = ResultMode.Serialized then do
          let r ← first results
          let b ← r.Bytes
          pure (writer.Write b)
        else
          match results with
          | [] => pure (writer.WriteNil C)
          | [v] => pure (writer.WriteValue C v)
          | _ => pure (writer.WriteSlice C results)
      let writer :=
        if context.ByRef then
          ((writer.WriteByte C.TagArgument).Reset C).WriteSlice C args
        else writer
      pure writer.Bytes

/-- Embeds `getErrorMessage`: calling `Error()` on the nil error panics, and so
does an `Error` method that panics or a nil `*PanicError`. -/
def getErrorMessage (err : GoError) (debug : Bool) : Except Fault String :=
  match err with
  | some (GoErr.panicError p stack) =>
    if debug then Except.ok (p ++ "\r\n" ++ stack)
    else GoErr.Error (GoErr.panicError p stack)
  | some e => e.Error
  | none => Except.error nilDeref

/-- Embeds `fireErrorEvent`: a panic of the callback becomes a panic error. -/
def fireErrorEvent (event : ServiceEvent) (e : GoError) (context : BaseContext) : GoError :=
  match event.onSendError with
  | SendErrorHook.absent => e
  | SendErrorHook.notify f =>
    match f e context with
    | Except.ok _ => e
    | Except.error p => some (NewPanicError p)
  | SendErrorHook.rewrite f =>
    match f e context with
    | Except.ok e1 => e1
    | Except.error p => some (NewPanicError p)

/-- Embeds `fireBeforeInvokeEvent`. -/
def fireBeforeInvokeEvent (event : ServiceEvent) (name : String) (args : List Value)
    (context : ServiceContext) : GoError :=
  match event.onBeforeInvoke with
  | BeforeInvokeHook.absent => none
  | BeforeInvokeHook.notify f =>
    match f name args context.ByRef context.base with
    | Except.ok _ => none
    | Except.error p => some (NewPanicError p)
  | BeforeInvokeHook.check f =>
    match f name args context.ByRef context.base with
    | Except.ok e => e
    | Except.error p => some (NewPanicError p)

/-- Embeds `fireAfterInvokeEvent`. -/
def fireAfterInvokeEvent (event : ServiceEvent) (name : String) (args : List Value)
    (results : List Value) (context : ServiceContext) : GoError :=
  match event.onAfterInvoke with
  | AfterInvokeHook.absent => none
  | AfterInvokeHook.notify f =>
    match f name args context.ByRef results context.base with
    | Except.ok _ => none
    | Except.error p => some (NewPanicError p)
  | AfterInvokeHook.check f =>
    match f name args context.ByRef results context.base with
    | Except.ok e => e
    | Except.error p => some (NewPanicError p)

/-- Embeds `BaseService.sendError`: the error tag and the message string. -/
def sendError (S : BaseService) (err : GoError) (context : ServiceContext) :
    Except Fault (List Byte) := do
  let err := fireErrorEvent S.Event err context.base
  let w := NewWriter C true
  let w := w.WriteByte C.TagError
  let msg ← getErrorMessage err S.Debug
  pure (w.WriteString C msg).Bytes

/-- Embeds `BaseService.endError`: `sendError` followed by the end tag. -/
def endError (S : BaseService) (err : GoError) (context : ServiceContext) :
    Except Fault (List Byte) := do
  let b ← sendError C S err context
  pure (b ++ [C.TagEnd])

/-- Embeds `invoke`: the default invoke handler. A oneway call starts a detached
goroutine and returns at once; otherwise the function is called and a last
result that is an error is taken off the results. -/
def invoke (name : String) (args : List Value) (context : ServiceContext) : M InvokeRet :=
  recover
    (if context.Oneway then do
      logSpawn ⟨context.IsMissingMethod, name, args⟩
      pure ⟨[], none, args⟩
    else do
      let r ← callService name args context
      let results := r.results
      let n := results.length
      if n = 0 then pure ⟨results, none, r.args⟩
      else
        match (results.get? (n - 1)).bind Value.asError with
        | some e => pure ⟨results.take (n - 1), some e, r.args⟩
        | none => pure ⟨results, none, r.args⟩)
    (fun e => pure ⟨[], some (NewPanicError e), args⟩)

/-- Embeds `readArguments`: allocates `max(n, count)` typed slots, fills the first
`count` from the wire and lets the fixer fill a missing trailing context. -/
def readArguments (fixer : Fixer) (reader : Reader RR) (method : Option Method)
    (context : ServiceContext) : Except Fault (List Value × Reader RR) :=
  match method with
  | none => reader.ReadSliceWithoutTag C
  | some method => do
    let (count, reader) ← reader.ReadCount C
    let ft := method.Function.ft
    let n := if ft.IsVariadic then ft.NumIn - 1 else ft.NumIn
    let max := Nat.max n count
    let args := (List.range max).map (fun i =>
      if i < n then Value.zero (ft.InAt i)
      else if ft.IsVariadic then Value.zero (ft.InAt n)
      else Value.zero Ty.interfaceType)
    let (filled, reader) ← reader.ReadSlice C (args.take count)
    let args := filled ++ args.drop count
    if !ft.IsVariadic && n > count then
      match fixer with
      | none => Except.error nilDeref
      | some fx => do
        let args ← fx args context
        pure (args, reader)
    else pure (args, reader)

/-- Modelled from the spec: one layer of the handler manager (not among the
sources); a fault raised by a handler hook is caught locally and converted
into a panic error. -/
def getNextInvokeHandler (next : NextInvokeHandler) (handler : InvokeHandler) :
    NextInvokeHandler := fun name args context =>
  recover
    (Script.run (fun q => next q.1 q.2 context) (handler name args context.base))
    (fun e => pure ⟨[], some (NewPanicError e), args⟩)

/-- Modelled from the spec: `handlerManager.invokeHandler`, the invoke handler
hook: the handlers added by the user, the first one outermost, around the
default, `invoke`. -/
def invokeHandler (S : BaseService) : NextInvokeHandler :=
  S.invokeHandlers.foldr (fun h next => getNextInvokeHandler next h) invoke

/-- Embeds `BaseService.beforeInvoke`: the before-invoke event, the invoke handler,
the after-invoke event and the encoding of the output. -/
def beforeInvoke (S : BaseService) (name : String) (args : List Value)
    (context : ServiceContext) : M (List Byte × GoError) :=
  match fireBeforeInvokeEvent S.Event name args context with
  | some e => pure ([], some e)
  | none => do
    let r ← invokeHandler S name args context
    match r.err with
    | some e => pure ([], some e)
    | none =>
      match fireAfterInvokeEvent S.Event name r.args r.results context with
      | some e => pure ([], some e)
      | none => do
        let out ← liftE (doOutput C r.args r.results context)
        pure (out, none)

/-- Embeds `mergeResult`: the outputs of the sub-calls in order, then the end tag. -/
def mergeResult (results : List (List Byte)) : Except Fault (List Byte) :=
  match results with
  | [] => Except.error indexOutOfRange
  | [r] => Except.ok (r ++ [C.TagEnd])
  | r :: rest => Except.ok (rest.foldl (fun w x => w ++ x) r ++ [C.TagEnd])

/-- What the first part of `doSingleInvoke` has decoded. -/
structure Decoded (RR : Type) where
  name : String
  method : Option Method
  args : List Value
  tag : Byte
  reader : Reader RR
  context : ServiceContext

/-- What `doSingleInvoke` returns and leaves behind: the output of the
sub-call, the tag that ended it, the reader and the context. -/
structure SingleRet (RR : Type) where
  result : List Byte
  tag : Byte
  reader : Reader RR
  context : ServiceContext

/-- Embeds `BaseService.doSingleInvoke`, first part: reads the name, looks the method
up, reads the arguments and the by-ref marker. -/
def doSingleInvokeDecode (S : BaseService) (reader : Reader RR) (context : ServiceContext) :
    Except Fault (Decoded RR) := do
  let (name, reader) ← reader.ReadString C
  let aliasName := C.ToLower name
  let method := S.RemoteMethods aliasName
  let (tag, reader) ← reader.CheckTags [C.TagList, C.TagEnd, C.TagCall]
  if tag = C.TagList then do
    let reader := reader.Reset C
    let (args, reader) ← readArguments C S.fixer reader method context
    let (tag, reader) ← reader.CheckTags [C.TagTrue, C.TagEnd, C.TagCall]
    if tag = C.TagTrue then do
      let context := { context with ByRef := true }
      let (tag, reader) ← reader.CheckTags [C.TagEnd, C.TagCall]
      pure ⟨name, method, args, tag, reader, context⟩
    else pure ⟨name, method, args, tag, reader, context⟩
  else pure ⟨name, method, [], tag, reader, context⟩

/-- Embeds `BaseService.doSingleInvoke`: decodes one call, resolves the method (the
wildcard when the name is not registered), invokes it and returns the output
of the sub-call with the tag that ended it. -/
def doSingleInvoke (S : BaseService) (reader : Reader RR) (context : ServiceContext) :
    M (SingleRet RR) := do
  let d ← liftE (doSingleInvokeDecode C S reader context)
  let (method, context) :=
    match d.method with
    | none => (S.RemoteMethods "*", { d.context with IsMissingMethod := true })
    | some m => (some m, d.context)
  match method with
  | none => do
    let err := some (GoErr.errorString ("Can\x27t find this method " ++ d.name))
    let out ← liftE (sendError C S err context)
    pure ⟨out, d.tag, d.reader, context⟩
  | some m => do
    let context := { context with Method := some m }
    let (result, err) ← beforeInvoke C S d.name d.args context
    match err with
    | some e => do
      let out ← liftE (sendError C S (some e) context)
      pure ⟨out, d.tag, d.reader, context⟩
    | none => pure ⟨result, d.tag, d.reader, context⟩

/-- The loop of `BaseService.doInvoke`, with a budget of iterations: the
outputs of the sub-calls, in call order. -/
def doInvokeLoop (S : BaseService) :
    Nat → Reader RR → ServiceContext → List (List Byte) → M (List (List Byte))
  | 0, _, _, _ => fun _ => Res.diverge
  | fuel + 1, reader, context, results => do
    let r ← doSingleInvoke C S reader context
    let results := results ++ [r.result]
    if r.tag ≠ C.TagCall then pure results
    else doInvokeLoop S fuel (r.reader.Reset C) r.context results

/-- Embeds `BaseService.doInvoke`: runs the sub-calls and merges their outputs. Every
iteration reads at least one byte, so the unread bytes bound the iterations. -/
def doInvoke (S : BaseService) (reader : Reader RR) (context : ServiceContext) :
    M (List Byte) := do
  let results ← doInvokeLoop C S (reader.buf.length - reader.off + 1) reader context []
  liftE (mergeResult C results)

/-- Embeds `BaseService.doFunctionList`. -/
def doFunctionList (S : BaseService) (_context : ServiceContext) : List Byte :=
  let writer := NewWriter C true
  let writer := writer.WriteByte C.TagFunctions
  let writer := writer.WriteStringSlice C S.MethodNames
  let writer := writer.WriteByte C.TagEnd
  writer.Bytes

/-- Embeds `BaseService.afterFilter`: dispatches on the leading tag of the request. -/
def afterFilter (S : BaseService) (request : List Byte) (context : ServiceContext) :
    M (List Byte × GoError) :=
  recover
    (let reader : Reader RR := NewReader C request
     match reader.ReadByte with
     | none => pure ([], some (GoErr.errorString "EOF"))
     | some (tag, reader) =>
       if tag = C.TagCall then do
         let out ← doInvoke C S reader context
         pure (out, none)
       else if tag = C.TagEnd then pure (doFunctionList C S context, none)
       else pure ([], some (GoErr.errorString ("Wrong Request: \r\n" ++ bytesToString request))))
    (fun e => pure ([], some (NewPanicError e)))

/-- Modelled from the spec: one layer of the handler manager for the filter
handlers; a fault raised by a handler hook is caught locally and converted
into a panic error. -/
def getNextFilterHandler (next : NextFilterHandler) (handler : FilterHandler) :
    NextFilterHandler := fun request context =>
  recover
    (Script.run (fun q => next q context) (handler request context.base))
    (fun e => pure ([], some (NewPanicError e)))

/-- Modelled from the spec: `handlerManager.afterFilterHandler`: the handlers
added by the user around the default, `afterFilter`. -/
def afterFilterHandler (S : BaseService) : NextFilterHandler :=
  S.afterFilterHandlers.foldr (fun h next => getNextFilterHandler next h) (afterFilter C S)

/-- Modelled from the spec: `filterManager.inputFilter`: the input transforms
of the filters, the last filter first. -/
def inputFilter (S : BaseService) (data : List Byte) (context : ServiceContext) :
    Except Fault (List Byte) :=
  S.filters.reverse.foldlM (fun d f => f.InputFilter d context.base) data

/-- Modelled from the spec: `filterManager.outputFilter`: the output transforms
of the filters, in order. -/
def outputFilter (S : BaseService) (data : List Byte) (context : ServiceContext) :
    Except Fault (List Byte) :=
  S.filters.foldlM (fun d f => f.OutputFilter d context.base) data

/-- Embeds `BaseService.delayError`: the error response, after which the service
sleeps for the error delay when it is positive. -/
def delayError (S : BaseService) (err : GoError) (context : ServiceContext) :
    M (List Byte) := do
  let response ← liftE (endError C S err context)
  if S.ErrorDelay > 0 then sleep S.ErrorDelay.toNat
  pure response

/-- Embeds `BaseService.beforeFilter`: input filters, the after-filter handler, the
error response when that handler returns an error, output filters. When a
panic is recovered, the named result `response` has the value it had then. -/
def beforeFilter (S : BaseService) (request : List Byte) (context : ServiceContext) :
    M (List Byte × GoError) :=
  recover
    (do
      let request ← liftE (inputFilter S request context)
      let (response, err) ← afterFilterHandler C S request context
      recover
        (do
          let response ←
            match err with
            | some e => delayError C S (some e) context
            | none => pure response
          recover
            (do
              let out ← liftE (outputFilter S response context)
              pure (out, none))
            (fun e => pure (response, some (NewPanicError e))))
        (fun e => pure (response, some (NewPanicError e))))
    (fun e => pure ([], some (NewPanicError e)))

/-- Modelled from the spec: `handlerManager.beforeFilterHandler`: the handlers
added by the user around the default, `beforeFilter`. -/
def beforeFilterHandler (S : BaseService) : NextFilterHandler :=
  S.beforeFilterHandlers.foldr (fun h next => getNextFilterHandler next h) (beforeFilter C S)

/-- Embeds `BaseService.Handle`: handles a request and returns the response. -/
def Handle (S : BaseService) (request : List Byte) (context : ServiceContext) :
    M (List Byte) := do
  let (response, err) ← beforeFilterHandler C S request context
  match err with
  | some e => liftE (endError C S (some e) context)
  | none => pure response

end Engine

/-! ## The goroutine of a oneway call, and the resolution of a method -/

/-- The statement `defer recover()`, whose deferred call is `recover` itself.
In Go `recover` stops a panic only when a deferred function calls it; called
as the deferred function it returns nil and the panic goes on. -/
def deferRecover {α : Type} (body : M α) : M α := body

/-- The goroutine that `invoke` starts for a oneway call: `defer recover()`,
then `callService`. A panic that leaves a goroutine ends the program. -/
def onewayGoroutine (name : String) (args : List Value) (context : ServiceContext) :
    M Unit :=
  deferRecover (do
    let _ ← callService name args context
    pure ())

/-- The method and the context with which `doSingleInvoke` goes on after
decoding a call (its lines `if method == nil` to `context.IsMissingMethod =
true`): the registry entry of the name, or else the wildcard entry with the
context marked missing-method. -/
def resolveMethod {RR : Type} (S : BaseService) (d : Decoded RR) :
    Option Method × ServiceContext :=
  match d.method with
  | none => (S.RemoteMethods "*", { d.context with IsMissingMethod := true })
  | some m => (some m, d.context)

/-! ## A sample codec and sample services

A codec in the style of the hprose wire format, to run the engine on concrete
requests: `n` is nil, `t` and `f` the booleans, a digit or `i…;` an integer,
`e`, `u…` or `s…"…"` a string, `b…"…"` a byte slice, `a…{…}` a list and `r…;`
a reference to a string written before. Its decoders read the forms without
references. -/

namespace Sample

/-- The decimal digits of a number, the budget bounding their count. -/
def digitsAux : Nat → Nat → List Byte → List Byte
  | 0, _, acc => acc
  | fuel + 1, n, acc =>
    if n < 10 then (48 + n) :: acc
    else digitsAux fuel (n / 10) ((48 + n % 10) :: acc)

/-- The decimal digits of a number. -/
def digits (n : Nat) : List Byte := digitsAux (n + 1) n []

/-- The bytes of a text (of ASCII characters). -/
def textBytes (s : String) : List Byte := s.data.map Char.toNat

/-- The full form of a string. -/
def encString (s : String) : List Byte :=
  match s.data with
  | [] => [101]
  | [c] => [117, c.toNat]
  | cs => [115] ++ digits cs.length ++ [34] ++ cs.map Char.toNat ++ [34]

/-- The position of a string in the reference table. -/
def refIndex (s : String) : List String → Nat → Option Nat
  | [], _ => none
  | x :: xs, i => if x = s then some i else refIndex s xs (i + 1)

/-- Writes a string: a reference when the writer is not simple and the string
was written since the last reset. -/
def writeString (simple : Bool) (refs : List String) (s : String) : List Byte × List String :=
  if simple ∨ s.length < 2 then (encString s, refs)
  else
    match refIndex s refs 0 with
    | some i => ([114] ++ digits i ++ [59], refs)
    | none => (encString s, refs ++ [s])

/-- Writes an integer. -/
def encInt (i : Int) : List Byte :=
  if 0 ≤ i ∧ i ≤ 9 then [48 + i.toNat]
  else if i < 0 then [105, 45] ++ digits (-i).toNat ++ [59]
  else [105] ++ digits i.toNat ++ [59]

/-- Writes one value. -/
def writeValue (simple : Bool) (refs : List String) (v : Value) : List Byte × List String :=
  match v.data with
  | Data.null => ([110], refs)
  | Data.int i => (encInt i, refs)
  | Data.str s => writeString simple refs s
  | Data.bool true => ([116], refs)
  | Data.bool false => ([102], refs)
  | Data.bytes b => ([98] ++ digits b.length ++ [34] ++ b ++ [34], if simple then refs else refs ++ [""])
  | Data.err e =>
    match e.Error with
    | Except.ok msg => writeString simple refs msg
    | Except.error _ => ([110], refs)
  | Data.serviceContext => ([110], refs)
  | Data.socketContext => ([110], refs)
  | Data.conn => ([110], refs)

/-- Writes the elements of a list one after the other. -/
def writeElems (simple : Bool) : List String → List Value → List Byte × List String
  | refs, [] => ([], refs)
  | refs, v :: vs =>
    let r := writeValue simple refs v
    let rs := writeElems simple r.2 vs
    (r.1 ++ rs.1, rs.2)

/-- Writes a list of values; the list takes an entry of the reference table. -/
def writeSlice (simple : Bool) (refs : List String) (vs : List Value) : List Byte × List String :=
  let refs1 := if simple then refs else refs ++ [""]
  let r := writeElems simple refs1 vs
  ([97] ++ (if vs.length = 0 then [] else digits vs.length) ++ [123] ++ r.1 ++ [125], r.2)

/-- Writes a list of strings. -/
def writeStringSlice (simple : Bool) (refs : List String) (ss : List String) :
    List Byte × List String :=
  writeSlice simple refs (ss.map (fun s => ⟨Ty.named "string", Data.str s⟩))

/-- Reads decimal digits up to the byte `stop`: the number and the count of
bytes read, `stop` included. -/
def readIntUntil (stop : Byte) : List Byte → Nat → Nat → Option (Nat × Nat)
  | [], _, _ => none
  | b :: bs, acc, k =>
    if b = stop then some (acc, k + 1)
    else if 48 ≤ b ∧ b ≤ 57 then readIntUntil stop bs (acc * 10 + (b - 48)) (k + 1)
    else none

/-- Reads a string in one of its full forms. -/
def readText (rest : List Byte) : Option (String × Nat) :=
  match rest with
  | [] => none
  | b :: bs =>
    if b = 101 then some ("", 1)
    else if b = 117 then
      match bs with
      | [] => none
      | c :: _ => some (String.mk [Char.ofNat c], 2)
    else if b = 115 then
      match readIntUntil 34 bs 0 0 with
      | none => none
      | some (len, k) =>
        let body := (bs.drop k).take len
        if body.length = len ∧ (bs.drop (k + len)).head? = some 34 then
          some (bytesToString body, 1 + k + len + 1)
        else none
    else none

/-- Reads one value. -/
def readData (rest : List Byte) : Option (Data × Nat) :=
  match rest with
  | [] => none
  | b :: bs =>
    if b = 110 then some (Data.null, 1)
    else if b = 116 then some (Data.bool true, 1)
    else if b = 102 then some (Data.bool false, 1)
    else if 48 ≤ b ∧ b ≤ 57 then some (Data.int (Int.ofNat (b - 48)), 1)
    else if b = 105 then
      match readIntUntil 59 bs 0 0 with
      | none => none
      | some (n, k) => some (Data.int (Int.ofNat n), 1 + k)
    else
      match readText rest with
      | none => none
      | some (s, k) => some (Data.str s, k)

/-- Fills the slots with values read one after the other. -/
def readValues : List Value → List Byte → Option (List Value × Nat)
  | [], _ => some ([], 0)
  | slot :: slots, rest =>
    match readData rest with
    | none => none
    | some (d, k) =>
      match readValues slots (rest.drop k) with
      | none => none
      | some (vs, k2) => some (⟨slot.typ, d⟩ :: vs, k + k2)

/-- The panic of a decoder. -/
def malformed : Fault := ⟨"malformed input", ""⟩

/-- The decoder of a string. -/
def readString (_refs : Unit) (rest : List Byte) : Except Fault (String × Nat × Unit) :=
  match readText rest with
  | none => Except.error malformed
  | some (s, k) => Except.ok (s, k, ())

/-- The decoder of a count: digits up to the opening brace. -/
def readCount (rest : List Byte) : Except Fault (Nat × Nat) :=
  match readIntUntil 123 rest 0 0 with
  | none => Except.error malformed
  | some (n, k) => Except.ok (n, k)

/-- The decoder of the elements of a list into typed slots, up to the closing
brace. -/
def readSlice (_refs : Unit) (rest : List Byte) (slots : List Value) :
    Except Fault (List Value × Nat × Unit) :=
  match readValues slots rest with
  | none => Except.error malformed
  | some (vs, k) =>
    if (rest.drop k).head? = some 125 then Except.ok (vs, k + 1, ())
    else Except.error malformed

/-- The decoder of a list whose tag has been read: the count, then the
elements. -/
def readSliceWithoutTag (refs : Unit) (rest : List Byte) :
    Except Fault (List Value × Nat × Unit) :=
  match readCount rest with
  | Except.error f => Except.error f
  | Except.ok (n, k) =>
    match readSlice refs (rest.drop k) (List.replicate n (Value.zero Ty.interfaceType)) with
    | Except.error f => Except.error f
    | Except.ok (vs, k2, r) => Except.ok (vs, k + k2, r)

/-- The lower-case letter of a capital letter of ASCII, Latin-1, Greek or
Cyrillic, as `unicode.ToLower` gives it; every other character as it is. -/
def lowerChar (c : Char) : Char :=
  let n := c.toNat
  if (65 ≤ n ∧ n ≤ 90) ∨ (192 ≤ n ∧ n ≤ 214) ∨ (216 ≤ n ∧ n ≤ 222) ∨
      (913 ≤ n ∧ n ≤ 929) ∨ (931 ≤ n ∧ n ≤ 939) ∨ (1040 ≤ n ∧ n ≤ 1071) then
    Char.ofNat (n + 32)
  else if 1024 ≤ n ∧ n ≤ 1039 then Char.ofNat (n + 80)
  else c

/-- The lower-casing of the sample: `strings.ToLower` on names in the ASCII,
Latin-1, Greek and Cyrillic letters. The names of the sample services are
ASCII. -/
def toLower (s : String) : String := String.mk (s.data.map lowerChar)

/-- The sample codec, with the tag bytes of the hprose wire format and the
lower-casing of the sample. -/
def codec : Codec (List String) Unit where
  TagCall := 67
  TagEnd := 122
  TagResult := 82
  TagArgument := 65
  TagError := 69
  TagFunctions := 70
  TagList := 97
  TagTrue := 116
  wrefs := []
  rrefs := ()
  writeNil := [110]
  writeValue := writeValue
  writeSlice := writeSlice
  writeString := writeString
  writeStringSlice := writeStringSlice
  readString := readString
  readCount := readCount
  readSlice := readSlice
  readSliceWithoutTag := readSliceWithoutTag
  ToLower := toLower

/-- The world before anything has happened. -/
def world0 : World := ⟨[], [], 0⟩

/-- A fresh context, as the transport makes one for every request. -/
def context0 : ServiceContext := ⟨none, false, false, false, Transport.none⟩

/-- The value of an `int`. -/
def intV (i : Int) : Value := ⟨Ty.named "int", Data.int i⟩

/-- The value of a `string`. -/
def strV (s : String) : Value := ⟨Ty.named "string", Data.str s⟩

/-- A method in normal mode that is not simple. -/
def normal (ins : List Ty) (body : List Value → Except Fault CallResult) : Method :=
  ⟨⟨⟨ins, false⟩, body, none⟩, ResultMode.Normal, false⟩

/-- The function `func inc(i int) int`, which returns `i + 1`. -/
def inc : Method :=
  normal [Ty.named "int"] (fun args =>
    match args with
    | [⟨_, Data.int i⟩] => Except.ok ⟨[intV (i + 1)], args⟩
    | _ => Except.error ⟨"reflect: Call with wrong arguments", ""⟩)

/-- The function `func five() (int, error)`, which returns `5, nil`. -/
def five : Method :=
  normal [] (fun args => Except.ok ⟨[intV 5, ⟨Ty.errorType, Data.null⟩], args⟩)

/-- The function `func fail() (int, error)`, which returns `0, errors.New("failed")`. -/
def fail : Method :=
  normal [] (fun args =>
    Except.ok ⟨[intV 0, ⟨Ty.errorType, Data.err (GoErr.errorString "failed")⟩], args⟩)

/-- The function `func swap(a, b string) (string, string)`, which returns `b, a`. -/
def swap : Method :=
  normal [Ty.named "string", Ty.named "string"] (fun args =>
    match args with
    | [a, b] => Except.ok ⟨[b, a], args⟩
    | _ => Except.error ⟨"reflect: Call with wrong arguments", ""⟩)

/-- A missing-method handler that returns the name it is called with. -/
def echoName : Method :=
  ⟨⟨⟨[Ty.named "string", Ty.named "[]reflect.Value", Ty.contextType], false⟩,
     fun _ => Except.error ⟨"reflect: Call with wrong arguments", ""⟩,
     some (fun name args _ => Except.ok ⟨[strV name], args⟩)⟩,
   ResultMode.Normal, false⟩

/-- An event sink without callbacks. -/
def noEvent : ServiceEvent :=
  ⟨SendErrorHook.absent, BeforeInvokeHook.absent, AfterInvokeHook.absent⟩

/-- A service with the given registry and event sink and nothing else: no
handlers, no filters, the socket fixer, no debug, no error delay. -/
def service (methods : String → Option Method) (event : ServiceEvent) : BaseService :=
  ⟨methods, [], [], [], [], [], some socketFixer_FixArguments, event, false, 0⟩

/-- A method in raw mode whose function returns the bytes `R5`. -/
def raw : Method :=
  ⟨⟨⟨[], false⟩, fun args => Except.ok ⟨[⟨Ty.named "[]byte", Data.bytes [82, 53]⟩], args⟩, none⟩,
   ResultMode.Raw, false⟩

/-- A method in raw-with-end-tag mode whose function returns the bytes `R5z`,
a whole response. -/
def rawEnd : Method :=
  ⟨⟨⟨[], false⟩, fun args => Except.ok ⟨[⟨Ty.named "[]byte", Data.bytes [82, 53, 122]⟩], args⟩,
     none⟩,
   ResultMode.RawWithEndTag, false⟩

/-- A registry with `inc`, `five`, `fail`, `swap`, `raw` and `rawend`. -/
def registry : String → Option Method := fun name =>
  if name = "inc" then some inc
  else if name = "five" then some five
  else if name = "fail" then some fail
  else if name = "swap" then some swap
  else if name = "raw" then some raw
  else if name = "rawend" then some rawEnd
  else none

/-- The registry with the missing-method handler `echoName` as wildcard. -/
def registryWithWildcard : String → Option Method := fun name =>
  if name = "*" then some echoName else registry name

/-- An event sink whose send-error callback replaces every error by an error
with an empty message. -/
def blankErrors : ServiceEvent :=
  ⟨SendErrorHook.rewrite (fun _ _ => Except.ok (some (GoErr.errorString ""))),
   BeforeInvokeHook.absent, AfterInvokeHook.absent⟩

/-- An event sink whose send-error callback returns the nil error. -/
def dropErrors : ServiceEvent :=
  ⟨SendErrorHook.rewrite (fun _ _ => Except.ok none),
   BeforeInvokeHook.absent, AfterInvokeHook.absent⟩

/-- An event sink whose send-error callback replaces every error by an error
of a user type whose `Error` method panics. -/
def brokenErrors : ServiceEvent :=
  ⟨SendErrorHook.rewrite (fun _ _ => Except.ok (some (GoErr.faulty ⟨"Error broke", ""⟩))),
   BeforeInvokeHook.absent, AfterInvokeHook.absent⟩

/-- A filter that frames outgoing data with a leading zero byte and takes the
frame off incoming data. -/
def framing : Filter :=
  ⟨fun data _ => Except.ok (data.drop 1), fun data _ => Except.ok (0 :: data)⟩

/-- The sample service with the filter `framing`. -/
def framedService : BaseService :=
  { service registry noEvent with filters := [framing] }

/-- The function `func boom()`, which panics with the payload `boom`. -/
def boom : Method :=
  normal [] (fun _ => Except.error ⟨"boom", "goroutine 7 [running]"⟩)

/-- An event sink whose before-invoke callback returns the error `denied`. -/
def denyBefore : ServiceEvent :=
  ⟨SendErrorHook.absent,
   BeforeInvokeHook.check (fun _ _ _ _ => Except.ok (some (GoErr.errorString "denied"))),
   AfterInvokeHook.absent⟩

/-- An event sink whose after-invoke callback panics with the payload
`after broke`. -/
def brokenAfter : ServiceEvent :=
  ⟨SendErrorHook.absent, BeforeInvokeHook.absent,
   AfterInvokeHook.notify (fun _ _ _ _ _ => Except.error ⟨"after broke", ""⟩)⟩

/-- A filter that leaves incoming data as it is and stamps outgoing data with
a leading zero byte. -/
def stamping : Filter :=
  ⟨fun data _ => Except.ok data, fun data _ => Except.ok (0 :: data)⟩

/-- The sample service with the filter `stamping`. -/
def stampedService : BaseService :=
  { service registry noEvent with filters := [stamping] }

/-- The sample service with an error delay of 10. -/
def delayedService : BaseService :=
  { service registry noEvent with ErrorDelay := 10 }

/-- The function `func joinAll(sep int, parts ...string)`: `reflect` gives the
type of its variadic tail as the slice type `[]string`. -/
def joinAll : Method :=
  ⟨⟨⟨[Ty.named "int", Ty.sliceOf (Ty.named "string")], true⟩,
    fun args => Except.ok ⟨[], args⟩, none⟩,
   ResultMode.Normal, false⟩

/-- The bytes a run returns, if it returns. -/
def bytesOf (r : Res (List Byte)) : Option (List Byte) :=
  match r with
  | Res.ok b _ => some b
  | _ => none

/-- The outputs of the sub-calls of a run of the call loop, if it returns. -/
def slotsOf (r : Res (List (List Byte))) : Option (List (List Byte)) :=
  match r with
  | Res.ok b _ => some b
  | _ => none

/-- The output of a sub-call, if `doSingleInvoke` returns. -/
def resultOf {RR : Type} (r : Res (SingleRet RR)) : Option (List Byte) :=
  match r with
  | Res.ok s _ => some s.result
  | _ => none

/-- A reader on the bytes of a request, past the leading call tag. -/
def readerAfterTag (request : String) : Reader Unit := ⟨textBytes request, 1, ()⟩

end Sample

/-! ## `rpc/socket_service.go`: the connection transport -/

/-- A `packet`: the full-duplex flag, the request id and the body of a frame. -/
structure Packet where
  fullDuplex : Bool
  id : List Byte
  body : List Byte
deriving DecidableEq, Repr

/-- What `socket_service.go` takes from the rest of the package, which is not
among the sources: `toUint32` on the four header bytes, the width of
`packet.id`, and the bytes that `sendData` writes for a packet. -/
structure Wire where
  toUint32 : List Byte → Nat
  idSize : Nat
  frame : Packet → List Byte

/-- What happens on a connection, in order: a `Read` of the buffered reader
that returns bytes or fails, `Lock` and `Unlock` of the mutex of the handler,
a call of `sendData` and whether it succeeded, the start of a goroutine that
handles a full-duplex packet, a call of `fireErrorEvent`, and `Close`. -/
inductive ConnEvent where
  | read (asked : Nat) (got : List Byte)
  | readError (asked : Nat)
  | lock
  | unlock
  | send (p : Packet) (ok : Bool)
  | start (p : Packet)
  | errorFired (e : GoErr)
  | close
deriving DecidableEq, Repr

/-- A `bufio.Reader` on a connection: the bytes it has buffered and what the
connection is still to deliver, one entry for each `Read` of the connection (an
empty entry is a `Read` that fails; after the last entry the connection is at
its end). -/
structure BufReader where
  buffered : List Byte
  incoming : List (List Byte)
deriving DecidableEq, Repr

/-- The size of the buffer of `bufio.NewReader`. -/
def defaultBufSize : Nat := 4096

/-- Embeds `Read(p)` of `bufio.Reader` for `len(p) = n`: the bytes copied
into `p`, or `none` for an error. Buffered bytes are handed out first, as many
as there are; with an empty buffer one `Read` of the connection is made, into
`p` itself when `p` is as large as the buffer, and into the buffer otherwise.
So fewer than `n` bytes may be returned. -/
def BufReader.Read (b : BufReader) (n : Nat) : Option (List Byte) × BufReader :=
  if n = 0 then (some [], b)
  else
    match b.buffered with
    | _ :: _ => (some (b.buffered.take n), { b with buffered := b.buffered.drop n })
    | [] =>
      match b.incoming with
      | [] => (none, b)
      | [] :: later => (none, { b with incoming := later })
      | (x :: xs) :: later =>
        let room := if n ≥ defaultBufSize then n else defaultBufSize
        let got := (x :: xs).take room
        let incoming :=
          match (x :: xs).drop room with
          | [] => later
          | left => left :: later
        (some (got.take n), { buffered := got.drop n, incoming := incoming })

/-- The state of a connection and of its handler: the buffered reader, the
number of calls of `sendData` that will still succeed, what has happened so
far, and whether the connection is closed. -/
structure ConnState where
  reader : BufReader
  writable : Nat
  trace : List ConnEvent
  closed : Bool
deriving DecidableEq, Repr

/-- The outcome of running transport code: a value, a panic that propagates,
or a loop that ran out of its budget of iterations; with the state of the
connection and the world. -/
inductive SRes (α : Type) where
  | ok (a : α) (c : ConnState) (w : World)
  | fault (f : Fault) (c : ConnState) (w : World)
  | diverge

/-- Transport code: a function of the state of the connection and the world. -/
def SM (α : Type) : Type := ConnState → World → SRes α

/-- Returns a value, leaving connection and world as they are. -/
def SM.pure {α : Type} (a : α) : SM α := fun c w => SRes.ok a c w

/-- Sequencing of transport code. -/
def SM.bind {α β : Type} (x : SM α) (k : α → SM β) : SM β := fun c w =>
  match x c w with
  | SRes.ok a c1 w1 => k a c1 w1
  | SRes.fault f c1 w1 => SRes.fault f c1 w1
  | SRes.diverge => SRes.diverge

instance : Monad SM where
  pure := SM.pure
  bind := SM.bind

/-- Runs engine code, which does not touch the connection. -/
def liftM {α : Type} (x : M α) : SM α := fun c w =>
  match x w with
  | Res.ok a w1 => SRes.ok a c w1
  | Res.fault f w1 => SRes.fault f c w1
  | Res.diverge => SRes.diverge

/-- The deferred `recover()` of a transport function. -/
def srecover {α : Type} (body : SM α) (handler : Fault → SM α) : SM α := fun c w =>
  match body c w with
  | SRes.ok a c1 w1 => SRes.ok a c1 w1
  | SRes.fault f c1 w1 => handler f c1 w1
  | SRes.diverge => SRes.diverge

/-- Records an event on the connection. -/
def logEvent (e : ConnEvent) : SM Unit := fun c w =>
  SRes.ok () { c with trace := c.trace ++ [e] } w

/-- Embeds `reader.Read(p)` in `serve`, for `len(p) = n`: the bytes read, or
`none` for an error. -/
def readConn (n : Nat) : SM (Option (List Byte)) := fun c w =>
  match c.reader.Read n with
  | (some got, r) =>
    SRes.ok (some got) { c with reader := r, trace := c.trace ++ [ConnEvent.read n got] } w
  | (none, r) =>
    SRes.ok none { c with reader := r, trace := c.trace ++ [ConnEvent.readError n] } w

/-- Modelled from the spec: `sendData(conn, data)`, which is not among the
sources: it writes the frame of the packet to the connection and returns an
error when the connection takes no more writes. -/
def sendData (data : Packet) : SM GoError := fun c w =>
  match c.writable with
  | 0 => SRes.ok (some (GoErr.errorString "write: broken pipe"))
      { c with trace := c.trace ++ [ConnEvent.send data false] } w
  | k + 1 => SRes.ok none
      { c with writable := k, trace := c.trace ++ [ConnEvent.send data true] } w

/-- Embeds `handler.conn.Close()`. -/
def closeConn : SM Unit := fun c w =>
  SRes.ok () { c with trace := c.trace ++ [ConnEvent.close], closed := true } w

/-- What `Read` leaves in the slice `dst` after copying the bytes `src` to its
front. -/
def copyInto (dst src : List Byte) : List Byte := src ++ dst.drop src.length

/-- The full-duplex flag of a header value: `size&0x80000000 != 0`. -/
def headerFlag (size : Nat) : Bool := (size &&& 0x80000000) != 0

/-- The body length of a header value: `size &= 0x7FFFFFFF` for a full-duplex
frame, and the value itself otherwise. -/
def bodySize (size : Nat) : Nat :=
  if headerFlag size then size &&& 0x7FFFFFFF else size

/-- The variables of `serve` that live across the iterations of its loop. -/
structure ServeVars where
  header : List Byte
  data : Packet
deriving DecidableEq, Repr

/-- The end of an iteration of `serve` before the dispatch: allocates the body
and reads into it; `none` stands for `break`. -/
def readBody (header : List Byte) (fullDuplex : Bool) (id : List Byte) (size : Nat) :
    SM (Option ServeVars) := do
  let body := List.replicate size 0
  match ← readConn size with
  | none => pure none
  | some got => pure (some ⟨header, ⟨fullDuplex, id, copyInto body got⟩⟩)

/-- The reading part of an iteration of `serve`: the header, the request id of
a full-duplex frame, the body; `none` stands for `break`. -/
def readFrame (W : Wire) (v : ServeVars) : SM (Option ServeVars) := do
  match ← readConn 4 with
  | none => pure none
  | some got =>
    let header := copyInto v.header got
    let size := W.toUint32 header % 2 ^ 32
    if headerFlag size then do
      match ← readConn v.data.id.length with
      | none => pure none
      | some gotId => readBody header true (copyInto v.data.id gotId) (bodySize size)
    else readBody header false v.data.id (bodySize size)

/-- Embeds `NewSocketContext(...).ServiceContext`: a new `ServiceContext`, with
no method and its flags cleared, whose transport context is the socket
context. -/
def newSocketContext : ServiceContext := ⟨none, false, false, false, Transport.socket⟩

section Transport

variable {WR RR : Type} (C : Codec WR RR)

/-- Embeds `connHandler.hdHandle`: handles the packet and sends the response;
an error of `sendData` goes to `fireErrorEvent`, whose result is dropped. -/
def hdHandle (S : BaseService) (data : Packet) : SM Unit := do
  let context := newSocketContext
  let body ← liftM (Handle C S data.body context)
  let data := { data with body := body }
  let err ← sendData data
  match err with
  | some e => logEvent (ConnEvent.errorFired e)
  | none => pure ()

/-- Embeds `connHandler.fdHandle`: handles the packet and sends the response
with the mutex of the handler locked; an error of `sendData` goes to
`fireErrorEvent`, whose result is dropped. -/
def fdHandle (S : BaseService) (data : Packet) : SM Unit := do
  let context := newSocketContext
  let body ← liftM (Handle C S data.body context)
  let data := { data with body := body }
  logEvent ConnEvent.lock
  let err ← sendData data
  logEvent ConnEvent.unlock
  match err with
  | some e => logEvent (ConnEvent.errorFired e)
  | none => pure ()

/-- The loop of `connHandler.serve`, with a budget of iterations: reads a
frame, starts a goroutine for a full-duplex packet and handles a half-duplex
one itself. -/
def serveLoop (W : Wire) (S : BaseService) : Nat → ServeVars → SM Unit
  | 0, _ => fun _ _ => SRes.diverge
  | fuel + 1, v => do
    match ← readFrame W v with
    | none => pure ()
    | some v1 =>
      if v1.data.fullDuplex then logEvent (ConnEvent.start v1.data)
      else hdHandle C S v1.data
      serveLoop W S fuel v1

/-- What bounds the iterations of `serve`: every iteration that goes on takes
a byte or an entry off what the connection delivers. -/
def BufReader.measure (b : BufReader) : Nat :=
  b.buffered.length + (b.incoming.map List.length).sum + b.incoming.length

/-- Embeds `connHandler.serve`: the loop, then `Close`. -/
def connHandler_serve (W : Wire) (S : BaseService) : SM Unit := fun c w =>
  (do
    serveLoop C W S (c.reader.measure + 1)
      ⟨[0, 0, 0, 0], ⟨false, List.replicate W.idSize 0, []⟩⟩
    closeConn : SM Unit) c w

/-- The accept or close callback of the event sink: not implemented,
implemented without a result, or implemented with an error result; what the
callback does on this connection is given. -/
inductive ConnHook where
  | absent
  | notify (r : Except Fault Unit)
  | check (r : Except Fault GoError)

/-- The callbacks of the event sink for a connection. -/
structure SocketEvent where
  onAccept : ConnHook
  onClose : ConnHook

/-- The common shape of `fireAcceptEvent` and `fireCloseEvent`. -/
def fireConnHook (h : ConnHook) : GoError :=
  match h with
  | ConnHook.absent => none
  | ConnHook.notify r =>
    match r with
    | Except.ok _ => none
    | Except.error p => some (NewPanicError p)
  | ConnHook.check r =>
    match r with
    | Except.ok e => e
    | Except.error p => some (NewPanicError p)

/-- Embeds `fireAcceptEvent`. -/
def fireAcceptEvent (event : SocketEvent) : GoError := fireConnHook event.onAccept

/-- Embeds `fireCloseEvent`. -/
def fireCloseEvent (event : SocketEvent) : GoError := fireConnHook event.onClose

/-- Embeds `serveConn`: the accept event, `serve`, the close event; an error of
an event and a recovered panic go to `fireErrorEvent`. -/
def serveConn (W : Wire) (S : BaseService) (event : SocketEvent) : SM Unit :=
  srecover
    (match fireAcceptEvent event with
      | some err => logEvent (ConnEvent.errorFired err)
      | none => do
        connHandler_serve C W S
        match fireCloseEvent event with
        | some err => logEvent (ConnEvent.errorFired err)
        | none => pure ())
    (fun e => logEvent (ConnEvent.errorFired (NewPanicError e)))

/-- Whether every call of `sendData` in a trace is made with the mutex held,
the mutex being held or not at the start. -/
def sendsUnderLock : Bool → List ConnEvent → Bool
  | _, [] => true
  | _, ConnEvent.lock :: es => sendsUnderLock true es
  | _, ConnEvent.unlock :: es => sendsUnderLock false es
  | held, ConnEvent.send _ _ :: es => held && sendsUnderLock held es
  | held, _ :: es => sendsUnderLock held es

end Transport

namespace Sample

/-- A header codec: `toUint32` reads the four bytes as a big-endian number;
the request id has four bytes; a frame is the header, the id of a full-duplex
packet, and the body. -/
def wire : Wire where
  toUint32 := fun h => ((h.getD 0 0 * 256 + h.getD 1 0) * 256 + h.getD 2 0) * 256 + h.getD 3 0
  idSize := 4
  frame := fun p =>
    let n := p.body.length + (if p.fullDuplex then 2147483648 else 0)
    [n / 16777216 % 256, n / 65536 % 256, n / 256 % 256, n % 256] ++
      (if p.fullDuplex then p.id else []) ++ p.body

/-- A connection that is to deliver the given entries and takes ten writes. -/
def conn (incoming : List (List Byte)) : ConnState :=
  ⟨⟨[], incoming⟩, 10, [], false⟩

/-- An event sink whose accept callback returns the error `refused`. -/
def refusing : SocketEvent :=
  ⟨ConnHook.check (Except.ok (some (GoErr.errorString "refused"))), ConnHook.absent⟩

/-- An event sink without callbacks for the connection. -/
def noSocketEvent : SocketEvent := ⟨ConnHook.absent, ConnHook.absent⟩

/-- The function `func hello(i int, context Context)`. -/
def hello : Method :=
  normal [Ty.named "int", Ty.contextType] (fun args => Except.ok ⟨[], args⟩)

/-- The function `func whoami(i int, context *SocketContext)`. -/
def whoami : Method :=
  normal [Ty.named "int", Ty.socketContextType] (fun args => Except.ok ⟨[], args⟩)

/-- The function `func peer(i int, conn net.Conn)`. -/
def peer : Method :=
  normal [Ty.named "int", Ty.netConnType] (fun args => Except.ok ⟨[], args⟩)

/-- The trace and the closed flag of the connection a run ends with. -/
def connOf {α : Type} (r : SRes α) : Option (List ConnEvent × Bool) :=
  match r with
  | SRes.ok _ c _ => some (c.trace, c.closed)
  | SRes.fault _ c _ => some (c.trace, c.closed)
  | SRes.diverge => none

end Sample

/-! ## The monad of the engine: evaluation lemmas -/

section MonadLemmas

variable {α β : Type}

@[simp] theorem bind_apply (x : M α) (k : α → M β) (w : World) :
    (x >>= k) w =
      match x w with
      | Res.ok a w1 => k a w1
      | Res.fault f w1 => Res.fault f w1
      | Res.diverge => Res.diverge := rfl

@[simp] theorem pure_apply (a : α) (w : World) : (pure a : M α) w = Res.ok a w := rfl

@[simp] theorem mpure_apply (a : α) (w : World) : M.pure a w = Res.ok a w := rfl

@[simp] theorem mbind_apply (x : M α) (k : α → M β) (w : World) :
    M.bind x k w =
      match x w with
      | Res.ok a w1 => k a w1
      | Res.fault f w1 => Res.fault f w1
      | Res.diverge => Res.diverge := rfl

@[simp] theorem liftE_ok (a : α) (w : World) : liftE (Except.ok a) w = Res.ok a w := rfl

@[simp] theorem liftE_error (f : Fault) (w : World) :
    liftE (Except.error f : Except Fault α) w = Res.fault f w := rfl

@[simp] theorem throwFault_apply (f : Fault) (w : World) :
    (throwFault f : M α) w = Res.fault f w := rfl

theorem recover_apply (body : M α) (handler : Fault → M α) (w : World) :
    recover body handler w =
      match body w with
      | Res.ok a w1 => Res.ok a w1
      | Res.fault f w1 => handler f w1
      | Res.diverge => Res.diverge := rfl

theorem Total.noDiverge {x : M α} (h : Total x) : NoDiverge x := by
  intro w hw
  obtain ⟨a, w1, h1⟩ := h w
  rw [h1] at hw
  cases hw

theorem noDiverge_liftE (x : Except Fault α) : NoDiverge (liftE x) := by
  intro w
  cases x <;> simp [liftE, M.pure, throwFault]

theorem noDiverge_pure (a : α) : NoDiverge (pure a : M α) := by
  intro w
  simp

theorem noDiverge_bind {x : M α} {k : α → M β} (hx : NoDiverge x)
    (hk : ∀ a, NoDiverge (k a)) : NoDiverge (x >>= k) := by
  intro w
  rw [bind_apply]
  cases h : x w with
  | ok a w1 => exact hk a w1
  | fault f w1 => simp
  | diverge => exact absurd h (hx w)

theorem noDiverge_mbind {x : M α} {k : α → M β} (hx : NoDiverge x)
    (hk : ∀ a, NoDiverge (k a)) : NoDiverge (M.bind x k) :=
  noDiverge_bind hx hk

theorem noDiverge_recover {body : M α} {handler : Fault → M α} (hb : NoDiverge body)
    (hh : ∀ f, NoDiverge (handler f)) : NoDiverge (recover body handler) := by
  intro w
  rw [recover_apply]
  cases h : body w with
  | ok a w1 => simp
  | fault f w1 => exact hh f w1
  | diverge => exact absurd h (hb w)

/-- A function with a deferred `recover()` whose handler returns always
returns, as long as its body exhausts no loop budget. -/
theorem total_recover {body : M α} {handler : Fault → M α} (hb : NoDiverge body)
    (hh : ∀ f, Total (handler f)) : Total (recover body handler) := by
  intro w
  rw [recover_apply]
  cases h : body w with
  | ok a w1 => exact ⟨a, w1, rfl⟩
  | fault f w1 => exact hh f w1
  | diverge => exact absurd h (hb w)

theorem total_pure (a : α) : Total (pure a : M α) := fun w => ⟨a, w, rfl⟩

theorem noDiverge_script {Q A R : Type} (next : Q → M A) (hn : ∀ q, NoDiverge (next q))
    (s : Script Q A R) : NoDiverge (Script.run next s) := by
  induction s with
  | done r => exact noDiverge_liftE r
  | call q k ih =>
    rw [Script.run]
    exact noDiverge_mbind (hn q) ih

end MonadLemmas

/-! ## Reading one call (`doSingleInvoke`, first part) -/

section DecodeTheorems

variable {WR RR : Type} (C : Codec WR RR)

theorem ReadString_le {r r1 : Reader RR} {s : String}
    (h : r.ReadString C = Except.ok (s, r1)) : r1.buf = r.buf ∧ r.off ≤ r1.off := by
  unfold Reader.ReadString at h
  split at h
  · cases h
    exact ⟨rfl, Nat.le_add_right _ _⟩
  · cases h

theorem ReadCount_le {r r1 : Reader RR} {n : Nat}
    (h : r.ReadCount C = Except.ok (n, r1)) : r1.buf = r.buf ∧ r.off ≤ r1.off := by
  unfold Reader.ReadCount at h
  split at h
  · cases h
    exact ⟨rfl, Nat.le_add_right _ _⟩
  · cases h

theorem ReadSlice_le {r r1 : Reader RR} {slots vs : List Value}
    (h : r.ReadSlice C slots = Except.ok (vs, r1)) : r1.buf = r.buf ∧ r.off ≤ r1.off := by
  unfold Reader.ReadSlice at h
  split at h
  · cases h
    exact ⟨rfl, Nat.le_add_right _ _⟩
  · cases h

theorem ReadSliceWithoutTag_le {r r1 : Reader RR} {vs : List Value}
    (h : r.ReadSliceWithoutTag C = Except.ok (vs, r1)) : r1.buf = r.buf ∧ r.off ≤ r1.off := by
  unfold Reader.ReadSliceWithoutTag at h
  split at h
  · cases h
    exact ⟨rfl, Nat.le_add_right _ _⟩
  · cases h

/-- A successful `CheckTags` reads exactly one byte, which was there to read. -/
theorem CheckTags_step {r r1 : Reader RR} {tags : List Byte} {tag : Byte}
    (h : r.CheckTags tags = Except.ok (tag, r1)) :
    r1.buf = r.buf ∧ r.off < r.buf.length ∧ r1.off = r.off + 1 ∧ r1.refs = r.refs := by
  unfold Reader.CheckTags Reader.ReadByte Reader.rest at h
  split at h
  · cases h
  · rename_i t r2 hb
    split at hb
    · cases hb
    · rename_i b bs hd
      cases hb
      have hlt : r.off < r.buf.length := by
        by_contra hge
        rw [List.drop_eq_nil_of_le (Nat.le_of_not_lt hge)] at hd
        cases hd
      split at h
      · cases h
        exact ⟨rfl, hlt, rfl, rfl⟩
      · cases h

theorem except_bind_ok {α β : Type} {x : Except Fault α} {k : α → Except Fault β} {b : β}
    (h : (x >>= k) = Except.ok b) : ∃ a, x = Except.ok a ∧ k a = Except.ok b := by
  cases x with
  | error f => cases h
  | ok a => exact ⟨a, rfl, h⟩

theorem readArguments_le {fixer : Fixer} {r r1 : Reader RR} {method : Option Method}
    {context : ServiceContext} {args : List Value}
    (h : readArguments C fixer r method context = Except.ok (args, r1)) :
    r1.buf = r.buf ∧ r.off ≤ r1.off := by
  unfold readArguments at h
  cases method with
  | none => exact ReadSliceWithoutTag_le C h
  | some m =>
    obtain ⟨p1, h1, h⟩ := except_bind_ok h
    obtain ⟨count, r2⟩ := p1
    have l1 := ReadCount_le C h1
    obtain ⟨p2, h2, h⟩ := except_bind_ok h
    obtain ⟨filled, r3⟩ := p2
    have l2 := ReadSlice_le C h2
    have hr : r1 = r3 := by
      by_cases hc : (!m.Function.ft.IsVariadic &&
          decide ((if m.Function.ft.IsVariadic then m.Function.ft.NumIn - 1
            else m.Function.ft.NumIn) > count)) = true
      · simp only [hc, if_true] at h
        cases fixer with
        | none => cases h
        | some fx =>
          obtain ⟨a, _, h⟩ := except_bind_ok h
          cases h
          rfl
      · simp only [hc] at h
        cases h
        rfl
    subst hr
    exact ⟨l2.1.trans l1.1, l1.2.trans l2.2⟩

/-- What the first part of `doSingleInvoke` yields when it does not panic: the
name is the string read from the wire, the method is the registry entry of the
lower-cased name, the context is the one passed in, marked by-ref or not, and
the reader has advanced by at least one byte that was there to read. -/
theorem doSingleInvokeDecode_spec (S : BaseService) (reader : Reader RR)
    (context : ServiceContext) (d : Decoded RR)
    (hdec : doSingleInvokeDecode C S reader context = Except.ok d) :
    (∃ r1, reader.ReadString C = Except.ok (d.name, r1)) ∧
    d.method = S.RemoteMethods (C.ToLower d.name) ∧
    (d.context = context ∨ d.context = { context with ByRef := true }) ∧
    d.reader.buf = reader.buf ∧
    (∃ o, reader.off ≤ o ∧ o < reader.buf.length ∧ d.reader.off = o + 1) := by
  unfold doSingleInvokeDecode at hdec
  cases h1 : reader.ReadString C with
  | error f => simp [h1, bind, Except.bind] at hdec
  | ok p1 =>
    obtain ⟨name, r1⟩ := p1
    simp only [h1, bind, Except.bind] at hdec
    have l1 := ReadString_le C h1
    cases h2 : r1.CheckTags [C.TagList, C.TagEnd, C.TagCall] with
    | error f => simp [h2] at hdec
    | ok p2 =>
      obtain ⟨tag, r2⟩ := p2
      simp only [h2] at hdec
      have l2 := CheckTags_step h2
      split at hdec
      · cases h3 : readArguments C S.fixer (Reader.Reset C r2)
            (S.RemoteMethods (C.ToLower name)) context with
        | error f => simp [h3] at hdec
        | ok p3 =>
          obtain ⟨args, r3⟩ := p3
          simp only [h3] at hdec
          have l3 := readArguments_le C h3
          simp only [Reader.Reset] at l3
          cases h4 : r3.CheckTags [C.TagTrue, C.TagEnd, C.TagCall] with
          | error f => simp [h4] at hdec
          | ok p4 =>
            obtain ⟨tag4, r4⟩ := p4
            simp only [h4] at hdec
            have l4 := CheckTags_step h4
            split at hdec
            · cases h5 : r4.CheckTags [C.TagEnd, C.TagCall] with
              | error f => simp [h5] at hdec
              | ok p5 =>
                obtain ⟨tag5, r5⟩ := p5
                simp only [h5, pure, Except.pure] at hdec
                have l5 := CheckTags_step h5
                cases hdec
                refine ⟨⟨r1, rfl⟩, rfl, Or.inr rfl, ?_, r4.off, ?_, ?_, l5.2.2.1⟩
                · simp only [l5.1, l4.1, l3.1, l2.1, l1.1]
                · omega
                · have := l5.2.1
                  rw [l4.1, l3.1, l2.1, l1.1] at this
                  exact this
            · simp only [pure, Except.pure] at hdec
              cases hdec
              refine ⟨⟨r1, rfl⟩, rfl, Or.inl rfl, ?_, r3.off, ?_, ?_, l4.2.2.1⟩
              · simp only [l4.1, l3.1, l2.1, l1.1]
              · omega
              · have := l4.2.1
                rw [l3.1, l2.1, l1.1] at this
                exact this
      · simp only [pure, Except.pure] at hdec
        cases hdec
        refine ⟨⟨r1, rfl⟩, rfl, Or.inl rfl, ?_, r1.off, l1.2, ?_, l2.2.2.1⟩
        · simp only [l2.1, l1.1]
        · have := l2.2.1
          rw [l1.1] at this
          exact this

end DecodeTheorems

/-! ## Result encoding (`doOutput`) -/

section OutputTheorems

variable {WR RR : Type} (C : Codec WR RR)

/-- C5. In Normal mode and without by-ref, `doOutput` returns the result tag
followed by the nil encoding for no result, by the encoding of the value for
one result, and by the sequence encoding of all the values for two or more. -/
theorem doOutput_normal (args results : List Value) (context : ServiceContext) (m : Method)
    (hm : context.Method = some m) (hmode : m.Mode = ResultMode.Normal)
    (hby : context.ByRef = false) :
    (results = [] →
      doOutput C args results context = Except.ok ([C.TagResult] ++ C.writeNil)) ∧
    (∀ v, results = [v] →
      doOutput C args results context =
        Except.ok ([C.TagResult] ++ (C.writeValue m.Simple C.wrefs v).1)) ∧
    (2 ≤ results.length →
      doOutput C args results context =
        Except.ok ([C.TagResult] ++ (C.writeSlice m.Simple C.wrefs results).1)) := by
  refine ⟨?_, ?_, ?_⟩
  · intro h
    subst h
    simp [doOutput, hm, hmode, hby, NewWriter, Writer.WriteByte, Writer.WriteNil, Writer.Bytes,
      bind, Except.bind, pure, Except.pure]
  · intro v h
    subst h
    simp [doOutput, hm, hmode, hby, NewWriter, Writer.WriteByte, Writer.WriteValue, Writer.Bytes,
      bind, Except.bind, pure, Except.pure]
  · intro h
    match results, h with
    | a :: b :: rest, _ =>
      simp [doOutput, hm, hmode, hby, NewWriter, Writer.WriteByte, Writer.WriteSlice,
        Writer.Bytes, bind, Except.bind, pure, Except.pure]

/-- The three cases of C5 on the sample codec: a method with no result, with
one and with two. -/
theorem doOutput_normal_witness :
    doOutput Sample.codec [] [] { Sample.context0 with Method := some Sample.inc }
      = Except.ok [82, 110] ∧
    doOutput Sample.codec [] [Sample.intV 6] { Sample.context0 with Method := some Sample.inc }
      = Except.ok [82, 54] ∧
    doOutput Sample.codec [] [Sample.intV 1, Sample.intV 2]
        { Sample.context0 with Method := some Sample.inc }
      = Except.ok [82, 97, 50, 123, 49, 50, 125] :=
  have h := fun results => doOutput_normal Sample.codec [] results
    { Sample.context0 with Method := some Sample.inc } Sample.inc rfl rfl rfl
  ⟨(h []).1 rfl, (h [Sample.intV 6]).2.1 _ rfl,
    (h [Sample.intV 1, Sample.intV 2]).2.2 (by decide)⟩

/-- C6. With a by-ref context, `doOutput` returns, in Normal mode, the result
tag, the encoded result, the argument tag and the sequence encoding of the
arguments it is given; in Serialized mode the encoded result is the byte
result of the method. The arguments are encoded as by a fresh writer, and the
reset between the argument tag and the arguments removes no byte written
before. The arguments `beforeInvoke` hands to `doOutput` are the argument
values as the invoke handler returns them, after the invocation. -/
theorem doOutput_byRef (args results : List Value) (context : ServiceContext) (m : Method)
    (hm : context.Method = some m) (hby : context.ByRef = true) :
    (m.Mode = ResultMode.Normal →
      doOutput C args results context =
        Except.ok ([C.TagResult] ++
          (match results with
            | [] => C.writeNil
            | [v] => (C.writeValue m.Simple C.wrefs v).1
            | _ => (C.writeSlice m.Simple C.wrefs results).1) ++
          [C.TagArgument] ++ (C.writeSlice m.Simple C.wrefs args).1)) ∧
    (m.Mode = ResultMode.Serialized → ∀ v rest b, results = v :: rest → v.Bytes = Except.ok b →
      doOutput C args results context =
        Except.ok ([C.TagResult] ++ b ++ [C.TagArgument] ++
          (C.writeSlice m.Simple C.wrefs args).1)) ∧
    (∀ w : Writer WR, (w.Reset C).Bytes = w.Bytes) ∧
    (∀ (S : BaseService) (name : String) (sent : List Value) (w w1 : World) (r : InvokeRet),
      fireBeforeInvokeEvent S.Event name sent context = none →
      invokeHandler S name sent context w = Res.ok r w1 →
      r.err = none →
      fireAfterInvokeEvent S.Event name r.args r.results context = none →
      beforeInvoke C S name sent context w =
        (liftE (doOutput C r.args r.results context) >>= fun out => pure (out, none)) w1) := by
  refine ⟨?_, ?_, ?_, ?_⟩
  · intro hmode
    match results with
    | [] =>
      simp [doOutput, hm, hmode, hby, NewWriter, Writer.WriteByte, Writer.WriteNil,
        Writer.WriteSlice, Writer.Reset, Writer.Bytes, bind, Except.bind, pure, Except.pure]
    | [v] =>
      simp [doOutput, hm, hmode, hby, NewWriter, Writer.WriteByte, Writer.WriteValue,
        Writer.WriteSlice, Writer.Reset, Writer.Bytes, bind, Except.bind, pure, Except.pure]
    | a :: b :: rest =>
      simp [doOutput, hm, hmode, hby, NewWriter, Writer.WriteByte,
        Writer.WriteSlice, Writer.Reset, Writer.Bytes, bind, Except.bind, pure, Except.pure]
  · intro hmode v rest b hres hb
    subst hres
    simp [doOutput, hm, hmode, hby, first, hb, NewWriter, Writer.WriteByte, Writer.Write,
      Writer.WriteSlice, Writer.Reset, Writer.Bytes, bind, Except.bind, pure, Except.pure]
  · intro w
    rfl
  · intro S name sent w w1 r hbefore hinv herr hafter
    simp only [beforeInvoke, hbefore, bind_apply, hinv, herr, hafter]

/-- C6 on the sample codec: `swap` called by-ref with `"ab"` and `"cd"`; the
arguments after the argument tag are written in full, not as references to the
strings of the result. -/
theorem doOutput_byRef_witness :
    doOutput Sample.codec [Sample.strV "ab", Sample.strV "cd"]
        [Sample.strV "cd", Sample.strV "ab"]
        { Sample.context0 with Method := some Sample.swap, ByRef := true }
      = Except.ok (Sample.textBytes
          "Ra2\x7bs2\"cd\"s2\"ab\"\x7dAa2\x7bs2\"ab\"s2\"cd\"\x7d") :=
  (doOutput_byRef Sample.codec [Sample.strV "ab", Sample.strV "cd"]
    [Sample.strV "cd", Sample.strV "ab"]
    { Sample.context0 with Method := some Sample.swap, ByRef := true }
    Sample.swap rfl rfl).1 rfl

/-- C8, as stated, fails: the sample method in Raw mode returns the bytes `R5`,
and `doOutput` returns these two bytes, not the result tag followed by them. -/
theorem doOutput_raw_no_result_tag :
    doOutput Sample.codec [] [⟨Ty.named "[]byte", Data.bytes [82, 53]⟩]
        { Sample.context0 with Method := some Sample.raw }
      = Except.ok [82, 53] ∧
    doOutput Sample.codec [] [⟨Ty.named "[]byte", Data.bytes [82, 53]⟩]
        { Sample.context0 with Method := some Sample.raw }
      ≠ Except.ok ([Sample.codec.TagResult] ++ [82, 53]) := by
  constructor
  · rfl
  · intro h
    have h2 : doOutput Sample.codec [] [⟨Ty.named "[]byte", Data.bytes [82, 53]⟩]
        { Sample.context0 with Method := some Sample.raw } = Except.ok [82, 53] := rfl
    rw [h2] at h
    cases h

/-- C8, amended. In Raw mode `doOutput` returns the byte result of the method
verbatim: no result tag before it, and nothing after it, by-ref or not. -/
theorem doOutput_raw (args results : List Value) (context : ServiceContext) (m : Method)
    (hm : context.Method = some m) (hmode : m.Mode = ResultMode.Raw)
    (v : Value) (rest : List Value) (b : List Byte)
    (hres : results = v :: rest) (hb : v.Bytes = Except.ok b) :
    doOutput C args results context = Except.ok b := by
  subst hres
  simp [doOutput, hm, hmode, first, hb, NewWriter, Writer.Write, Writer.Bytes,
    bind, Except.bind, pure, Except.pure]

/-- The amended C8 on the sample method in Raw mode. -/
theorem doOutput_raw_witness :
    doOutput Sample.codec [] [⟨Ty.named "[]byte", Data.bytes [82, 53]⟩]
        { Sample.context0 with Method := some Sample.raw, ByRef := true }
      = Except.ok [82, 53] :=
  doOutput_raw Sample.codec [] [⟨Ty.named "[]byte", Data.bytes [82, 53]⟩]
    { Sample.context0 with Method := some Sample.raw, ByRef := true } Sample.raw rfl rfl
    ⟨Ty.named "[]byte", Data.bytes [82, 53]⟩ [] [82, 53] rfl rfl

end OutputTheorems

/-! ## Dispatching one call (`doSingleInvoke`, `callService`, `invoke`) -/

section DispatchTheorems

variable {WR RR : Type} (C : Codec WR RR)

/-- C3, as stated, fails: on the sample service whose send-error callback
replaces every error by one with an empty message, the call of the
unregistered name `Foo` (no wildcard) yields the error tag and the empty
string, a frame whose message does not contain `Foo`. -/
theorem unresolved_name_rewritten :
    Sample.registry (Sample.codec.ToLower "Foo") = none ∧ Sample.registry "*" = none ∧
    Sample.resultOf (doSingleInvoke Sample.codec
        (Sample.service Sample.registry Sample.blankErrors)
        (Sample.readerAfterTag "Cs3\"Foo\"z") Sample.context0 Sample.world0) = some [69, 101] ∧
    ¬ ∃ msg : String,
        [69, 101] = [Sample.codec.TagError] ++
          (Sample.codec.writeString true Sample.codec.wrefs msg).1 ∧
        "Foo".data <:+: msg.data := by
  refine ⟨by rfl, by rfl, by rfl, ?_⟩
  rintro ⟨msg, h, hin⟩
  have henc : (Sample.codec.writeString true Sample.codec.wrefs msg).1 = Sample.encString msg := by
    simp [Sample.codec, Sample.writeString]
  rw [henc] at h
  unfold Sample.encString at h
  split at h
  · rename_i hd
    rw [hd] at hin
    have := List.IsInfix.length_le hin
    simp at this
  · simp [Sample.codec] at h
  · simp [Sample.codec] at h

/-- C3, amended. When the lower-cased name is not in the registry, no wildcard
is registered and the send-error event leaves the error as it is,
`doSingleInvoke` invokes no function (the world stays as it is) and returns the
error tag followed by the string `Can't find this method ` and the name as
read from the wire. -/
theorem doSingleInvoke_unresolved (S : BaseService) (reader : Reader RR)
    (context : ServiceContext) (d : Decoded RR) (w : World)
    (hdec : doSingleInvokeDecode C S reader context = Except.ok d)
    (hreg : S.RemoteMethods (C.ToLower d.name) = none)
    (hwild : S.RemoteMethods "*" = none)
    (hev : ∀ e c, fireErrorEvent S.Event e c = e) :
    (∃ r1, reader.ReadString C = Except.ok (d.name, r1)) ∧
    doSingleInvoke C S reader context w =
      Res.ok ⟨[C.TagError] ++
          (C.writeString true C.wrefs ("Can\x27t find this method " ++ d.name)).1,
        d.tag, d.reader, { d.context with IsMissingMethod := true }⟩ w ∧
    d.name.data <:+: ("Can\x27t find this method " ++ d.name).data := by
  have hs := doSingleInvokeDecode_spec C S reader context d hdec
  have hm : d.method = none := hs.2.1.trans hreg
  refine ⟨hs.1, ?_, ?_⟩
  · simp [doSingleInvoke, hdec, hm, hwild, sendError, hev, getErrorMessage, GoErr.Error,
      NewWriter, Writer.WriteByte, Writer.WriteString, Writer.Bytes, bind, Except.bind,
      pure, Except.pure, M.pure, M.bind, liftE]
  · exact ⟨"Can\x27t find this method ".data, [], by simp [String.data_append]⟩

/-- The amended C3 on the sample service without event sink: the call of the
unregistered name `Foo`. -/
theorem doSingleInvoke_unresolved_witness :
    doSingleInvoke Sample.codec (Sample.service Sample.registry Sample.noEvent)
        (Sample.readerAfterTag "Cs3\"Foo\"z") Sample.context0 Sample.world0 =
      Res.ok ⟨Sample.textBytes "Es26\"Can\x27t find this method Foo\"", 122,
        ⟨Sample.textBytes "Cs3\"Foo\"z", 9, ()⟩,
        { Sample.context0 with IsMissingMethod := true }⟩ Sample.world0 :=
  (doSingleInvoke_unresolved Sample.codec (Sample.service Sample.registry Sample.noEvent)
    (Sample.readerAfterTag "Cs3\"Foo\"z") Sample.context0
    ⟨"Foo", none, [], 122, ⟨Sample.textBytes "Cs3\"Foo\"z", 9, ()⟩, Sample.context0⟩
    Sample.world0 rfl rfl rfl (fun _ _ => rfl)).2.1

theorem endWorld_liftE {α : Type} (x : Except Fault α) (w : World) :
    (liftE x w).endWorld = some w := by
  cases x <;> rfl

/-- With a context that is marked missing-method and whose method is a
missing-method handler, `callService` logs the call and runs the handler on
the name, the arguments and the context it is given. -/
theorem callService_missing (name : String) (args : List Value) (context : ServiceContext)
    (m : Method) (h : String → List Value → BaseContext → Except Fault CallResult) (w : World)
    (hM : context.Method = some m) (hmiss : context.IsMissingMethod = true)
    (hh : m.Function.asMissingMethod = some h) :
    callService name args context w =
      liftE (h name args context.base)
        { w with invoked := w.invoked ++ [⟨true, name, args⟩] } := by
  simp [callService, hM, hmiss, hh, logInvoke]

theorem invoke_missing_world (name : String) (args : List Value) (context : ServiceContext)
    (m : Method) (h : String → List Value → BaseContext → Except Fault CallResult) (w : World)
    (hM : context.Method = some m) (hmiss : context.IsMissingMethod = true)
    (hh : m.Function.asMissingMethod = some h) (hone : context.Oneway = false) :
    ∃ r, invoke name args context w =
      Res.ok r { w with invoked := w.invoked ++ [⟨true, name, args⟩] } := by
  simp only [invoke, hone, recover_apply, bind_apply, Bool.false_eq_true, if_false,
    callService_missing name args context m h w hM hmiss hh]
  cases h name args context.base with
  | error f => exact ⟨_, rfl⟩
  | ok r =>
    simp only [liftE_ok]
    by_cases hlen : r.results.length = 0
    · simp only [hlen, if_true, pure_apply]
      exact ⟨_, rfl⟩
    · simp only [hlen, if_false]
      cases (r.results.get? (r.results.length - 1)).bind Value.asError with
      | none => exact ⟨_, rfl⟩
      | some e => exact ⟨_, rfl⟩

/-- C4. When the lower-cased name is not in the registry and the wildcard `*`
is registered with a missing-method handler, `doSingleInvoke` leaves the
context with `IsMissingMethod` set and `Method` the wildcard entry, and
`callService` on the name as read from the wire, the decoded arguments and
that context runs the handler on exactly these; with the default invoke
handler, a before-invoke event that lets the call pass and a call that is not
oneway, this is the one call `doSingleInvoke` makes. -/
theorem doSingleInvoke_wildcard (S : BaseService) (reader : Reader RR)
    (context : ServiceContext) (d : Decoded RR) (w : World) (m : Method)
    (h : String → List Value → BaseContext → Except Fault CallResult)
    (hdec : doSingleInvokeDecode C S reader context = Except.ok d)
    (hreg : S.RemoteMethods (C.ToLower d.name) = none)
    (hwild : S.RemoteMethods "*" = some m)
    (hh : m.Function.asMissingMethod = some h) :
    (∃ r1, reader.ReadString C = Except.ok (d.name, r1)) ∧
    (∀ r w1, doSingleInvoke C S reader context w = Res.ok r w1 →
      r.context = { d.context with IsMissingMethod := true, Method := some m }) ∧
    (∀ w0, callService d.name d.args
        { d.context with IsMissingMethod := true, Method := some m } w0 =
      liftE (h d.name d.args ⟨d.context.ByRef, true, d.context.Oneway⟩)
        { w0 with invoked := w0.invoked ++ [⟨true, d.name, d.args⟩] }) ∧
    (S.invokeHandlers = [] →
      fireBeforeInvokeEvent S.Event d.name d.args
        { d.context with IsMissingMethod := true, Method := some m } = none →
      d.context.Oneway = false →
      ∃ w1, (doSingleInvoke C S reader context w).endWorld = some w1 ∧
        w1.invoked = w.invoked ++ [⟨true, d.name, d.args⟩]) := by
  have hs := doSingleInvokeDecode_spec C S reader context d hdec
  have hm : d.method = none := hs.2.1.trans hreg
  refine ⟨hs.1, ?_, ?_, ?_⟩
  · intro r w1 hr
    simp only [doSingleInvoke, hdec, hm, hwild, bind_apply, liftE_ok] at hr
    cases hb : beforeInvoke C S d.name d.args
        { d.context with IsMissingMethod := true, Method := some m } w with
    | diverge => simp [hb] at hr
    | fault f w2 => simp [hb] at hr
    | ok p w2 =>
      obtain ⟨result, err⟩ := p
      simp only [hb] at hr
      cases err with
      | none =>
        simp only [pure_apply] at hr
        cases hr
        rfl
      | some e =>
        simp only [bind_apply] at hr
        cases hse : sendError C S (some e)
            { d.context with IsMissingMethod := true, Method := some m } with
        | error f => simp [hse] at hr
        | ok out =>
          simp only [hse, liftE_ok, pure_apply] at hr
          cases hr
          rfl
  · intro w0
    exact callService_missing d.name d.args _ m h w0 rfl rfl hh
  · intro hnil hbefore hone
    obtain ⟨r, hinv⟩ := invoke_missing_world d.name d.args
      { d.context with IsMissingMethod := true, Method := some m } m h w rfl rfl hh hone
    refine ⟨{ w with invoked := w.invoked ++ [⟨true, d.name, d.args⟩] }, ?_, rfl⟩
    simp only [doSingleInvoke, hdec, hm, hwild, bind_apply, liftE_ok, beforeInvoke, hbefore,
      invokeHandler, hnil, List.foldr_nil, hinv]
    cases r.err with
    | some e =>
      simp only [pure_apply, bind_apply]
      cases sendError C S (some e)
          { d.context with IsMissingMethod := true, Method := some m } <;> rfl
    | none =>
      simp only []
      cases fireAfterInvokeEvent S.Event d.name r.args r.results
          { d.context with IsMissingMethod := true, Method := some m } with
      | some e =>
        simp only [pure_apply, bind_apply]
        cases sendError C S (some e)
            { d.context with IsMissingMethod := true, Method := some m } <;> rfl
      | none =>
        simp only [bind_apply]
        cases doOutput C r.args r.results
            { d.context with IsMissingMethod := true, Method := some m } <;> rfl

/-- C4 on the sample service with the wildcard `echoName`: the call of the
unregistered name `Foo` with the argument 5 leaves the context marked, and
the one call made is the handler on `Foo` and the decoded argument. -/
theorem doSingleInvoke_wildcard_witness :
    (∀ r w1, doSingleInvoke Sample.codec
        (Sample.service Sample.registryWithWildcard Sample.noEvent)
        (Sample.readerAfterTag "Cs3\"Foo\"a1\x7b5\x7dz") Sample.context0 Sample.world0
          = Res.ok r w1 →
      r.context = { Sample.context0 with IsMissingMethod := true,
                                         Method := some Sample.echoName }) ∧
    ∃ w1, (doSingleInvoke Sample.codec
        (Sample.service Sample.registryWithWildcard Sample.noEvent)
        (Sample.readerAfterTag "Cs3\"Foo\"a1\x7b5\x7dz") Sample.context0
        Sample.world0).endWorld = some w1 ∧
      w1.invoked = [⟨true, "Foo", [⟨Ty.interfaceType, Data.int 5⟩]⟩] :=
  have h := doSingleInvoke_wildcard Sample.codec
    (Sample.service Sample.registryWithWildcard Sample.noEvent)
    (Sample.readerAfterTag "Cs3\"Foo\"a1\x7b5\x7dz") Sample.context0
    ⟨"Foo", none, [⟨Ty.interfaceType, Data.int 5⟩], 122,
      ⟨Sample.textBytes "Cs3\"Foo\"a1\x7b5\x7dz", 14, ()⟩, Sample.context0⟩
    Sample.world0 Sample.echoName (fun name args _ => Except.ok ⟨[Sample.strV name], args⟩)
    rfl rfl rfl rfl
  ⟨h.2.1, h.2.2.2 rfl rfl rfl⟩

/-- C10 fails on the code. `five` is declared `func() (int, error)` and
returns `5, nil`: `invoke` leaves the nil error among the results, which then
are encoded as a list of two values, `Ra2{5n}z`, not as `R5z`. A last result
that is a non-nil error is taken off, as for `fail`. -/
theorem invoke_keeps_nil_error :
    invoke "five" [] { Sample.context0 with Method := some Sample.five } Sample.world0 =
      Res.ok ⟨[Sample.intV 5, ⟨Ty.errorType, Data.null⟩], none, []⟩
        ⟨[⟨false, "five", []⟩], [], 0⟩ ∧
    invoke "fail" [] { Sample.context0 with Method := some Sample.fail } Sample.world0 =
      Res.ok ⟨[Sample.intV 0], some (GoErr.errorString "failed"), []⟩
        ⟨[⟨false, "fail", []⟩], [], 0⟩ ∧
    Sample.bytesOf (Handle Sample.codec (Sample.service Sample.registry Sample.noEvent)
        (Sample.textBytes "Cs4\"five\"z") Sample.context0 Sample.world0) =
      some (Sample.textBytes "Ra2\x7b5n\x7dz") :=
  ⟨by rfl, by rfl, by rfl⟩

end DispatchTheorems

/-! ## Batches and merging (`doInvoke`, `mergeResult`) -/

section BatchTheorems

theorem doInvokeLoop_succ {WR RR : Type} (C : Codec WR RR) (S : BaseService) (fuel : Nat)
    (reader : Reader RR) (context : ServiceContext) (results : List (List Byte)) (w : World) :
    doInvokeLoop C S (fuel + 1) reader context results w =
      match doSingleInvoke C S reader context w with
      | Res.ok r w1 =>
        if r.tag ≠ C.TagCall then Res.ok (results ++ [r.result]) w1
        else doInvokeLoop C S fuel (r.reader.Reset C) r.context (results ++ [r.result]) w1
      | Res.fault f w1 => Res.fault f w1
      | Res.diverge => Res.diverge := by
  simp only [doInvokeLoop, bind_apply]
  cases doSingleInvoke C S reader context w with
  | ok r w1 =>
    simp only []
    split <;> rfl
  | fault f w1 => rfl
  | diverge => rfl

theorem foldl_append_flatten (r : List Byte) (rest : List (List Byte)) :
    rest.foldl (fun w x => w ++ x) r = r ++ rest.flatten := by
  induction rest generalizing r with
  | nil => simp
  | cons x xs ih => simp [ih]

/-- For a batch of at least one sub-call, `mergeResult` returns the outputs of
the sub-calls concatenated in order, followed by one end tag. -/
theorem mergeResult_flatten {WR RR : Type} (C : Codec WR RR) (r : List Byte)
    (rest : List (List Byte)) :
    mergeResult C (r :: rest) = Except.ok ((r :: rest).flatten ++ [C.TagEnd]) := by
  cases rest with
  | nil => simp [mergeResult]
  | cons x xs => simp [mergeResult, foldl_append_flatten]

/-- C2 fails on the code. In the batch of the unregistered `foo` (no wildcard)
and `inc(5)`, the first sub-call leaves `IsMissingMethod` set on the shared
context, so the second one, which alone yields `R6`, is called as a
missing-method handler and yields an error encoding too. The outputs are
concatenated in call order and followed by one end tag. -/
theorem batch_unregistered_breaks_next_call :
    Sample.slotsOf (doInvokeLoop Sample.codec (Sample.service Sample.registry Sample.noEvent) 30
        (Sample.readerAfterTag "Cs3\"foo\"Cs3\"inc\"a1\x7b5\x7dz")
        Sample.context0 [] Sample.world0) =
      some [Sample.textBytes "Es26\"Can\x27t find this method foo\"",
            Sample.textBytes "Es20\"interface conversion\""] ∧
    Sample.slotsOf (doInvokeLoop Sample.codec (Sample.service Sample.registry Sample.noEvent) 30
        (Sample.readerAfterTag "Cs3\"inc\"a1\x7b5\x7dz")
        Sample.context0 [] Sample.world0) =
      some [Sample.textBytes "R6"] ∧
    Sample.bytesOf (Handle Sample.codec (Sample.service Sample.registry Sample.noEvent)
        (Sample.textBytes "Cs3\"foo\"Cs3\"inc\"a1\x7b5\x7dz") Sample.context0 Sample.world0) =
      some (Sample.textBytes
        "Es26\"Can\x27t find this method foo\"Es20\"interface conversion\"z") :=
  ⟨by rfl, by rfl, by rfl⟩

/-- C7 fails on the code. In the batch of `inc(5)` with the by-ref marker and
`inc(7)` without it, `ByRef` stays set on the shared context, so the output of
the second sub-call is `R8Aa1{7}`, with the argument tag and the arguments,
where the same call alone yields `R8`. -/
theorem batch_byRef_leaks_to_next_call :
    Sample.slotsOf (doInvokeLoop Sample.codec (Sample.service Sample.registry Sample.noEvent) 2
        (Sample.readerAfterTag "Cs3\"inc\"a1\x7b5\x7dtCs3\"inc\"a1\x7b7\x7dz")
        Sample.context0 [] Sample.world0) =
      some [Sample.textBytes "R6Aa1\x7b5\x7d", Sample.textBytes "R8Aa1\x7b7\x7d"] ∧
    Sample.slotsOf (doInvokeLoop Sample.codec (Sample.service Sample.registry Sample.noEvent) 2
        (Sample.readerAfterTag "Cs3\"inc\"a1\x7b7\x7dz")
        Sample.context0 [] Sample.world0) =
      some [Sample.textBytes "R8"] := by
  have h1 : doSingleInvoke Sample.codec (Sample.service Sample.registry Sample.noEvent)
      (Sample.readerAfterTag "Cs3\"inc\"a1\x7b5\x7dtCs3\"inc\"a1\x7b7\x7dz")
      Sample.context0 Sample.world0 =
    Res.ok ⟨Sample.textBytes "R6Aa1\x7b5\x7d", 67,
        ⟨Sample.textBytes "Cs3\"inc\"a1\x7b5\x7dtCs3\"inc\"a1\x7b7\x7dz", 15, ()⟩,
        { Sample.context0 with ByRef := true, Method := some Sample.inc }⟩
      ⟨[⟨false, "inc", [Sample.intV 5]⟩], [], 0⟩ := by rfl
  have h2 : doSingleInvoke Sample.codec (Sample.service Sample.registry Sample.noEvent)
      (Reader.Reset Sample.codec
        ⟨Sample.textBytes "Cs3\"inc\"a1\x7b5\x7dtCs3\"inc\"a1\x7b7\x7dz", 15, ()⟩)
      { Sample.context0 with ByRef := true, Method := some Sample.inc }
      ⟨[⟨false, "inc", [Sample.intV 5]⟩], [], 0⟩ =
    Res.ok ⟨Sample.textBytes "R8Aa1\x7b7\x7d", 122,
        ⟨Sample.textBytes "Cs3\"inc\"a1\x7b5\x7dtCs3\"inc\"a1\x7b7\x7dz", 28, ()⟩,
        { Sample.context0 with ByRef := true, Method := some Sample.inc }⟩
      ⟨[⟨false, "inc", [Sample.intV 5]⟩, ⟨false, "inc", [Sample.intV 7]⟩], [], 0⟩ := by rfl
  have hc : Sample.codec.TagCall = 67 := rfl
  constructor
  · rw [doInvokeLoop_succ, h1]
    simp only [hc, ne_eq, not_true_eq_false, if_false]
    rw [doInvokeLoop_succ, h2]
    simp only [hc, ne_eq]
    rfl
  · rfl

/-- C9 fails on the code. The sample method in raw-with-end-tag mode returns
the whole response `R5z`; `doOutput` returns it verbatim, and `mergeResult`
appends an end tag to it: the response is `R5zz`. -/
theorem rawWithEndTag_gets_second_end_tag :
    doOutput Sample.codec [] [⟨Ty.named "[]byte", Data.bytes [82, 53, 122]⟩]
        { Sample.context0 with Method := some Sample.rawEnd } = Except.ok [82, 53, 122] ∧
    mergeResult Sample.codec [[82, 53, 122]] = Except.ok [82, 53, 122, 122] ∧
    Sample.bytesOf (Handle Sample.codec (Sample.service Sample.registry Sample.noEvent)
        (Sample.textBytes "Cs6\"rawend\"z") Sample.context0 Sample.world0) =
      some [82, 53, 122, 122] :=
  ⟨by rfl, by rfl, by rfl⟩

end BatchTheorems

/-! ## The pipeline always ends, and a fault that escapes `Handle` -/

section TotalityTheorems

variable {WR RR : Type} (C : Codec WR RR)

theorem noDiverge_callService (name : String) (args : List Value) (context : ServiceContext) :
    NoDiverge (callService name args context) := by
  intro w
  unfold callService
  cases context.Method with
  | none => simp
  | some m =>
    simp only []
    split
    · cases m.Function.asMissingMethod with
      | none => simp
      | some h =>
        simp only [bind_apply, logInvoke]
        cases h name args context.base <;> simp
    · split
      · simp only [bind_apply, logInvoke]
        cases m.Function.body args <;> simp
      · simp only [bind_apply, logInvoke]
        cases m.Function.body (if m.Function.ft.NumIn < args.length
          then List.take m.Function.ft.NumIn args else args) <;> simp

theorem total_invoke (name : String) (args : List Value) (context : ServiceContext) :
    Total (invoke name args context) := by
  unfold invoke
  apply total_recover
  · split
    · intro w
      simp [logSpawn]
    · apply noDiverge_bind (noDiverge_callService name args context)
      intro r
      simp only []
      split
      · exact noDiverge_pure _
      · split
        · exact noDiverge_pure _
        · exact noDiverge_pure _
  · intro f
    exact total_pure _

theorem total_getNextInvokeHandler (next : NextInvokeHandler) (handler : InvokeHandler)
    (hn : ∀ name args context, Total (next name args context))
    (name : String) (args : List Value) (context : ServiceContext) :
    Total (getNextInvokeHandler next handler name args context) := by
  unfold getNextInvokeHandler
  apply total_recover
  · exact noDiverge_script _
      (fun (q : String × List Value) => (hn q.1 q.2 context).noDiverge) _
  · intro f
    exact total_pure _

theorem total_invokeHandler (S : BaseService) (name : String) (args : List Value)
    (context : ServiceContext) : Total (invokeHandler S name args context) := by
  unfold invokeHandler
  generalize S.invokeHandlers = hs
  induction hs generalizing name args context with
  | nil => exact total_invoke name args context
  | cons h hs ih =>
    exact total_getNextInvokeHandler _ h (fun n a c => ih n a c) name args context

theorem noDiverge_beforeInvoke (S : BaseService) (name : String) (args : List Value)
    (context : ServiceContext) : NoDiverge (beforeInvoke C S name args context) := by
  unfold beforeInvoke
  split
  · exact noDiverge_pure _
  · apply noDiverge_bind (total_invokeHandler S name args context).noDiverge
    intro r
    split
    · exact noDiverge_pure _
    · split
      · exact noDiverge_pure _
      · exact noDiverge_bind (noDiverge_liftE _) (fun _ => noDiverge_pure _)

theorem noDiverge_doSingleInvoke (S : BaseService) (reader : Reader RR)
    (context : ServiceContext) : NoDiverge (doSingleInvoke C S reader context) := by
  unfold doSingleInvoke
  apply noDiverge_bind (noDiverge_liftE _)
  intro d
  simp only []
  split
  · exact noDiverge_bind (noDiverge_liftE _) (fun _ => noDiverge_pure _)
  · apply noDiverge_bind (noDiverge_beforeInvoke C S _ _ _)
    intro p
    split
    · exact noDiverge_bind (noDiverge_liftE _) (fun _ => noDiverge_pure _)
    · exact noDiverge_pure _

/-- When `doSingleInvoke` returns, the reader and the tag it returns are those
of its first part. -/
theorem doSingleInvoke_reader (S : BaseService) (reader : Reader RR)
    (context : ServiceContext) (w w1 : World) (r : SingleRet RR)
    (hr : doSingleInvoke C S reader context w = Res.ok r w1) :
    ∃ d, doSingleInvokeDecode C S reader context = Except.ok d ∧
      r.reader = d.reader ∧ r.tag = d.tag := by
  simp only [doSingleInvoke, bind_apply] at hr
  cases hdec : doSingleInvokeDecode C S reader context with
  | error f => simp [hdec] at hr
  | ok d =>
    refine ⟨d, rfl, ?_⟩
    simp only [hdec, liftE_ok] at hr
    have key : ∀ (method : Option Method) (ctx : ServiceContext),
        (match method with
          | none => do
            let out ← liftE (sendError C S
              (some (GoErr.errorString ("Can\x27t find this method " ++ d.name))) ctx)
            pure (⟨out, d.tag, d.reader, ctx⟩ : SingleRet RR)
          | some m => do
            let (result, err) ← beforeInvoke C S d.name d.args { ctx with Method := some m }
            match err with
            | some e => do
              let out ← liftE (sendError C S (some e) { ctx with Method := some m })
              pure ⟨out, d.tag, d.reader, { ctx with Method := some m }⟩
            | none => pure ⟨result, d.tag, d.reader, { ctx with Method := some m }⟩) w
          = Res.ok r w1 → r.reader = d.reader ∧ r.tag = d.tag := by
      intro method ctx h
      cases method with
      | none =>
        simp only [bind_apply] at h
        cases hs : sendError C S
            (some (GoErr.errorString ("Can\x27t find this method " ++ d.name))) ctx with
        | error f => simp [hs] at h
        | ok out =>
          simp only [hs, liftE_ok, pure_apply] at h
          cases h
          exact ⟨rfl, rfl⟩
      | some m =>
        simp only [bind_apply] at h
        cases hb : beforeInvoke C S d.name d.args { ctx with Method := some m } w with
        | diverge => simp [hb] at h
        | fault f w2 => simp [hb] at h
        | ok p w2 =>
          obtain ⟨result, err⟩ := p
          simp only [hb] at h
          cases err with
          | none =>
            simp only [pure_apply] at h
            cases h
            exact ⟨rfl, rfl⟩
          | some e =>
            simp only [bind_apply] at h
            cases hs : sendError C S (some e) { ctx with Method := some m } with
            | error f => simp [hs] at h
            | ok out =>
              simp only [hs, liftE_ok, pure_apply] at h
              cases h
              exact ⟨rfl, rfl⟩
    cases hm : d.method with
    | none =>
      rw [hm] at hr
      exact key (S.RemoteMethods "*") { d.context with IsMissingMethod := true } hr
    | some m0 =>
      rw [hm] at hr
      exact key (some m0) d.context hr

/-- When `doSingleInvoke` returns, fewer bytes are left to read than before. -/
theorem doSingleInvoke_progress (S : BaseService) (reader : Reader RR)
    (context : ServiceContext) (w w1 : World) (r : SingleRet RR)
    (hr : doSingleInvoke C S reader context w = Res.ok r w1) :
    r.reader.buf.length - r.reader.off < reader.buf.length - reader.off := by
  obtain ⟨d, hdec, hrd, _⟩ := doSingleInvoke_reader C S reader context w w1 r hr
  obtain ⟨_, _, _, hbuf, o, h1, h2, h3⟩ := doSingleInvokeDecode_spec C S reader context d hdec
  rw [hrd, hbuf, h3]
  omega

/-- The call loop exhausts no budget larger than the number of unread bytes. -/
theorem noDiverge_doInvokeLoop (S : BaseService) (fuel : Nat) :
    ∀ (reader : Reader RR) (context : ServiceContext) (results : List (List Byte)),
      reader.buf.length - reader.off < fuel →
      NoDiverge (doInvokeLoop C S fuel reader context results) := by
  induction fuel with
  | zero =>
    intro reader context results h
    omega
  | succ n ih =>
    intro reader context results h w
    rw [doInvokeLoop_succ]
    cases hr : doSingleInvoke C S reader context w with
    | diverge => exact absurd hr (noDiverge_doSingleInvoke C S reader context w)
    | fault f w1 => simp
    | ok r w1 =>
      simp only []
      split
      · simp
      · have hp := doSingleInvoke_progress C S reader context w w1 r hr
        apply ih
        simp only [Reader.Reset]
        omega

theorem noDiverge_doInvoke (S : BaseService) (reader : Reader RR) (context : ServiceContext) :
    NoDiverge (doInvoke C S reader context) := by
  unfold doInvoke
  apply noDiverge_bind
  · exact noDiverge_doInvokeLoop C S _ reader context [] (Nat.lt_succ_self _)
  · intro results
    exact noDiverge_liftE _

theorem total_afterFilter (S : BaseService) (request : List Byte) (context : ServiceContext) :
    Total (afterFilter C S request context) := by
  unfold afterFilter
  apply total_recover
  · simp only []
    split
    · exact noDiverge_pure _
    · split
      · exact noDiverge_bind (noDiverge_doInvoke C S _ _) (fun _ => noDiverge_pure _)
      · split
        · exact noDiverge_pure _
        · exact noDiverge_pure _
  · intro f
    exact total_pure _

theorem total_getNextFilterHandler (next : NextFilterHandler) (handler : FilterHandler)
    (hn : ∀ request context, Total (next request context))
    (request : List Byte) (context : ServiceContext) :
    Total (getNextFilterHandler next handler request context) := by
  unfold getNextFilterHandler
  apply total_recover
  · exact noDiverge_script _ (fun q => (hn q context).noDiverge) _
  · intro f
    exact total_pure _

theorem total_filterHandlers (base : NextFilterHandler) (hs : List FilterHandler)
    (hb : ∀ request context, Total (base request context))
    (request : List Byte) (context : ServiceContext) :
    Total (hs.foldr (fun h next => getNextFilterHandler next h) base request context) := by
  induction hs generalizing request context with
  | nil => exact hb request context
  | cons h hs ih =>
    exact total_getNextFilterHandler _ h (fun r c => ih r c) request context

theorem total_afterFilterHandler (S : BaseService) (request : List Byte)
    (context : ServiceContext) : Total (afterFilterHandler C S request context) :=
  total_filterHandlers _ _ (total_afterFilter C S) request context

theorem noDiverge_delayError (S : BaseService) (err : GoError) (context : ServiceContext) :
    NoDiverge (delayError C S err context) := by
  unfold delayError
  apply noDiverge_bind (noDiverge_liftE _)
  intro response
  simp only []
  split
  · apply noDiverge_bind
    · intro w
      simp [sleep]
    · intro _
      exact noDiverge_pure _
  · exact noDiverge_bind (noDiverge_pure _) (fun _ => noDiverge_pure _)

theorem total_beforeFilter (S : BaseService) (request : List Byte) (context : ServiceContext) :
    Total (beforeFilter C S request context) := by
  unfold beforeFilter
  apply total_recover
  · apply noDiverge_bind (noDiverge_liftE _)
    intro req
    apply noDiverge_bind (total_afterFilterHandler C S req context).noDiverge
    intro p
    have hout : ∀ response : List Byte, NoDiverge
        (recover
          (do
            let out ← liftE (outputFilter S response context)
            pure (out, (none : GoError)))
          (fun e => pure (response, some (NewPanicError e)))) := by
      intro response
      apply noDiverge_recover
      · exact noDiverge_bind (noDiverge_liftE _) (fun _ => noDiverge_pure _)
      · intro f
        exact noDiverge_pure _
    apply noDiverge_recover
    · simp only []
      split
      · exact noDiverge_bind (noDiverge_delayError C S _ context) hout
      · exact noDiverge_bind (noDiverge_pure _) hout
    · intro f
      exact noDiverge_pure _
  · intro f
    exact total_pure _

/-- The before-filter handler of a service always returns: a panic of a filter,
of a handler, of an event callback or of a registered function is recovered
on the way. -/
theorem total_beforeFilterHandler (S : BaseService) (request : List Byte)
    (context : ServiceContext) : Total (beforeFilterHandler C S request context) :=
  total_filterHandlers _ _ (total_beforeFilter C S) request context

/-- C1 fails on the code. On the sample service whose send-error callback
returns the nil error, the malformed request `Xabc` makes `Handle` panic: the
error response is built from a nil error, once in `beforeFilter`, where the
panic is recovered, and again in `Handle`, where it is not. The same happens
when the callback returns an error whose `Error` method panics: `Handle` calls
that method with no recover. And on the sample service with a filter that
frames the output, the response to a malformed request is the framed error
response, which does not begin with the error tag. -/
theorem Handle_fault_escapes :
    Handle Sample.codec (Sample.service Sample.registry Sample.dropErrors)
        (Sample.textBytes "Xabc") Sample.context0 Sample.world0 =
      Res.fault nilDeref Sample.world0 ∧
    Handle Sample.codec (Sample.service Sample.registry Sample.brokenErrors)
        (Sample.textBytes "Xabc") Sample.context0 Sample.world0 =
      Res.fault ⟨"Error broke", ""⟩ Sample.world0 ∧
    Sample.bytesOf (Handle Sample.codec Sample.framedService
        (0 :: Sample.textBytes "Xabc") Sample.context0 Sample.world0) =
      some (0 :: Sample.textBytes "Es21\"Wrong Request: \r\nXabc\"z") :=
  ⟨by rfl, by rfl, by rfl⟩

end TotalityTheorems

/-! ## Error messages and oneway calls -/

section ErrorTheorems

/-- C12. For a panic error `getErrorMessage` returns, in debug mode, the text
of the panic payload followed by `\r\n` and the captured stack, and outside
debug mode the text of the payload alone, whatever the stack; for every other
error it returns what the `Error` method of the error returns, in debug mode
or not: for an ordinary error its text, and for an error whose `Error` method
panics that panic. -/
theorem getErrorMessage_spec :
    (∀ p stack : String, getErrorMessage (some (GoErr.panicError p stack)) true =
      Except.ok (p ++ "\r\n" ++ stack)) ∧
    (∀ p stack : String, getErrorMessage (some (GoErr.panicError p stack)) false =
      Except.ok p) ∧
    (∀ (msg : String) (debug : Bool),
      getErrorMessage (some (GoErr.errorString msg)) debug =
        (GoErr.errorString msg).Error ∧
      (GoErr.errorString msg).Error = Except.ok msg) ∧
    (∀ (f : Fault) (debug : Bool),
      getErrorMessage (some (GoErr.faulty f)) debug = (GoErr.faulty f).Error ∧
      (GoErr.faulty f).Error = Except.error f) := by
  refine ⟨?_, ?_, ?_, ?_⟩
  · intro p stack
    simp [getErrorMessage]
  · intro p stack
    simp [getErrorMessage, GoErr.Error]
  · intro msg debug
    exact ⟨rfl, rfl⟩
  · intro f debug
    exact ⟨rfl, rfl⟩

/-- With a oneway context `invoke` calls no function: it starts the goroutine
and returns no result and no error. -/
theorem invoke_oneway (name : String) (args : List Value) (context : ServiceContext)
    (w : World) (h : context.Oneway = true) :
    invoke name args context w =
      Res.ok ⟨[], none, args⟩
        { w with spawned := w.spawned ++ [⟨context.IsMissingMethod, name, args⟩] } := by
  simp [invoke, h, recover_apply, logSpawn]

/-- C11 fails on the code. For a oneway call of `boom`, which panics, `invoke`
returns at once with no result and no error and has only started the
goroutine; but in the goroutine `defer recover()` does not stop the panic,
which leaves the goroutine. -/
theorem oneway_fault_not_swallowed :
    invoke "boom" [] { Sample.context0 with Method := some Sample.boom, Oneway := true }
        Sample.world0 =
      Res.ok ⟨[], none, []⟩ ⟨[], [⟨false, "boom", []⟩], 0⟩ ∧
    onewayGoroutine "boom" []
        { Sample.context0 with Method := some Sample.boom, Oneway := true }
        ⟨[], [⟨false, "boom", []⟩], 0⟩ =
      Res.fault ⟨"boom", "goroutine 7 [running]"⟩
        ⟨[⟨false, "boom", []⟩], [⟨false, "boom", []⟩], 0⟩ :=
  ⟨by rfl, by rfl⟩

end ErrorTheorems

/-! ## Errors of the event callbacks -/

section EventTheorems

variable {WR RR : Type} (C : Codec WR RR)

/-- Once a call is decoded and resolved to a method, `doSingleInvoke` is
`beforeInvoke` on the name, the arguments and the context with that method,
followed by the encoding of the error it returns, if any. -/
theorem doSingleInvoke_resolved (S : BaseService) (reader : Reader RR)
    (context : ServiceContext) (d : Decoded RR) (m : Method) (ctx0 : ServiceContext)
    (w : World)
    (hdec : doSingleInvokeDecode C S reader context = Except.ok d)
    (hres : resolveMethod S d = (some m, ctx0)) :
    doSingleInvoke C S reader context w =
      match beforeInvoke C S d.name d.args { ctx0 with Method := some m } w with
      | Res.ok p w1 =>
        match p.2 with
        | some e =>
          (liftE (sendError C S (some e) { ctx0 with Method := some m }) >>= fun out =>
            pure ⟨out, d.tag, d.reader, { ctx0 with Method := some m }⟩) w1
        | none => Res.ok ⟨p.1, d.tag, d.reader, { ctx0 with Method := some m }⟩ w1
      | Res.fault f w1 => Res.fault f w1
      | Res.diverge => Res.diverge := by
  simp only [resolveMethod] at hres
  simp only [doSingleInvoke, hdec, bind_apply, liftE_ok, hres]
  cases beforeInvoke C S d.name d.args { ctx0 with Method := some m } w with
  | diverge => rfl
  | fault f w1 => rfl
  | ok p w1 =>
    obtain ⟨result, err⟩ := p
    cases err <;> rfl

/-- C14. For a sub-call that is decoded and resolved to a method: when the
before-invoke event returns an error, `doSingleInvoke` calls no function (the
world stays as it is) and its output is what `sendError` encodes for that
error; when the invoke handler has returned without error and the after-invoke
event returns an error, the output is what `sendError` encodes for that error,
not the encoded result. A panic of either callback is such an error: the
panic error of its payload. -/
theorem doSingleInvoke_event_error (S : BaseService) (reader : Reader RR)
    (context : ServiceContext) (d : Decoded RR) (m : Method) (ctx0 : ServiceContext)
    (w : World)
    (hdec : doSingleInvokeDecode C S reader context = Except.ok d)
    (hres : resolveMethod S d = (some m, ctx0)) :
    (∀ e, fireBeforeInvokeEvent S.Event d.name d.args { ctx0 with Method := some m } = some e →
      doSingleInvoke C S reader context w =
        (liftE (sendError C S (some e) { ctx0 with Method := some m }) >>= fun out =>
          pure ⟨out, d.tag, d.reader, { ctx0 with Method := some m }⟩) w ∧
      (doSingleInvoke C S reader context w).endWorld = some w) ∧
    (∀ e r w1,
      fireBeforeInvokeEvent S.Event d.name d.args { ctx0 with Method := some m } = none →
      invokeHandler S d.name d.args { ctx0 with Method := some m } w = Res.ok r w1 →
      r.err = none →
      fireAfterInvokeEvent S.Event d.name r.args r.results { ctx0 with Method := some m }
        = some e →
      doSingleInvoke C S reader context w =
        (liftE (sendError C S (some e) { ctx0 with Method := some m }) >>= fun out =>
          pure ⟨out, d.tag, d.reader, { ctx0 with Method := some m }⟩) w1) ∧
    (∀ (name : String) (args : List Value) (c : ServiceContext) (p : Fault),
      (∀ f, S.Event.onBeforeInvoke = BeforeInvokeHook.notify f →
        f name args c.ByRef c.base = Except.error p →
        fireBeforeInvokeEvent S.Event name args c = some (NewPanicError p)) ∧
      (∀ f, S.Event.onBeforeInvoke = BeforeInvokeHook.check f →
        f name args c.ByRef c.base = Except.error p →
        fireBeforeInvokeEvent S.Event name args c = some (NewPanicError p))) ∧
    (∀ (name : String) (args results : List Value) (c : ServiceContext) (p : Fault),
      (∀ f, S.Event.onAfterInvoke = AfterInvokeHook.notify f →
        f name args c.ByRef results c.base = Except.error p →
        fireAfterInvokeEvent S.Event name args results c = some (NewPanicError p)) ∧
      (∀ f, S.Event.onAfterInvoke = AfterInvokeHook.check f →
        f name args c.ByRef results c.base = Except.error p →
        fireAfterInvokeEvent S.Event name args results c = some (NewPanicError p))) := by
  refine ⟨?_, ?_, ?_, ?_⟩
  · intro e he
    have h := doSingleInvoke_resolved C S reader context d m ctx0 w hdec hres
    simp only [beforeInvoke, he, pure_apply] at h
    refine ⟨h, ?_⟩
    rw [h, bind_apply]
    cases sendError C S (some e) { ctx0 with Method := some m } <;> rfl
  · intro e r w1 hbefore hinv herr hafter
    have h := doSingleInvoke_resolved C S reader context d m ctx0 w hdec hres
    simp only [beforeInvoke, hbefore, bind_apply, hinv, herr, hafter, pure_apply] at h
    exact h
  · intro name args c p
    constructor
    · intro f hf hp
      simp [fireBeforeInvokeEvent, hf, hp]
    · intro f hf hp
      simp [fireBeforeInvokeEvent, hf, hp]
  · intro name args results c p
    constructor
    · intro f hf hp
      simp [fireAfterInvokeEvent, hf, hp]
    · intro f hf hp
      simp [fireAfterInvokeEvent, hf, hp]

/-- C14 on the sample services: with the before-invoke callback that returns
`denied`, the call `inc(5)` invokes nothing and yields the encoding of
`denied`; with the after-invoke callback that panics, it invokes `inc` and
yields the encoding of the panic error. -/
theorem doSingleInvoke_event_error_witness :
    doSingleInvoke Sample.codec (Sample.service Sample.registry Sample.denyBefore)
        (Sample.readerAfterTag "Cs3\"inc\"a1\x7b5\x7dz") Sample.context0 Sample.world0 =
      Res.ok ⟨Sample.textBytes "Es6\"denied\"", 122,
          ⟨Sample.textBytes "Cs3\"inc\"a1\x7b5\x7dz", 14, ()⟩,
          { Sample.context0 with Method := some Sample.inc }⟩
        Sample.world0 ∧
    doSingleInvoke Sample.codec (Sample.service Sample.registry Sample.brokenAfter)
        (Sample.readerAfterTag "Cs3\"inc\"a1\x7b5\x7dz") Sample.context0 Sample.world0 =
      Res.ok ⟨Sample.textBytes "Es11\"after broke\"", 122,
          ⟨Sample.textBytes "Cs3\"inc\"a1\x7b5\x7dz", 14, ()⟩,
          { Sample.context0 with Method := some Sample.inc }⟩
        ⟨[⟨false, "inc", [Sample.intV 5]⟩], [], 0⟩ :=
  ⟨((doSingleInvoke_event_error Sample.codec
        (Sample.service Sample.registry Sample.denyBefore)
        (Sample.readerAfterTag "Cs3\"inc\"a1\x7b5\x7dz") Sample.context0
        ⟨"inc", some Sample.inc, [Sample.intV 5], 122,
          ⟨Sample.textBytes "Cs3\"inc\"a1\x7b5\x7dz", 14, ()⟩, Sample.context0⟩
        Sample.inc Sample.context0 Sample.world0 rfl rfl).1
      (GoErr.errorString "denied") rfl).1,
   (doSingleInvoke_event_error Sample.codec
        (Sample.service Sample.registry Sample.brokenAfter)
        (Sample.readerAfterTag "Cs3\"inc\"a1\x7b5\x7dz") Sample.context0
        ⟨"inc", some Sample.inc, [Sample.intV 5], 122,
          ⟨Sample.textBytes "Cs3\"inc\"a1\x7b5\x7dz", 14, ()⟩, Sample.context0⟩
        Sample.inc Sample.context0 Sample.world0 rfl rfl).2.1
      (NewPanicError ⟨"after broke", ""⟩)
      ⟨[Sample.intV 6], none, [Sample.intV 5]⟩
      ⟨[⟨false, "inc", [Sample.intV 5]⟩], [], 0⟩ rfl rfl rfl rfl⟩

end EventTheorems

/-! ## Malformed requests and the delay of error responses -/

section MalformedTheorems

variable {WR RR : Type} (C : Codec WR RR)

theorem inputFilter_nil (S : BaseService) (data : List Byte) (context : ServiceContext)
    (h : S.filters = []) : inputFilter S data context = Except.ok data := by
  simp [inputFilter, h, pure, Except.pure]

theorem outputFilter_nil (S : BaseService) (data : List Byte) (context : ServiceContext)
    (h : S.filters = []) : outputFilter S data context = Except.ok data := by
  simp [outputFilter, h, pure, Except.pure]

/-- What `delayError` does when the error response can be encoded: it sleeps
for the error delay when it is positive and returns the response. -/
theorem delayError_ok (S : BaseService) (err : GoError) (context : ServiceContext)
    (w : World) (bytes : List Byte) (hend : endError C S err context = Except.ok bytes) :
    delayError C S err context w =
      Res.ok bytes (if S.ErrorDelay > 0 then { w with slept := w.slept + S.ErrorDelay.toNat }
        else w) := by
  simp only [delayError, bind_apply, hend, liftE_ok]
  split <;> simp [sleep]

/-- What `beforeFilter` does when the after-filter handler returns an error
that can be encoded: the error response goes through `delayError` and then
through the output filters. -/
theorem beforeFilter_error (S : BaseService) (request req resp bytes : List Byte)
    (context : ServiceContext) (w w1 : World) (e : GoErr)
    (hin : inputFilter S request context = Except.ok req)
    (haf : afterFilterHandler C S req context w = Res.ok (resp, some e) w1)
    (hend : endError C S (some e) context = Except.ok bytes) :
    beforeFilter C S request context w =
      Res.ok
        (match outputFilter S bytes context with
          | Except.ok out => (out, none)
          | Except.error f => (bytes, some (NewPanicError f)))
        (if S.ErrorDelay > 0 then { w1 with slept := w1.slept + S.ErrorDelay.toNat }
          else w1) := by
  simp only [beforeFilter, recover_apply, bind_apply, hin, liftE_ok, haf,
    delayError_ok C S (some e) context w1 bytes hend]
  cases outputFilter S bytes context <;> rfl

/-- What `afterFilter` does with a request whose first byte is neither the
call tag nor the end tag. -/
theorem afterFilter_wrong_request (S : BaseService) (context : ServiceContext) (w : World)
    (b : Byte) (rest : List Byte) (hc : b ≠ C.TagCall) (he : b ≠ C.TagEnd) :
    afterFilter C S (b :: rest) context w =
      Res.ok ([], some (GoErr.errorString
        ("Wrong Request: \r\n" ++ bytesToString (b :: rest)))) w := by
  simp [afterFilter, recover_apply, NewReader, Reader.ReadByte, Reader.rest, hc, he]

/-- C13, as stated, fails. On the sample service with the filter that stamps
outgoing data, `afterFilter` returns the malformed-request error for `Xabc`,
but the response `Handle` returns is that error response with the stamp of the
filter before it: it does not begin with the error tag. -/
theorem malformed_response_filtered :
    afterFilter Sample.codec Sample.stampedService (Sample.textBytes "Xabc")
        Sample.context0 Sample.world0 =
      Res.ok ([], some (GoErr.errorString "Wrong Request: \r\nXabc")) Sample.world0 ∧
    Handle Sample.codec Sample.stampedService (Sample.textBytes "Xabc")
        Sample.context0 Sample.world0 =
      Res.ok (0 :: Sample.textBytes "Es21\"Wrong Request: \r\nXabc\"z") Sample.world0 ∧
    ¬ ∃ msg : String,
        0 :: Sample.textBytes "Es21\"Wrong Request: \r\nXabc\"z" =
          [Sample.codec.TagError] ++
            (Sample.codec.writeString true Sample.codec.wrefs msg).1 ++
            [Sample.codec.TagEnd] := by
  refine ⟨by rfl, by rfl, ?_⟩
  rintro ⟨msg, h⟩
  have h0 := congrArg List.head? h
  simp [Sample.codec] at h0

/-- C13, amended. For every request whose first byte is neither the call tag
nor the end tag, `afterFilter` invokes no method (the world stays as it is)
and returns the malformed-request error; and for a service without filters and
without added filter handlers whose send-error event leaves the error as it
is, `Handle` returns the error tag, the string of that message and the end
tag. -/
theorem Handle_wrong_request (S : BaseService) (context : ServiceContext) (w : World)
    (b : Byte) (rest : List Byte) (hc : b ≠ C.TagCall) (he : b ≠ C.TagEnd) :
    afterFilter C S (b :: rest) context w =
      Res.ok ([], some (GoErr.errorString
        ("Wrong Request: \r\n" ++ bytesToString (b :: rest)))) w ∧
    (S.filters = [] → S.beforeFilterHandlers = [] → S.afterFilterHandlers = [] →
      (∀ e c, fireErrorEvent S.Event e c = e) →
      Handle C S (b :: rest) context w =
        Res.ok ([C.TagError] ++
            (C.writeString true C.wrefs
              ("Wrong Request: \r\n" ++ bytesToString (b :: rest))).1 ++ [C.TagEnd])
          (if S.ErrorDelay > 0 then { w with slept := w.slept + S.ErrorDelay.toNat }
            else w)) := by
  have haf := afterFilter_wrong_request C S context w b rest hc he
  refine ⟨haf, ?_⟩
  intro hf hb ha hev
  have haf2 : afterFilterHandler C S (b :: rest) context w =
      Res.ok ([], some (GoErr.errorString
        ("Wrong Request: \r\n" ++ bytesToString (b :: rest)))) w := by
    simp only [afterFilterHandler, ha, List.foldr_nil]
    exact haf
  have hend : endError C S (some (GoErr.errorString
        ("Wrong Request: \r\n" ++ bytesToString (b :: rest)))) context =
      Except.ok ([C.TagError] ++
        (C.writeString true C.wrefs
          ("Wrong Request: \r\n" ++ bytesToString (b :: rest))).1 ++ [C.TagEnd]) := by
    simp [endError, sendError, hev, getErrorMessage, GoErr.Error, NewWriter,
      Writer.WriteByte, Writer.WriteString, Writer.Bytes, bind, Except.bind, pure, Except.pure]
  have hbf := beforeFilter_error C S (b :: rest) (b :: rest) [] _ context w w _
    (inputFilter_nil S _ context hf) haf2 hend
  simp only [outputFilter_nil S _ context hf] at hbf
  simp only [Handle, beforeFilterHandler, hb, List.foldr_nil, bind_apply, hbf, pure_apply]

/-- The amended C13 on the sample service without filters and event sink and
the request `Xabc`. -/
theorem Handle_wrong_request_witness :
    Handle Sample.codec (Sample.service Sample.registry Sample.noEvent)
        (Sample.textBytes "Xabc") Sample.context0 Sample.world0 =
      Res.ok (Sample.textBytes "Es21\"Wrong Request: \r\nXabc\"z") Sample.world0 :=
  (Handle_wrong_request Sample.codec (Sample.service Sample.registry Sample.noEvent)
    Sample.context0 Sample.world0 88 (Sample.textBytes "abc")
    (by decide) (by decide)).2 rfl rfl rfl (fun _ _ => rfl)

/-- C15, as stated, fails. On the sample service with an error delay of 10,
the response to the call of the unregistered `foo` carries an error encoding,
and `Handle` returns it without having slept. -/
theorem sub_call_error_not_delayed :
    0 < Sample.delayedService.ErrorDelay ∧
    Handle Sample.codec Sample.delayedService (Sample.textBytes "Cs3\"foo\"z")
        Sample.context0 ⟨[], [], 0⟩ =
      Res.ok (Sample.textBytes "Es26\"Can\x27t find this method foo\"z") ⟨[], [], 0⟩ :=
  ⟨by decide, by rfl⟩

/-- C15, amended. For a service with a positive error delay and a request for
which the after-filter handler returns an error that can be encoded,
`beforeFilter` sleeps for the error delay after encoding the error response
and before the output filters, and returns; and when no before-filter handler
is added and the output filters do not panic, `Handle` returns the filtered
error response after that sleep. -/
theorem beforeFilter_delays (S : BaseService) (request req resp bytes : List Byte)
    (context : ServiceContext) (w w1 : World) (e : GoErr)
    (hpos : 0 < S.ErrorDelay)
    (hin : inputFilter S request context = Except.ok req)
    (haf : afterFilterHandler C S req context w = Res.ok (resp, some e) w1)
    (hend : endError C S (some e) context = Except.ok bytes) :
    delayError C S (some e) context w1 =
      Res.ok bytes { w1 with slept := w1.slept + S.ErrorDelay.toNat } ∧
    (∃ r, beforeFilter C S request context w =
      Res.ok r { w1 with slept := w1.slept + S.ErrorDelay.toNat }) ∧
    (∀ out, S.beforeFilterHandlers = [] → outputFilter S bytes context = Except.ok out →
      Handle C S request context w =
        Res.ok out { w1 with slept := w1.slept + S.ErrorDelay.toNat }) := by
  have hd := delayError_ok C S (some e) context w1 bytes hend
  have hbf := beforeFilter_error C S request req resp bytes context w w1 e hin haf hend
  have hgt : S.ErrorDelay > 0 := hpos
  simp only [hgt, if_true] at hd hbf
  refine ⟨hd, ⟨_, hbf⟩, ?_⟩
  intro out hb hout
  simp only [hout] at hbf
  simp only [Handle, beforeFilterHandler, hb, List.foldr_nil, bind_apply, hbf, pure_apply]

/-- The amended C15 on the sample service with an error delay of 10 and the
malformed request `Xabc`: the response comes after a sleep of 10. -/
theorem beforeFilter_delays_witness :
    Handle Sample.codec Sample.delayedService (Sample.textBytes "Xabc")
        Sample.context0 ⟨[], [], 0⟩ =
      Res.ok (Sample.textBytes "Es21\"Wrong Request: \r\nXabc\"z") ⟨[], [], 10⟩ :=
  (beforeFilter_delays Sample.codec Sample.delayedService (Sample.textBytes "Xabc")
    (Sample.textBytes "Xabc") [] (Sample.textBytes "Es21\"Wrong Request: \r\nXabc\"z")
    Sample.context0 ⟨[], [], 0⟩ ⟨[], [], 0⟩ (GoErr.errorString "Wrong Request: \r\nXabc")
    (by decide) rfl rfl rfl).2.2 _ rfl rfl

end MalformedTheorems

/-! ## The connection loop (`serve`): frames -/

section TransportTheorems

theorem sm_bind_apply {α β : Type} (x : SM α) (k : α → SM β) (c : ConnState) (w : World) :
    (x >>= k) c w =
      match x c w with
      | SRes.ok a c1 w1 => k a c1 w1
      | SRes.fault f c1 w1 => SRes.fault f c1 w1
      | SRes.diverge => SRes.diverge := rfl

theorem sm_pure_apply {α : Type} (a : α) (c : ConnState) (w : World) :
    (pure a : SM α) c w = SRes.ok a c w := rfl

theorem BufReader.Read_length_le (b : BufReader) (n : Nat) (got : List Byte) (r : BufReader)
    (h : b.Read n = (some got, r)) : got.length ≤ n := by
  unfold BufReader.Read at h
  split at h
  · cases h; simp
  · split at h
    · cases h; simp
    · split at h
      · cases h
      · cases h
      · cases h; simp

theorem copyInto_length (dst src : List Byte) (h : src.length ≤ dst.length) :
    (copyInto dst src).length = dst.length := by
  simp [copyInto]; omega

theorem readConn_some (n : Nat) (c : ConnState) (w : World) (got : List Byte) (r : BufReader)
    (h : c.reader.Read n = (some got, r)) :
    readConn n c w =
      SRes.ok (some got) { c with reader := r, trace := c.trace ++ [ConnEvent.read n got] } w := by
  simp [readConn, h]

theorem readConn_cases (n : Nat) (c : ConnState) (w : World) :
    (∃ got r, c.reader.Read n = (some got, r) ∧ got.length ≤ n ∧
      readConn n c w =
        SRes.ok (some got) { c with reader := r, trace := c.trace ++ [ConnEvent.read n got] } w) ∨
    (∃ r, readConn n c w =
        SRes.ok none { c with reader := r, trace := c.trace ++ [ConnEvent.readError n] } w) := by
  rcases hr : c.reader.Read n with ⟨o, r⟩
  cases o with
  | none => exact Or.inr ⟨r, by simp [readConn, hr]⟩
  | some got =>
    exact Or.inl ⟨got, r, rfl, BufReader.Read_length_le _ _ _ _ hr, by simp [readConn, hr]⟩

theorem readBody_some (header : List Byte) (fd : Bool) (id : List Byte) (size : Nat)
    (c c2 : ConnState) (w w2 : World) (v1 : ServeVars)
    (h : readBody header fd id size c w = SRes.ok (some v1) c2 w2) :
    v1.data.fullDuplex = fd ∧ v1.data.body.length = size ∧
      ∃ gotBody, c2.trace = c.trace ++ [ConnEvent.read size gotBody] := by
  rcases readConn_cases size c w with ⟨got, r, _, hle, hc⟩ | ⟨r, hc⟩
  · simp only [readBody, sm_bind_apply, hc, sm_pure_apply] at h
    injection h with h1 h2 h3
    injection h1 with h1
    subst h1; subst h2
    refine ⟨rfl, ?_, got, rfl⟩
    simp [copyInto]; omega
  · simp only [readBody, sm_bind_apply, hc, sm_pure_apply] at h
    injection h with h1
    cases h1

theorem and_top_bit (h : Nat) (hlt : h < 2 ^ 32) :
    ((h &&& 0x80000000) != 0) = decide (2 ^ 31 ≤ h) := by
  have e : (0x80000000 : Nat) = 2 ^ 31 := by norm_num
  rw [e, Nat.and_two_pow, Nat.testBit_to_div_mod]
  by_cases hge : 2 ^ 31 ≤ h
  · have h1 : h / 2 ^ 31 % 2 = 1 := by omega
    rw [h1]
    simp
    omega
  · have h0 : h / 2 ^ 31 % 2 = 0 := by omega
    rw [h0]
    simp
    omega

theorem and_low_bits (h : Nat) : h &&& 0x7FFFFFFF = h % 2 ^ 31 := by
  have e : (0x7FFFFFFF : Nat) = 2 ^ 31 - 1 := by norm_num
  rw [e, Nat.and_pow_two_sub_one_eq_mod]

theorem headerFlag_eq (h : Nat) (hlt : h < 2 ^ 32) : headerFlag h = decide (2 ^ 31 ≤ h) := by
  unfold headerFlag
  exact and_top_bit h hlt

theorem bodySize_eq (h : Nat) (hlt : h < 2 ^ 32) : bodySize h = h % 2 ^ 31 := by
  unfold bodySize
  rw [headerFlag_eq h hlt]
  by_cases hge : 2 ^ 31 ≤ h
  · rw [if_pos (by simpa using hge)]
    exact and_low_bits h
  · rw [if_neg (by simpa using hge)]
    exact (Nat.mod_eq_of_lt (by omega)).symm

/-- C16. In an iteration of the connection loop whose header read returns
bytes, with `h` the 32-bit value of the header: the frame is full-duplex
exactly when `2^31 ≤ h`; the body length is `h mod 2^31`; after the header the
loop reads the request id and then a body of that length when `2^31 ≤ h`, and
the body at once otherwise; and a frame that is read in full has the flag
`2^31 ≤ h`, a body of length `h mod 2^31`, and was read by a header read, an id
read exactly when it is full-duplex, and a body read. -/
theorem readFrame_header (W : Wire) (v : ServeVars) (c : ConnState) (w : World)
    (got : List Byte) (r : BufReader) (hread : c.reader.Read 4 = (some got, r)) :
    headerFlag (W.toUint32 (copyInto v.header got) % 2 ^ 32) =
        decide (2 ^ 31 ≤ W.toUint32 (copyInto v.header got) % 2 ^ 32) ∧
    bodySize (W.toUint32 (copyInto v.header got) % 2 ^ 32) =
        W.toUint32 (copyInto v.header got) % 2 ^ 32 % 2 ^ 31 ∧
    readFrame W v c w =
      (if 2 ^ 31 ≤ W.toUint32 (copyInto v.header got) % 2 ^ 32 then
        (readConn v.data.id.length >>= fun o =>
          match o with
          | none => pure none
          | some gotId =>
            readBody (copyInto v.header got) true (copyInto v.data.id gotId)
              (W.toUint32 (copyInto v.header got) % 2 ^ 32 % 2 ^ 31))
          { c with reader := r, trace := c.trace ++ [ConnEvent.read 4 got] } w
      else
        readBody (copyInto v.header got) false v.data.id
          (W.toUint32 (copyInto v.header got) % 2 ^ 32 % 2 ^ 31)
          { c with reader := r, trace := c.trace ++ [ConnEvent.read 4 got] } w) ∧
    (∀ (v1 : ServeVars) (c2 : ConnState) (w2 : World),
      readFrame W v c w = SRes.ok (some v1) c2 w2 →
        v1.data.fullDuplex = decide (2 ^ 31 ≤ W.toUint32 (copyInto v.header got) % 2 ^ 32) ∧
        v1.data.body.length = W.toUint32 (copyInto v.header got) % 2 ^ 32 % 2 ^ 31 ∧
        ∃ gotId gotBody,
          c2.trace = c.trace ++ [ConnEvent.read 4 got] ++
            (if 2 ^ 31 ≤ W.toUint32 (copyInto v.header got) % 2 ^ 32
              then [ConnEvent.read v.data.id.length gotId] else []) ++
            [ConnEvent.read (W.toUint32 (copyInto v.header got) % 2 ^ 32 % 2 ^ 31) gotBody]) := by
  have hlt : W.toUint32 (copyInto v.header got) % 2 ^ 32 < 2 ^ 32 := Nat.mod_lt _ (by norm_num)
  have hflag := headerFlag_eq _ hlt
  have hsize := bodySize_eq _ hlt
  have heq : readFrame W v c w =
      (if 2 ^ 31 ≤ W.toUint32 (copyInto v.header got) % 2 ^ 32 then
        (readConn v.data.id.length >>= fun o =>
          match o with
          | none => pure none
          | some gotId =>
            readBody (copyInto v.header got) true (copyInto v.data.id gotId)
              (W.toUint32 (copyInto v.header got) % 2 ^ 32 % 2 ^ 31))
          { c with reader := r, trace := c.trace ++ [ConnEvent.read 4 got] } w
      else
        readBody (copyInto v.header got) false v.data.id
          (W.toUint32 (copyInto v.header got) % 2 ^ 32 % 2 ^ 31)
          { c with reader := r, trace := c.trace ++ [ConnEvent.read 4 got] } w) := by
    simp only [readFrame, sm_bind_apply, readConn_some 4 c w got r hread]
    by_cases hge : 2 ^ 31 ≤ W.toUint32 (copyInto v.header got) % 2 ^ 32
    · simp only [hflag, hsize, hge, decide_True, if_true]
      rfl
    · simp only [hflag, hsize, hge, decide_False, if_false]
      rfl
  refine ⟨hflag, hsize, heq, ?_⟩
  intro v1 c2 w2 hok
  rw [heq] at hok
  by_cases hge : 2 ^ 31 ≤ W.toUint32 (copyInto v.header got) % 2 ^ 32
  · simp only [hge, if_true, sm_bind_apply] at hok
    rcases readConn_cases v.data.id.length
        { c with reader := r, trace := c.trace ++ [ConnEvent.read 4 got] } w with
      ⟨gotId, r1, _, _, hc⟩ | ⟨r1, hc⟩
    · rw [hc] at hok
      dsimp only at hok
      obtain ⟨h1, h2, gotBody, h3⟩ := readBody_some _ _ _ _ _ _ _ _ _ hok
      refine ⟨by rw [h1]; exact (decide_eq_true hge).symm, h2, gotId, gotBody, ?_⟩
      rw [h3, if_pos hge]
    · rw [hc] at hok
      simp only [sm_pure_apply] at hok
      injection hok with h1
      cases h1
  · simp only [hge, if_false] at hok
    obtain ⟨h1, h2, gotBody, h3⟩ := readBody_some _ _ _ _ _ _ _ _ _ hok
    refine ⟨by rw [h1]; exact (decide_eq_false hge).symm, h2, [], gotBody, ?_⟩
    rw [h3, if_neg hge, List.append_nil]

/-- C16 on a frame with header `80 00 00 01`, request id `00 00 00 07` and
body `z`. -/
theorem readFrame_header_witness :
    Sample.wire.toUint32 (copyInto [0, 0, 0, 0] [128, 0, 0, 1]) % 2 ^ 32 = 2 ^ 31 + 1 ∧
    readFrame Sample.wire ⟨[0, 0, 0, 0], ⟨false, [0, 0, 0, 0], []⟩⟩
        (Sample.conn [[128, 0, 0, 1, 0, 0, 0, 7, 122]]) Sample.world0 =
      SRes.ok (some ⟨[128, 0, 0, 1], ⟨true, [0, 0, 0, 7], [122]⟩⟩)
        ⟨⟨[], []⟩, 10,
          [ConnEvent.read 4 [128, 0, 0, 1], ConnEvent.read 4 [0, 0, 0, 7], ConnEvent.read 1 [122]],
          false⟩
        Sample.world0 ∧
    (∀ (v1 : ServeVars) (c2 : ConnState) (w2 : World),
      readFrame Sample.wire ⟨[0, 0, 0, 0], ⟨false, [0, 0, 0, 0], []⟩⟩
          (Sample.conn [[128, 0, 0, 1, 0, 0, 0, 7, 122]]) Sample.world0 = SRes.ok (some v1) c2 w2 →
        v1.data.fullDuplex =
          decide (2 ^ 31 ≤ Sample.wire.toUint32 (copyInto [0, 0, 0, 0] [128, 0, 0, 1]) % 2 ^ 32) ∧
        v1.data.body.length =
          Sample.wire.toUint32 (copyInto [0, 0, 0, 0] [128, 0, 0, 1]) % 2 ^ 32 % 2 ^ 31 ∧
        ∃ gotId gotBody,
          c2.trace = [] ++ [ConnEvent.read 4 [128, 0, 0, 1]] ++
            (if 2 ^ 31 ≤ Sample.wire.toUint32 (copyInto [0, 0, 0, 0] [128, 0, 0, 1]) % 2 ^ 32
              then [ConnEvent.read 4 gotId] else []) ++
            [ConnEvent.read
              (Sample.wire.toUint32 (copyInto [0, 0, 0, 0] [128, 0, 0, 1]) % 2 ^ 32 % 2 ^ 31)
              gotBody]) :=
  ⟨by decide, by rfl,
    (readFrame_header Sample.wire ⟨[0, 0, 0, 0], ⟨false, [0, 0, 0, 0], []⟩⟩
      (Sample.conn [[128, 0, 0, 1, 0, 0, 0, 7, 122]]) Sample.world0
      [128, 0, 0, 1] ⟨[0, 0, 0, 7, 122], []⟩ (by rfl)).2.2.2⟩

end TransportTheorems

/-! ## The connection loop: short reads, the accept event, the mutex -/

section ConnectionTheorems

/-- C17 fails on the code. The frame `00 00 00 01 z` is delivered to the
sample service once whole and once in two pieces, `00 00` and `00 01 z`, with
no read failing before the response is written. Whole, the loop reads the
header and the body and sends the response to `z`. In two pieces, the header
read returns two bytes, which `serve` takes for a whole header: it reads a body
of length 0, sends the response to the empty request (an error response), and
then takes `00 01 z` and a stale byte for the next header. -/
theorem split_frame_answered_as_empty_request :
    Sample.connOf (serveConn Sample.codec Sample.wire (Sample.service Sample.registry Sample.noEvent)
        Sample.noSocketEvent (Sample.conn [[0, 0, 0, 1, 122]]) Sample.world0) =
      some ([ConnEvent.read 4 [0, 0, 0, 1], ConnEvent.read 1 [122],
        ConnEvent.send ⟨false, [0, 0, 0, 0], Sample.textBytes "Fa\x7b\x7dz"⟩ true,
        ConnEvent.readError 4, ConnEvent.close], true) ∧
    Sample.connOf (serveConn Sample.codec Sample.wire (Sample.service Sample.registry Sample.noEvent)
        Sample.noSocketEvent (Sample.conn [[0, 0], [0, 1, 122]]) Sample.world0) =
      some ([ConnEvent.read 4 [0, 0], ConnEvent.read 0 [],
        ConnEvent.send ⟨false, [0, 0, 0, 0], Sample.textBytes "Es3\"EOF\"z"⟩ true,
        ConnEvent.read 4 [0, 1, 122], ConnEvent.readError 96768, ConnEvent.close], true) ∧
    Sample.bytesOf (Handle Sample.codec (Sample.service Sample.registry Sample.noEvent) [122]
        newSocketContext Sample.world0) = some (Sample.textBytes "Fa\x7b\x7dz") ∧
    Sample.bytesOf (Handle Sample.codec (Sample.service Sample.registry Sample.noEvent) []
        newSocketContext Sample.world0) = some (Sample.textBytes "Es3\"EOF\"z") :=
  ⟨by rfl, by rfl, by rfl, by rfl⟩

/-- C18 fails on the code. When the accept callback returns an error,
`serveConn` hands the error to the error event and returns: it reads nothing
from the connection and sends nothing, but it does not close the connection
either (`Close` is called at the end of `serve` only). -/
theorem accept_veto_leaves_connection_open :
    fireAcceptEvent Sample.refusing = some (GoErr.errorString "refused") ∧
    (∀ (S : BaseService) (c : ConnState) (w : World),
      serveConn Sample.codec Sample.wire S Sample.refusing c w =
        SRes.ok () { c with trace := c.trace ++
          [ConnEvent.errorFired (GoErr.errorString "refused")] } w) ∧
    Sample.connOf (serveConn Sample.codec Sample.wire (Sample.service Sample.registry Sample.noEvent)
        Sample.refusing (Sample.conn [[0, 0, 0, 1, 122]]) Sample.world0) =
      some ([ConnEvent.errorFired (GoErr.errorString "refused")], false) ∧
    Sample.connOf (serveConn Sample.codec Sample.wire (Sample.service Sample.registry Sample.noEvent)
        ⟨ConnHook.notify (Except.error ⟨"accept broke", ""⟩), ConnHook.absent⟩
        (Sample.conn [[0, 0, 0, 1, 122]]) Sample.world0) =
      some ([ConnEvent.errorFired (GoErr.panicError "accept broke" "")], false) :=
  ⟨by rfl, fun _ _ _ => by rfl, by rfl, by rfl⟩

/-- C19 fails on the code. A connection delivers a full-duplex frame (request
id 7) and then a half-duplex frame. The loop starts a goroutine for the first
and handles the second itself: `hdHandle` sends its response without locking
the mutex, while the goroutine, running `fdHandle`, sends under the mutex. So
the mutex does not keep the two sends apart. -/
theorem hdHandle_sends_without_lock :
    Sample.connOf (serveConn Sample.codec Sample.wire (Sample.service Sample.registry Sample.noEvent)
        Sample.noSocketEvent
        (Sample.conn [[128, 0, 0, 1, 0, 0, 0, 7, 122, 0, 0, 0, 1, 122]]) Sample.world0) =
      some ([ConnEvent.read 4 [128, 0, 0, 1], ConnEvent.read 4 [0, 0, 0, 7], ConnEvent.read 1 [122],
        ConnEvent.start ⟨true, [0, 0, 0, 7], [122]⟩,
        ConnEvent.read 4 [0, 0, 0, 1], ConnEvent.read 1 [122],
        ConnEvent.send ⟨false, [0, 0, 0, 7], Sample.textBytes "Fa\x7b\x7dz"⟩ true,
        ConnEvent.readError 4, ConnEvent.close], true) ∧
    sendsUnderLock false
      [ConnEvent.read 4 [128, 0, 0, 1], ConnEvent.read 4 [0, 0, 0, 7], ConnEvent.read 1 [122],
        ConnEvent.start ⟨true, [0, 0, 0, 7], [122]⟩,
        ConnEvent.read 4 [0, 0, 0, 1], ConnEvent.read 1 [122],
        ConnEvent.send ⟨false, [0, 0, 0, 7], Sample.textBytes "Fa\x7b\x7dz"⟩ true,
        ConnEvent.readError 4, ConnEvent.close] = false ∧
    Sample.connOf (fdHandle Sample.codec (Sample.service Sample.registry Sample.noEvent)
        ⟨true, [0, 0, 0, 7], [122]⟩ (Sample.conn []) Sample.world0) =
      some ([ConnEvent.lock,
        ConnEvent.send ⟨true, [0, 0, 0, 7], Sample.textBytes "Fa\x7b\x7dz"⟩ true,
        ConnEvent.unlock], false) ∧
    Sample.connOf (hdHandle Sample.codec (Sample.service Sample.registry Sample.noEvent)
        ⟨false, [0, 0, 0, 7], [122]⟩ (Sample.conn []) Sample.world0) =
      some ([ConnEvent.send ⟨false, [0, 0, 0, 7], Sample.textBytes "Fa\x7b\x7dz"⟩ true], false) :=
  ⟨by rfl, by rfl, by rfl, by rfl⟩

end ConnectionTheorems

/-! ## The argument slots of `readArguments` -/

section ArgumentTheorems

variable {WR RR : Type} (C : Codec WR RR)

theorem except_ok_bind {α β : Type} (a : α) (k : α → Except Fault β) :
    ((Except.ok a : Except Fault α) >>= k) = k a := rfl

theorem readArguments_eq (fixer : Fixer) (reader r1 r2 : Reader RR) (m : Method)
    (context : ServiceContext) (n count : Nat) (slots filled : List Value)
    (hn : n = if m.Function.ft.IsVariadic then m.Function.ft.NumIn - 1 else m.Function.ft.NumIn)
    (hslots : slots = (List.range (Nat.max n count)).map (fun i =>
        if i < n then Value.zero (m.Function.ft.InAt i)
        else if m.Function.ft.IsVariadic then Value.zero (m.Function.ft.InAt n)
        else Value.zero Ty.interfaceType))
    (hc : reader.ReadCount C = Except.ok (count, r1))
    (hs : r1.ReadSlice C (slots.take count) = Except.ok (filled, r2)) :
    readArguments C fixer reader (some m) context =
      if (!m.Function.ft.IsVariadic && decide (n > count)) = true then
        match fixer with
        | none => Except.error nilDeref
        | some fx => fx (filled ++ slots.drop count) context >>= fun args => pure (args, r2)
      else Except.ok (filled ++ slots.drop count, r2) := by
  subst hn
  subst hslots
  simp only [readArguments, hc, except_ok_bind, hs]
  rfl

theorem fixer_result (fx : List Value → ServiceContext → Except Fault (List Value))
    (hfx : fx = fixArguments ∨ fx = socketFixer_FixArguments)
    (args : List Value) (context : ServiceContext) (hne : 0 < args.length) :
    ∃ out, fx args context = Except.ok out ∧
      (out = args ∨ ∃ v, out = args.set (args.length - 1) v) := by
  obtain ⟨a, ha⟩ : ∃ a, args.get? (args.length - 1) = some a := by
    have hlt : args.length - 1 < args.length := by omega
    exact ⟨args.get ⟨_, hlt⟩, List.get?_eq_get hlt⟩
  have hfix : ∃ out, fixArguments args context = Except.ok out ∧
      (out = args ∨ ∃ v, out = args.set (args.length - 1) v) := by
    unfold fixArguments
    simp only [ha]
    split
    · exact ⟨_, rfl, Or.inr ⟨_, rfl⟩⟩
    · exact ⟨_, rfl, Or.inl rfl⟩
  rcases hfx with h | h
  · subst h
    exact hfix
  · subst h
    unfold socketFixer_FixArguments
    simp only [ha]
    split
    · split
      · exact ⟨_, rfl, Or.inr ⟨_, rfl⟩⟩
      · exact ⟨_, rfl, Or.inl rfl⟩
    · split
      · exact ⟨_, rfl, Or.inr ⟨_, rfl⟩⟩
      · exact ⟨_, rfl, Or.inl rfl⟩
    · exact hfix

theorem sliceOf_ne (t : Ty) : Ty.sliceOf t ≠ t := by
  intro h
  have := congrArg sizeOf h
  simp at this

theorem tailOf_InAt (ft : FuncType) (elem : Ty) (h : ft.tailOf elem) :
    ft.InAt (ft.NumIn - 1) = Ty.sliceOf elem := by
  unfold FuncType.InAt FuncType.NumIn
  have hlast := h.2
  rw [List.getLast?_eq_getElem?] at hlast
  simp [List.getD_eq_getElem?_getD, hlast]

/-- C20, amended. When the count and the elements are read (the decoder fills
the slots it is given, so it returns as many values, of the types of the
slots) and the fixer is one of the two of the sources, `readArguments` returns
`max(n, count)` arguments, `n` being the number of parameters without a
variadic tail; slot `i < min(n, count)` has the type of parameter `i`; slot `i`
with `n ≤ i < count` has the type `In(n)` when the function is variadic and the
empty interface type otherwise; for a function with the tail `...T`, `In(n)` is
the slice type `[]T`, which is not the element type `T`; and the first `count`
slots are the values read from the wire. -/
theorem readArguments_slots (fixer : Fixer) (reader r1 r2 : Reader RR) (m : Method)
    (context : ServiceContext) (n count : Nat) (slots filled : List Value)
    (hn : n = if m.Function.ft.IsVariadic then m.Function.ft.NumIn - 1 else m.Function.ft.NumIn)
    (hslots : slots = (List.range (Nat.max n count)).map (fun i =>
        if i < n then Value.zero (m.Function.ft.InAt i)
        else if m.Function.ft.IsVariadic then Value.zero (m.Function.ft.InAt n)
        else Value.zero Ty.interfaceType))
    (hc : reader.ReadCount C = Except.ok (count, r1))
    (hs : r1.ReadSlice C (slots.take count) = Except.ok (filled, r2))
    (hfill : filled.map Value.typ = (slots.take count).map Value.typ)
    (hfx : fixer = some fixArguments ∨ fixer = some socketFixer_FixArguments) :
    ∃ args, readArguments C fixer reader (some m) context = Except.ok (args, r2) ∧
      args.length = Nat.max n count ∧
      (∀ i, i < Nat.min n count → (args.map Value.typ)[i]? = some (m.Function.ft.InAt i)) ∧
      (∀ i, n ≤ i → i < count → (args.map Value.typ)[i]? =
          some (if m.Function.ft.IsVariadic then m.Function.ft.InAt n else Ty.interfaceType)) ∧
      (∀ elem, m.Function.ft.tailOf elem → ∀ i, n ≤ i → i < count →
          (args.map Value.typ)[i]? = some (Ty.sliceOf elem) ∧ Ty.sliceOf elem ≠ elem) ∧
      args.take count = filled := by
  have heq := readArguments_eq C fixer reader r1 r2 m context n count slots filled hn hslots hc hs
  have hslen : slots.length = Nat.max n count := by rw [hslots]; simp
  have hflen : filled.length = count := by
    have := congrArg List.length hfill
    simp only [List.length_map, List.length_take, hslen] at this
    rw [this]
    exact Nat.min_eq_left (Nat.le_max_right n count)
  have htyp0 : (filled ++ slots.drop count).map Value.typ = slots.map Value.typ := by
    rw [List.map_append, hfill, ← List.map_append, List.take_append_drop]
  have hlen0 : (filled ++ slots.drop count).length = Nat.max n count := by
    have := congrArg List.length htyp0
    simpa [hslen] using this
  have hget : ∀ i, i < Nat.max n count → (slots.map Value.typ)[i]? =
      some (if i < n then m.Function.ft.InAt i
        else if m.Function.ft.IsVariadic then m.Function.ft.InAt n else Ty.interfaceType) := by
    intro i hi
    rw [hslots, List.map_map, List.getElem?_map, List.getElem?_range hi]
    show some _ = some _
    congr 1
    simp only [Function.comp]
    by_cases h1 : i < n
    · simp only [h1, if_true, Value.zero]
    · by_cases h2 : m.Function.ft.IsVariadic = true <;> simp [h1, h2, Value.zero]
  have htake0 : (filled ++ slots.drop count).take count = filled := by
    rw [← hflen]
    exact List.take_left _ _
  -- what is needed of the arguments returned
  have hfinal : ∀ args : List Value,
      (args = filled ++ slots.drop count ∨
        (count < n ∧ ∃ v, args = (filled ++ slots.drop count).set
          ((filled ++ slots.drop count).length - 1) v)) →
      args.length = Nat.max n count ∧
      (∀ i, i < Nat.min n count → (args.map Value.typ)[i]? = some (m.Function.ft.InAt i)) ∧
      (∀ i, n ≤ i → i < count → (args.map Value.typ)[i]? =
          some (if m.Function.ft.IsVariadic then m.Function.ft.InAt n else Ty.interfaceType)) ∧
      (∀ elem, m.Function.ft.tailOf elem → ∀ i, n ≤ i → i < count →
          (args.map Value.typ)[i]? = some (Ty.sliceOf elem) ∧ Ty.sliceOf elem ≠ elem) ∧
      args.take count = filled := by
    intro args hargs
    have hkey : args.length = Nat.max n count ∧ args.take count = filled ∧
        ∀ i, i < count → (args.map Value.typ)[i]? = (slots.map Value.typ)[i]? := by
      rcases hargs with h | ⟨hlt, v, h⟩
      · subst h
        exact ⟨hlen0, htake0, fun i _ => by rw [htyp0]⟩
      · subst h
        refine ⟨by rw [List.length_set]; exact hlen0, ?_, ?_⟩
        · rw [List.set_take, htake0, List.set_eq_of_length_le]
          rw [hflen, hlen0]
          have : n ≤ Nat.max n count := Nat.le_max_left n count
          omega
        · intro i hi
          have hne : (filled ++ slots.drop count).length - 1 ≠ i := by
            rw [hlen0]
            have : n ≤ Nat.max n count := Nat.le_max_left n count
            omega
          rw [List.map_set, List.getElem?_set_ne hne, htyp0]
    obtain ⟨h1, h2, h3⟩ := hkey
    have hmax : ∀ i, i < count → i < Nat.max n count := fun i hi =>
      Nat.lt_of_lt_of_le hi (Nat.le_max_right n count)
    have hslot : ∀ i, n ≤ i → i < count → (args.map Value.typ)[i]? =
        some (if m.Function.ft.IsVariadic then m.Function.ft.InAt n else Ty.interfaceType) := by
      intro i hni hic
      rw [h3 i hic, hget i (hmax i hic), if_neg (by omega)]
    refine ⟨h1, ?_, hslot, ?_, h2⟩
    · intro i hi
      have hin : i < n := Nat.lt_of_lt_of_le hi (Nat.min_le_left n count)
      have hic : i < count := Nat.lt_of_lt_of_le hi (Nat.min_le_right n count)
      rw [h3 i hic, hget i (hmax i hic), if_pos hin]
    · intro elem htail i hni hic
      refine ⟨?_, sliceOf_ne elem⟩
      rw [hslot i hni hic, if_pos htail.1]
      have : n = m.Function.ft.NumIn - 1 := by rw [hn, if_pos htail.1]
      rw [this, tailOf_InAt _ _ htail]
  by_cases hcond : (!m.Function.ft.IsVariadic && decide (n > count)) = true
  · rw [if_pos hcond] at heq
    have hlt : count < n := by
      simp only [Bool.and_eq_true, decide_eq_true_eq] at hcond
      exact hcond.2
    have hpos : 0 < (filled ++ slots.drop count).length := by
      rw [hlen0]
      have : n ≤ Nat.max n count := Nat.le_max_left n count
      omega
    rcases hfx with h | h
    · subst h
      obtain ⟨out, ho, hout⟩ := fixer_result fixArguments (Or.inl rfl) _ context hpos
      refine ⟨out, ?_, hfinal out ?_⟩
      · rw [heq]
        simp only [ho]
        rfl
      · rcases hout with h | ⟨v, h⟩
        · exact Or.inl h
        · exact Or.inr ⟨hlt, v, h⟩
    · subst h
      obtain ⟨out, ho, hout⟩ := fixer_result socketFixer_FixArguments (Or.inr rfl) _ context hpos
      refine ⟨out, ?_, hfinal out ?_⟩
      · rw [heq]
        simp only [ho]
        rfl
      · rcases hout with h | ⟨v, h⟩
        · exact Or.inl h
        · exact Or.inr ⟨hlt, v, h⟩
  · rw [if_neg hcond] at heq
    exact ⟨_, heq, hfinal _ (Or.inl rfl)⟩

/-- C20 on `func joinAll(sep int, parts ...string)` and the wire arguments
`3\x7b5nn\x7d`: three arguments, slot 0 of type `int`, slots 1 and 2 of type
`[]string`. -/
theorem readArguments_slots_witness :
    ∃ args, readArguments Sample.codec (some socketFixer_FixArguments)
        ⟨Sample.textBytes "3\x7b5nn\x7dz", 0, ()⟩ (some Sample.joinAll) Sample.context0 =
          Except.ok (args, ⟨Sample.textBytes "3\x7b5nn\x7dz", 6, ()⟩) ∧
      args.length = Nat.max 1 3 ∧
      (∀ i, i < Nat.min 1 3 →
        (args.map Value.typ)[i]? = some (Sample.joinAll.Function.ft.InAt i)) ∧
      (∀ i, 1 ≤ i → i < 3 → (args.map Value.typ)[i]? =
          some (if Sample.joinAll.Function.ft.IsVariadic then Sample.joinAll.Function.ft.InAt 1
            else Ty.interfaceType)) ∧
      (∀ elem, Sample.joinAll.Function.ft.tailOf elem → ∀ i, 1 ≤ i → i < 3 →
          (args.map Value.typ)[i]? = some (Ty.sliceOf elem) ∧ Ty.sliceOf elem ≠ elem) ∧
      args.take 3 =
        [⟨Ty.named "int", Data.int 5⟩, ⟨Ty.sliceOf (Ty.named "string"), Data.null⟩,
          ⟨Ty.sliceOf (Ty.named "string"), Data.null⟩] :=
  readArguments_slots Sample.codec (some socketFixer_FixArguments)
    ⟨Sample.textBytes "3\x7b5nn\x7dz", 0, ()⟩ ⟨Sample.textBytes "3\x7b5nn\x7dz", 2, ()⟩
    ⟨Sample.textBytes "3\x7b5nn\x7dz", 6, ()⟩ Sample.joinAll Sample.context0 1 3
    [Value.zero (Ty.named "int"), Value.zero (Ty.sliceOf (Ty.named "string")),
      Value.zero (Ty.sliceOf (Ty.named "string"))]
    [⟨Ty.named "int", Data.int 5⟩, ⟨Ty.sliceOf (Ty.named "string"), Data.null⟩,
      ⟨Ty.sliceOf (Ty.named "string"), Data.null⟩]
    (by rfl) (by rfl) (by rfl) (by rfl) (by rfl) (Or.inr rfl)

/-- C20 fails as stated. For `func joinAll(sep int, parts ...string)` and three
wire arguments, the two slots after the declared parameter have the slice type
`[]string`, which `reflect` gives for the variadic tail, not the element type
`string`. -/
theorem variadic_slot_has_slice_type :
    Sample.joinAll.Function.ft.tailOf (Ty.named "string") ∧
    readArguments Sample.codec (some socketFixer_FixArguments)
        ⟨Sample.textBytes "3\x7b5nn\x7dz", 0, ()⟩ (some Sample.joinAll) Sample.context0 =
      Except.ok ([⟨Ty.named "int", Data.int 5⟩, ⟨Ty.sliceOf (Ty.named "string"), Data.null⟩,
          ⟨Ty.sliceOf (Ty.named "string"), Data.null⟩],
        ⟨Sample.textBytes "3\x7b5nn\x7dz", 6, ()⟩) ∧
    Ty.sliceOf (Ty.named "string") ≠ Ty.named "string" :=
  ⟨⟨rfl, rfl⟩, by rfl, by decide⟩

end ArgumentTheorems

/-! ## The fixers: the index of the last slot -/

section FixerTheorems

variable {WR RR : Type} (C : Codec WR RR)

theorem fixArguments_last (args : List Value) (context : ServiceContext) (a : Value)
    (ha : args.get? (args.length - 1) = some a) :
    fixArguments args context =
      Except.ok (if a.typ = Ty.interfaceType ∨ a.typ = Ty.contextType ∨
          a.typ = Ty.serviceContextType
        then args.set (args.length - 1) contextValue else args) := by
  unfold fixArguments
  simp only [ha]
  split <;> rfl

theorem socketFixer_last (args : List Value) (context : ServiceContext) (a : Value)
    (ha : args.get? (args.length - 1) = some a) :
    socketFixer_FixArguments args context =
      Except.ok (
        if a.typ = Ty.socketContextType then
          (if context.TransportContext = Transport.socket
            then args.set (args.length - 1) ⟨Ty.socketContextType, Data.socketContext⟩
            else args)
        else if a.typ = Ty.netConnType then
          (if context.TransportContext = Transport.socket
            then args.set (args.length - 1) ⟨Ty.connImpl, Data.conn⟩
            else args)
        else if a.typ = Ty.interfaceType ∨ a.typ = Ty.contextType ∨
            a.typ = Ty.serviceContextType
          then args.set (args.length - 1) contextValue else args) := by
  have hf := fixArguments_last args context a ha
  unfold socketFixer_FixArguments
  simp only [ha]
  cases hT : a.typ <;> simp only [hT] at hf ⊢ <;>
    first
    | (simp only [reduceCtorEq, if_false]; exact hf)
    | (simp only [reduceCtorEq, if_false, if_true]; split <;> rfl)

theorem socketFixer_other (args : List Value) (context : ServiceContext) (a : Value)
    (ha : args.get? (args.length - 1) = some a)
    (h1 : a.typ ≠ Ty.socketContextType) (h2 : a.typ ≠ Ty.netConnType) :
    socketFixer_FixArguments args context = fixArguments args context := by
  rw [socketFixer_last args context a ha, if_neg h1, if_neg h2,
    fixArguments_last args context a ha]

/-- The list `readArguments` passes to the fixer: its length and its last slot. -/
theorem fixer_input (m : Method) (n count : Nat) (slots filled : List Value)
    (hlt : count < n)
    (hslots : slots = (List.range (Nat.max n count)).map (fun i =>
        if i < n then Value.zero (m.Function.ft.InAt i)
        else if m.Function.ft.IsVariadic then Value.zero (m.Function.ft.InAt n)
        else Value.zero Ty.interfaceType)) :
    (filled ++ slots.drop count).length = filled.length + (n - count) ∧
    (filled.length = count →
      (filled ++ slots.drop count).length = n ∧
      (filled ++ slots.drop count).get? (n - 1) =
        some (Value.zero (m.Function.ft.InAt (n - 1)))) := by
  have hmax : Nat.max n count = n := Nat.max_eq_left (Nat.le_of_lt hlt)
  have hslen : slots.length = n := by rw [hslots]; simp [hmax]
  have hlen : (filled ++ slots.drop count).length = filled.length + (n - count) := by
    rw [List.length_append, List.length_drop, hslen]
  refine ⟨hlen, ?_⟩
  intro hf
  refine ⟨by rw [hlen, hf]; omega, ?_⟩
  have hge : filled.length ≤ n - 1 := by omega
  have hin : n - 1 < n := by omega
  rw [List.get?_eq_getElem?, List.getElem?_append_right hge, List.getElem?_drop, hf]
  have hidx : count + (n - 1 - count) = n - 1 := by omega
  have hr : (List.range (Nat.max n count))[n - 1]? = some (n - 1) :=
    List.getElem?_range (by rw [hmax]; exact hin)
  rw [hidx, hslots, List.getElem?_map, hr]
  show some _ = some _
  simp only [if_pos hin]

theorem fixed_slots (args : List Value) (a v : Value) (c : Prop) [Decidable c] (k : Nat)
    (hk : k < args.length) (ha : args.get? k = some a) :
    (if c then args.set k v else args).length = args.length ∧
    (∀ i, i ≠ k → (if c then args.set k v else args)[i]? = args[i]?) ∧
    (if c then args.set k v else args)[k]? = some (if c then v else a) := by
  rw [List.get?_eq_getElem?] at ha
  by_cases h : c
  · have e1 : (if c then args.set k v else args) = args.set k v := if_pos h
    have e2 : (if c then v else a) = v := if_pos h
    rw [e1, e2]
    refine ⟨List.length_set _ _ _, ?_, ?_⟩
    · intro i hi
      exact List.getElem?_set_ne (Ne.symm hi)
    · rw [List.getElem?_set_self hk]
  · have e1 : (if c then args.set k v else args) = args := if_neg h
    have e2 : (if c then v else a) = a := if_neg h
    rw [e1, e2]
    exact ⟨rfl, fun _ _ => rfl, ha⟩

/-- C22. When `readArguments` calls the fixer (the count and the elements are
read, the function is not variadic and `n > count`), it passes the slots read
followed by the `n - count` slots left: `n` is at least 1, the list is not
empty (its length is `n` when the decoder has filled the `count` slots it was
given), so the index `len(args) - 1` is in range, and `fixArguments` and
`socketFixer.FixArguments` return on it without a panic. -/
theorem readArguments_fixer_in_range
    (fx : List Value → ServiceContext → Except Fault (List Value))
    (reader r1 r2 : Reader RR) (m : Method) (context : ServiceContext)
    (n count : Nat) (slots filled : List Value)
    (hn : n = if m.Function.ft.IsVariadic then m.Function.ft.NumIn - 1 else m.Function.ft.NumIn)
    (hslots : slots = (List.range (Nat.max n count)).map (fun i =>
        if i < n then Value.zero (m.Function.ft.InAt i)
        else if m.Function.ft.IsVariadic then Value.zero (m.Function.ft.InAt n)
        else Value.zero Ty.interfaceType))
    (hc : reader.ReadCount C = Except.ok (count, r1))
    (hs : r1.ReadSlice C (slots.take count) = Except.ok (filled, r2))
    (hvar : m.Function.ft.IsVariadic = false) (hlt : count < n) :
    readArguments C (some fx) reader (some m) context =
      (fx (filled ++ slots.drop count) context >>= fun args => pure (args, r2)) ∧
    1 ≤ n ∧
    (filled ++ slots.drop count).length = filled.length + (n - count) ∧
    (filled.length = count → (filled ++ slots.drop count).length = n) ∧
    (filled ++ slots.drop count).length - 1 < (filled ++ slots.drop count).length ∧
    (∃ a, (filled ++ slots.drop count).get? ((filled ++ slots.drop count).length - 1) =
      some a) ∧
    (∃ out, fixArguments (filled ++ slots.drop count) context = Except.ok out) ∧
    (∃ out, socketFixer_FixArguments (filled ++ slots.drop count) context = Except.ok out) := by
  have heq := readArguments_eq C (some fx) reader r1 r2 m context n count slots filled
    hn hslots hc hs
  have hcond : (!m.Function.ft.IsVariadic && decide (n > count)) = true := by
    simp [hvar, hlt]
  rw [if_pos hcond] at heq
  obtain ⟨hlen, hfull⟩ := fixer_input m n count slots filled hlt hslots
  have hpos : 0 < (filled ++ slots.drop count).length := by rw [hlen]; omega
  have hidx : (filled ++ slots.drop count).length - 1 < (filled ++ slots.drop count).length := by
    omega
  obtain ⟨o1, h1, _⟩ := fixer_result fixArguments (Or.inl rfl) _ context hpos
  obtain ⟨o2, h2, _⟩ := fixer_result socketFixer_FixArguments (Or.inr rfl) _ context hpos
  exact ⟨heq, by omega, hlen, fun hf => (hfull hf).1, hidx,
    ⟨_, List.get?_eq_get hidx⟩, ⟨o1, h1⟩, ⟨o2, h2⟩⟩

/-- C22 on `func hello(i int, context Context)` called with one wire argument:
the fixer gets two slots. -/
theorem readArguments_fixer_in_range_witness :
    readArguments Sample.codec (some fixArguments)
        ⟨Sample.textBytes "1\x7b5\x7dz", 0, ()⟩ (some Sample.hello) Sample.context0 =
      (fixArguments ([Sample.intV 5] ++
          [Value.zero (Ty.named "int"), Value.zero Ty.contextType].drop 1) Sample.context0 >>=
        fun args => pure (args, ⟨Sample.textBytes "1\x7b5\x7dz", 4, ()⟩)) ∧
    ([Sample.intV 5] ++
      [Value.zero (Ty.named "int"), Value.zero Ty.contextType].drop 1).length = 2 :=
  by
  have h := readArguments_fixer_in_range Sample.codec fixArguments
    ⟨Sample.textBytes "1\x7b5\x7dz", 0, ()⟩ ⟨Sample.textBytes "1\x7b5\x7dz", 2, ()⟩
    ⟨Sample.textBytes "1\x7b5\x7dz", 4, ()⟩ Sample.hello Sample.context0 2 1
    [Value.zero (Ty.named "int"), Value.zero Ty.contextType]
    [Sample.intV 5] (by rfl) (by rfl) (by rfl) (by rfl) (by rfl) (by decide)
  exact ⟨h.1, h.2.2.2.1 rfl⟩

end FixerTheorems

/-! ## The fixers: what they put into the last slot -/

section FixingTheorems

variable {WR RR : Type} (C : Codec WR RR)

/-- C21 fails as stated. The socket fixer is given the arguments of
`func whoami(i int, context *SocketContext)`, called with one wire argument, and
a context whose transport context is not a socket context: the last parameter
has the socket-context type, but the slot is left empty. -/
theorem socketFixer_leaves_slot_empty :
    readArguments Sample.codec (some socketFixer_FixArguments)
        ⟨Sample.textBytes "1\x7b5\x7dz", 0, ()⟩ (some Sample.whoami)
        { Sample.context0 with TransportContext := Transport.other } =
      Except.ok ([Sample.intV 5, ⟨Ty.socketContextType, Data.null⟩],
        ⟨Sample.textBytes "1\x7b5\x7dz", 4, ()⟩) ∧
    Sample.whoami.Function.ft.InAt 1 = Ty.socketContextType ∧
    Sample.whoami.Function.ft.IsVariadic = false :=
  ⟨by rfl, by rfl, by rfl⟩

/-- C21, amended. For a target that is not variadic, called with fewer wire
arguments than it has parameters (`count < n`), whose `count` slots the decoder
has filled: with the generic fixer `readArguments` returns `n` arguments, all
as they were but the last, which is the context when the type `T` of the last
parameter is the empty interface, `Context` or `*ServiceContext`, and is left
empty otherwise; with the socket fixer the last is, when the transport context
is a socket context, the socket context for `T = *SocketContext` and the
connection for `T = net.Conn`, is left empty for these two types when the
transport context is no socket context, and is what the generic fixer gives
for every other `T`. On a last slot of another type the socket fixer is the
generic fixer. When the target is variadic or `n ≤ count`, the result does not
depend on the fixer: it is the slots read followed by the slots left. -/
theorem readArguments_fixes_last (reader r1 : Reader RR) (m : Method)
    (context : ServiceContext) (n count : Nat) (slots : List Value)
    (hn : n = if m.Function.ft.IsVariadic then m.Function.ft.NumIn - 1 else m.Function.ft.NumIn)
    (hslots : slots = (List.range (Nat.max n count)).map (fun i =>
        if i < n then Value.zero (m.Function.ft.InAt i)
        else if m.Function.ft.IsVariadic then Value.zero (m.Function.ft.InAt n)
        else Value.zero Ty.interfaceType))
    (hc : reader.ReadCount C = Except.ok (count, r1)) :
    (m.Function.ft.IsVariadic = false → count < n →
      ∀ (filled : List Value) (r2 : Reader RR),
      r1.ReadSlice C (slots.take count) = Except.ok (filled, r2) → filled.length = count →
      (∃ out, readArguments C (some fixArguments) reader (some m) context =
          Except.ok (out, r2) ∧
        out.length = n ∧
        (∀ i, i ≠ n - 1 → out[i]? = (filled ++ slots.drop count)[i]?) ∧
        out[n - 1]? = some (
          if m.Function.ft.InAt (n - 1) = Ty.interfaceType ∨
              m.Function.ft.InAt (n - 1) = Ty.contextType ∨
              m.Function.ft.InAt (n - 1) = Ty.serviceContextType
          then contextValue else Value.zero (m.Function.ft.InAt (n - 1)))) ∧
      (∃ out, readArguments C (some socketFixer_FixArguments) reader (some m) context =
          Except.ok (out, r2) ∧
        out.length = n ∧
        (∀ i, i ≠ n - 1 → out[i]? = (filled ++ slots.drop count)[i]?) ∧
        out[n - 1]? = some (
          if m.Function.ft.InAt (n - 1) = Ty.socketContextType then
            (if context.TransportContext = Transport.socket
              then ⟨Ty.socketContextType, Data.socketContext⟩
              else Value.zero (m.Function.ft.InAt (n - 1)))
          else if m.Function.ft.InAt (n - 1) = Ty.netConnType then
            (if context.TransportContext = Transport.socket
              then ⟨Ty.connImpl, Data.conn⟩
              else Value.zero (m.Function.ft.InAt (n - 1)))
          else if m.Function.ft.InAt (n - 1) = Ty.interfaceType ∨
              m.Function.ft.InAt (n - 1) = Ty.contextType ∨
              m.Function.ft.InAt (n - 1) = Ty.serviceContextType
          then contextValue else Value.zero (m.Function.ft.InAt (n - 1))))) ∧
    (∀ (args : List Value) (a : Value), args.get? (args.length - 1) = some a →
      a.typ ≠ Ty.socketContextType → a.typ ≠ Ty.netConnType →
      socketFixer_FixArguments args context = fixArguments args context) ∧
    (m.Function.ft.IsVariadic = true ∨ n ≤ count → ∀ fixer : Fixer,
      readArguments C fixer reader (some m) context =
        (r1.ReadSlice C (slots.take count) >>= fun p =>
          pure (p.1 ++ slots.drop count, p.2))) := by
  refine ⟨?_, ?_, ?_⟩
  · intro hvar hlt filled r2 hs hf
    have hcond : (!m.Function.ft.IsVariadic && decide (n > count)) = true := by
      simp [hvar, hlt]
    obtain ⟨_, hfull⟩ := fixer_input m n count slots filled hlt hslots
    obtain ⟨hlen, hlast⟩ := hfull hf
    have hk : n - 1 < (filled ++ slots.drop count).length := by rw [hlen]; omega
    have hlast2 : (filled ++ slots.drop count).get? ((filled ++ slots.drop count).length - 1) =
        some (Value.zero (m.Function.ft.InAt (n - 1))) := by rw [hlen]; exact hlast
    have htyp : (Value.zero (m.Function.ft.InAt (n - 1))).typ = m.Function.ft.InAt (n - 1) := rfl
    constructor
    · have heq := readArguments_eq C (some fixArguments) reader r1 r2 m context n count slots
        filled hn hslots hc hs
      rw [if_pos hcond] at heq
      have hfix := fixArguments_last _ context _ hlast2
      rw [htyp, hlen] at hfix
      simp only [hfix] at heq
      refine ⟨_, heq, ?_⟩
      · have hp := fixed_slots (filled ++ slots.drop count)
          (Value.zero (m.Function.ft.InAt (n - 1))) contextValue
          (m.Function.ft.InAt (n - 1) = Ty.interfaceType ∨
            m.Function.ft.InAt (n - 1) = Ty.contextType ∨
            m.Function.ft.InAt (n - 1) = Ty.serviceContextType) (n - 1) hk hlast
        exact ⟨hp.1.trans hlen, hp.2.1, hp.2.2⟩
    · have heq := readArguments_eq C (some socketFixer_FixArguments) reader r1 r2 m context n
        count slots filled hn hslots hc hs
      rw [if_pos hcond] at heq
      have hfix := socketFixer_last _ context _ hlast2
      rw [htyp, hlen] at hfix
      simp only [hfix] at heq
      refine ⟨_, heq, ?_⟩
      · by_cases h1 : m.Function.ft.InAt (n - 1) = Ty.socketContextType
        · simp only [if_pos h1]
          have hp := fixed_slots (filled ++ slots.drop count)
            (Value.zero (m.Function.ft.InAt (n - 1))) ⟨Ty.socketContextType, Data.socketContext⟩
            (context.TransportContext = Transport.socket) (n - 1) hk hlast
          exact ⟨hp.1.trans hlen, hp.2.1, hp.2.2⟩
        · by_cases h2 : m.Function.ft.InAt (n - 1) = Ty.netConnType
          · simp only [if_neg h1, if_pos h2]
            have hp := fixed_slots (filled ++ slots.drop count)
              (Value.zero (m.Function.ft.InAt (n - 1))) ⟨Ty.connImpl, Data.conn⟩
              (context.TransportContext = Transport.socket) (n - 1) hk hlast
            exact ⟨hp.1.trans hlen, hp.2.1, hp.2.2⟩
          · simp only [if_neg h1, if_neg h2]
            have hp := fixed_slots (filled ++ slots.drop count)
              (Value.zero (m.Function.ft.InAt (n - 1))) contextValue
              (m.Function.ft.InAt (n - 1) = Ty.interfaceType ∨
                m.Function.ft.InAt (n - 1) = Ty.contextType ∨
                m.Function.ft.InAt (n - 1) = Ty.serviceContextType) (n - 1) hk hlast
            exact ⟨hp.1.trans hlen, hp.2.1, hp.2.2⟩
  · intro args a ha h1 h2
    exact socketFixer_other args context a ha h1 h2
  · intro hno fixer
    cases hs : r1.ReadSlice C (slots.take count) with
    | error f =>
      subst hn
      subst hslots
      simp only [readArguments, hc, except_ok_bind, hs]
      rfl
    | ok p =>
      obtain ⟨filled, r2⟩ := p
      have heq := readArguments_eq C fixer reader r1 r2 m context n count slots filled
        hn hslots hc hs
      have hcond : ¬ (!m.Function.ft.IsVariadic && decide (n > count)) = true := by
        rcases hno with h | h
        · simp [h]
        · simp [Nat.not_lt.mpr h]
      rw [if_neg hcond] at heq
      rw [heq]
      rfl

/-- The amended C21 on `func whoami(i int, context *SocketContext)`, called with
one wire argument and the context of a socket connection: the socket fixer
puts the socket context into the second slot and keeps the first. -/
theorem readArguments_fixes_last_witness :
    ∃ out, readArguments Sample.codec (some socketFixer_FixArguments)
        ⟨Sample.textBytes "1\x7b5\x7dz", 0, ()⟩ (some Sample.whoami) newSocketContext =
          Except.ok (out, ⟨Sample.textBytes "1\x7b5\x7dz", 4, ()⟩) ∧
      out.length = 2 ∧
      out[0]? = some (Sample.intV 5) ∧
      out[1]? = some ⟨Ty.socketContextType, Data.socketContext⟩ := by
  obtain ⟨out, h1, h2, h3, h4⟩ :=
    ((readArguments_fixes_last Sample.codec ⟨Sample.textBytes "1\x7b5\x7dz", 0, ()⟩
      ⟨Sample.textBytes "1\x7b5\x7dz", 2, ()⟩ Sample.whoami newSocketContext 2 1
      [Value.zero (Ty.named "int"), Value.zero Ty.socketContextType]
      (by rfl) (by rfl) (by rfl)).1 (by rfl) (by decide) [Sample.intV 5]
      ⟨Sample.textBytes "1\x7b5\x7dz", 4, ()⟩ (by rfl) (by rfl)).2
  exact ⟨out, h1, h2, (h3 0 (by decide)).trans (by rfl), h4.trans (by rfl)⟩

end FixingTheorems

/-! ## The call loop of `doInvoke`: termination and the number of sub-calls -/

section LoopTheorems

variable {WR RR : Type} (C : Codec WR RR)

/-- One iteration of the call loop that returns has read a method name and at
least the tag after it, and has not moved back. -/
theorem doSingleInvoke_consumes (S : BaseService) (reader : Reader RR)
    (context : ServiceContext) (w w1 : World) (r : SingleRet RR)
    (hr : doSingleInvoke C S reader context w = Res.ok r w1) :
    (∃ name r1, reader.ReadString C = Except.ok (name, r1)) ∧
    r.reader.buf = reader.buf ∧ reader.off < r.reader.off ∧
    r.reader.off ≤ reader.buf.length := by
  obtain ⟨d, hdec, hrd, _⟩ := doSingleInvoke_reader C S reader context w w1 r hr
  obtain ⟨⟨r1, hname⟩, _, _, hbuf, o, h1, h2, h3⟩ :=
    doSingleInvokeDecode_spec C S reader context d hdec
  refine ⟨⟨d.name, r1, hname⟩, ?_, ?_, ?_⟩
  · rw [hrd, hbuf]
  · rw [hrd, h3]
    omega
  · rw [hrd, h3]
    omega

/-- The outcome of the call loop does not depend on the budget, once the
budget is larger than the number of unread bytes. -/
theorem doInvokeLoop_fuel (S : BaseService) (fuel1 : Nat) :
    ∀ (fuel2 : Nat) (reader : Reader RR) (context : ServiceContext)
      (results : List (List Byte)) (w : World),
      reader.buf.length - reader.off < fuel1 → reader.buf.length - reader.off < fuel2 →
      doInvokeLoop C S fuel1 reader context results w =
        doInvokeLoop C S fuel2 reader context results w := by
  induction fuel1 with
  | zero =>
    intro fuel2 reader context results w h1 _
    omega
  | succ n ih =>
    intro fuel2 reader context results w h1 h2
    cases fuel2 with
    | zero => omega
    | succ k =>
      rw [doInvokeLoop_succ, doInvokeLoop_succ]
      cases hr : doSingleInvoke C S reader context w with
      | diverge => rfl
      | fault f w1 => rfl
      | ok r w1 =>
        simp only []
        have hp := doSingleInvoke_progress C S reader context w w1 r hr
        split
        · rfl
        · apply ih
          · simp only [Reader.Reset]
            omega
          · simp only [Reader.Reset]
            omega

/-- When the call loop returns, it has added one output for each sub-call: at
least one, and no more than there were unread bytes. -/
theorem doInvokeLoop_results (S : BaseService) (fuel : Nat) :
    ∀ (reader : Reader RR) (context : ServiceContext) (results0 results : List (List Byte))
      (w w1 : World),
      doInvokeLoop C S fuel reader context results0 w = Res.ok results w1 →
      ∃ added, results = results0 ++ added ∧ 1 ≤ added.length ∧
        added.length ≤ reader.buf.length - reader.off := by
  induction fuel with
  | zero =>
    intro reader context results0 results w w1 h
    simp [doInvokeLoop] at h
  | succ n ih =>
    intro reader context results0 results w w1 h
    rw [doInvokeLoop_succ] at h
    cases hr : doSingleInvoke C S reader context w with
    | diverge => simp [hr] at h
    | fault f w2 => simp [hr] at h
    | ok r w2 =>
      have hp := doSingleInvoke_progress C S reader context w w2 r hr
      simp only [hr] at h
      split at h
      · injection h with h1 h2
        subst h1
        exact ⟨[r.result], rfl, by simp, by simp; omega⟩
      · obtain ⟨added, ha, h1, h2⟩ := ih _ _ _ _ _ _ h
        refine ⟨r.result :: added, ?_, by simp, ?_⟩
        · rw [ha, List.append_assoc]
          rfl
        · simp only [Reader.Reset] at h2
          simp only [List.length_cons]
          omega

/-- C23. For a request that starts with the call tag, `reader` being the reader
after that tag: an iteration of the call loop that returns has read a method
name and at least the tag after it, so it has moved the read position forward
by at least one byte within the request, and the reset between two iterations
keeps the buffer and the read position; the loop ends within as many
iterations as the request has bytes, in a result or in a panic, and a larger
budget changes nothing; and when it returns, the number of outputs, one for
each sub-call, is at least one and less than the length of the request, and
`mergeResult` merges them all, in order, before one end tag. -/
theorem doInvoke_terminates (S : BaseService) (request : List Byte) (reader : Reader RR)
    (context : ServiceContext) (w : World)
    (hreq : (NewReader C request).ReadByte = some (C.TagCall, reader)) :
    (∀ (rd : Reader RR) (ctx : ServiceContext) (w0 w1 : World) (r : SingleRet RR),
      doSingleInvoke C S rd ctx w0 = Res.ok r w1 →
        (∃ name r1, rd.ReadString C = Except.ok (name, r1)) ∧
        r.reader.buf = rd.buf ∧ rd.off < r.reader.off ∧ r.reader.off ≤ rd.buf.length ∧
        (r.reader.Reset C).buf = r.reader.buf ∧ (r.reader.Reset C).off = r.reader.off) ∧
    doInvokeLoop C S request.length reader context [] w ≠ Res.diverge ∧
    (∀ fuel, request.length ≤ fuel →
      doInvokeLoop C S fuel reader context [] w =
        doInvokeLoop C S request.length reader context [] w) ∧
    doInvoke C S reader context w =
      (doInvokeLoop C S request.length reader context [] >>= fun results =>
        liftE (mergeResult C results)) w ∧
    (∀ (results : List (List Byte)) (w1 : World),
      doInvokeLoop C S request.length reader context [] w = Res.ok results w1 →
        1 ≤ results.length ∧ results.length < request.length ∧
        mergeResult C results = Except.ok (results.flatten ++ [C.TagEnd]) ∧
        doInvoke C S reader context w = Res.ok (results.flatten ++ [C.TagEnd]) w1) := by
  have hreader : reader.buf = request ∧ reader.off = 1 ∧ 1 ≤ request.length := by
    unfold NewReader Reader.ReadByte Reader.rest at hreq
    cases request with
    | nil => simp at hreq
    | cons b rest =>
      simp only [List.drop_zero, Option.some.injEq, Prod.mk.injEq] at hreq
      obtain ⟨_, h⟩ := hreq
      subst h
      exact ⟨rfl, rfl, by simp⟩
  obtain ⟨hbuf, hoff, hpos⟩ := hreader
  have hunread : reader.buf.length - reader.off < request.length := by
    rw [hbuf, hoff]
    omega
  have hfuel : reader.buf.length - reader.off + 1 = request.length := by
    rw [hbuf, hoff]
    omega
  have hdo : doInvoke C S reader context w =
      (doInvokeLoop C S request.length reader context [] >>= fun results =>
        liftE (mergeResult C results)) w := by
    unfold doInvoke
    rw [hfuel]
  refine ⟨?_, ?_, ?_, hdo, ?_⟩
  · intro rd ctx w0 w1 r hr
    obtain ⟨h1, h2, h3, h4⟩ := doSingleInvoke_consumes C S rd ctx w0 w1 r hr
    exact ⟨h1, h2, h3, h4, rfl, rfl⟩
  · exact noDiverge_doInvokeLoop C S request.length reader context [] hunread w
  · intro fuel hle
    exact doInvokeLoop_fuel C S fuel request.length reader context [] w
      (Nat.lt_of_lt_of_le hunread hle) hunread
  · intro results w1 hres
    obtain ⟨added, ha, h1, h2⟩ :=
      doInvokeLoop_results C S request.length reader context [] results w w1 hres
    rw [List.nil_append] at ha
    subst ha
    have hmerge : mergeResult C results = Except.ok (results.flatten ++ [C.TagEnd]) := by
      cases results with
      | nil => simp at h1
      | cons r rest => exact mergeResult_flatten C r rest
    refine ⟨h1, by omega, hmerge, ?_⟩
    rw [hdo, bind_apply, hres]
    simp only [hmerge, liftE_ok]

/-- C23 on the sample service and the request `Cs3"inc"a1\x7b5\x7dz` of 14
bytes: the loop returns one output within the budget of 14 iterations. -/
theorem doInvoke_terminates_witness :
    doInvokeLoop Sample.codec (Sample.service Sample.registry Sample.noEvent) 14
        ⟨Sample.textBytes "Cs3\"inc\"a1\x7b5\x7dz", 1, ()⟩ Sample.context0 [] Sample.world0 =
      Res.ok [Sample.textBytes "R6"] ⟨[⟨false, "inc", [Sample.intV 5]⟩], [], 0⟩ ∧
    1 ≤ [Sample.textBytes "R6"].length ∧
    [Sample.textBytes "R6"].length < (Sample.textBytes "Cs3\"inc\"a1\x7b5\x7dz").length ∧
    doInvoke Sample.codec (Sample.service Sample.registry Sample.noEvent)
        ⟨Sample.textBytes "Cs3\"inc\"a1\x7b5\x7dz", 1, ()⟩ Sample.context0 Sample.world0 =
      Res.ok (Sample.textBytes "R6z") ⟨[⟨false, "inc", [Sample.intV 5]⟩], [], 0⟩ := by
  have h := (doInvoke_terminates Sample.codec (Sample.service Sample.registry Sample.noEvent)
    (Sample.textBytes "Cs3\"inc\"a1\x7b5\x7dz")
    ⟨Sample.textBytes "Cs3\"inc\"a1\x7b5\x7dz", 1, ()⟩ Sample.context0 Sample.world0
    (by rfl)).2.2.2.2 [Sample.textBytes "R6"] ⟨[⟨false, "inc", [Sample.intV 5]⟩], [], 0⟩
    (by rfl)
  exact ⟨by rfl, h.1, h.2.1, h.2.2.2⟩

end LoopTheorems

end Hprose
